import Mathlib

/-!
# GraphiQL page rendering (`graphiql.go`)

A shallow embedding of `renderGraphiQL`, of the template `graphiqlTemplate`
it executes, and of the bootstrap script that the template carries.

Go strings and JavaScript strings are modelled as sequences of Unicode scalar
values (`String`, `List Char`): byte sequences that are not valid UTF-8 and
JavaScript strings with unpaired surrogates are outside the model.

The standard library functions that `graphiql.go` calls (`json.MarshalIndent`,
the escapers `html/template` inserts into the template) and the browser
functions the script calls (`encodeURIComponent`, `decodeURIComponent`,
property assignment on plain objects) are embedded next to the code that
calls them, each with the name it has in its library.
-/

namespace GraphiQL

deriving instance DecidableEq for Except

/-! ## `encoding/json` -/

/-- The digits `encoding/json` writes in a `\u00XX` escape (`const hex`). -/
def hex : List Char := "0123456789abcdef".data

/-- The digit of `hex` at index `n`. -/
def hexDigit (n : Nat) : Char := hex.getD n '0'

/-- The table `htmlSafeSet` of `encoding/json`: the ASCII characters that are
written to a JSON string as they are when HTML escaping is on, which is every
character from the space to DEL other than the double quote, `&`, `<`, `>`
and the backslash. -/
def htmlSafeSet (c : Char) : Bool :=
  decide (0x20 ≤ c.toNat) && decide (c.toNat < 0x80) &&
    !(c == '"' || c == '&' || c == '<' || c == '>' || c == '\\')

/-- One step of the loop of `appendString` (with `escapeHTML` set): the text
written for the character `c` of the source string. -/
def escapeRune (c : Char) : List Char :=
  if c.toNat < 0x80 then
    if htmlSafeSet c then [c]
    else if c = '\\' ∨ c = '"' then ['\\', c]
    else if c = '\x08' then ['\\', 'b']
    else if c = '\x0c' then ['\\', 'f']
    else if c = '\n' then ['\\', 'n']
    else if c = '\r' then ['\\', 'r']
    else if c = '\t' then ['\\', 't']
    else ['\\', 'u', '0', '0', hexDigit (c.toNat / 16), hexDigit (c.toNat % 16)]
  else if c = '\u2028' ∨ c = '\u2029' then
    ['\\', 'u', '2', '0', '2', hexDigit (c.toNat % 16)]
  else [c]

/-- What `appendString` writes between the two quotes. -/
def escapeString (s : List Char) : List Char :=
  s.flatMap escapeRune

/-- The function `appendString` of `encoding/json` with `escapeHTML` set, as
`json.Marshal` calls it for a Go string: the JSON string literal of `s`. -/
def appendString (s : String) : String :=
  ⟨'"' :: escapeString s.data ++ ['"']⟩

mutual
/-- The Go values handed to `encoding/json` here: what an `interface{}` holds
after a request was decoded, and a value that cannot be encoded. The entries
of a map are listed in ascending key order, the order in which `encoding/json`
writes them. -/
inductive GoValue
  /-- A nil interface, nil map, nil slice or nil pointer. -/
  | null
  | bool (b : Bool)
  | int (n : Int)
  | str (s : String)
  /-- A slice that is not nil. -/
  | arr (xs : GoList)
  /-- A map that is not nil (also the fields of a struct, in field order). -/
  | obj (m : GoMembers)
  /-- A value `encoding/json` has no encoding for (a channel, a function). -/
  | unsupported
/-- The elements of a slice. -/
inductive GoList
  | nil
  | cons (v : GoValue) (rest : GoList)
/-- The entries of a map. -/
inductive GoMembers
  | nil
  | cons (key : String) (v : GoValue) (rest : GoMembers)
end

/-- The line break `json.Indent` writes: a new line, the prefix, and `depth`
copies of the indent. -/
def newline (pfx indent : String) (depth : Nat) : String :=
  "\n" ++ pfx ++ String.join (List.replicate depth indent)

/-- Decimal digits of an integer, as `strconv.AppendInt` writes them. -/
def formatInt (n : Int) : String :=
  match n with
  | Int.ofNat k => toString k
  | Int.negSucc k => "-" ++ toString (k + 1)

mutual
/-- The text `json.MarshalIndent` produces for a value that stands at nesting
depth `depth`: the encoding of `json.Marshal`, laid out by `json.Indent`. -/
def encodeValue (pfx indent : String) (depth : Nat) : GoValue → Except String String
  | .null => .ok "null"
  | .bool b => .ok (if b then "true" else "false")
  | .int n => .ok (formatInt n)
  | .str s => .ok (appendString s)
  | .arr .nil => .ok "[]"
  | .arr (.cons v rest) =>
    match encodeValue pfx indent (depth + 1) v, encodeElems pfx indent (depth + 1) rest with
    | .ok a, .ok b =>
      .ok ("[" ++ newline pfx indent (depth + 1) ++ a ++ b ++ newline pfx indent depth ++ "]")
    | .error e, _ => .error e
    | _, .error e => .error e
  | .obj .nil => .ok "\x7b\x7d"
  | .obj (.cons k v rest) =>
    match encodeValue pfx indent (depth + 1) v, encodeMembers pfx indent (depth + 1) rest with
    | .ok a, .ok b =>
      .ok ("\x7b" ++ newline pfx indent (depth + 1) ++ appendString k ++ ": " ++ a ++ b
        ++ newline pfx indent depth ++ "\x7d")
    | .error e, _ => .error e
    | _, .error e => .error e
  | .unsupported => .error "json: unsupported type"
/-- The elements of a slice after the first, each after a comma and a line break. -/
def encodeElems (pfx indent : String) (depth : Nat) : GoList → Except String String
  | .nil => .ok ""
  | .cons v rest =>
    match encodeValue pfx indent depth v, encodeElems pfx indent depth rest with
    | .ok a, .ok b => .ok ("," ++ newline pfx indent depth ++ a ++ b)
    | .error e, _ => .error e
    | _, .error e => .error e
/-- The entries of a map after the first, each after a comma and a line break. -/
def encodeMembers (pfx indent : String) (depth : Nat) : GoMembers → Except String String
  | .nil => .ok ""
  | .cons k v rest =>
    match encodeValue pfx indent depth v, encodeMembers pfx indent depth rest with
    | .ok a, .ok b => .ok ("," ++ newline pfx indent depth ++ appendString k ++ ": " ++ a ++ b)
    | .error e, _ => .error e
    | _, .error e => .error e
end

/-- The function `json.MarshalIndent(v, prefix, indent)`. -/
def MarshalIndent (v : GoValue) (pfx indent : String) : Except String String :=
  encodeValue pfx indent 0 v

/-! ## `html/template` -/

/-- UTF-8 encoding of the code point `n`, as a list of bytes. -/
def utf8Encode (n : Nat) : List Nat :=
  if n < 0x80 then [n]
  else if n < 0x800 then [0xC0 + n / 64, 0x80 + n % 64]
  else if n < 0x10000 then [0xE0 + n / 4096, 0x80 + n / 64 % 64, 0x80 + n % 64]
  else [0xF0 + n / 262144, 0x80 + n / 4096 % 64, 0x80 + n / 64 % 64, 0x80 + n % 64]

/-- The function `isHex` of `html/template`. -/
def isHex (c : Char) : Bool :=
  ('0' ≤ c && c ≤ '9') || ('a' ≤ c && c ≤ 'f') || ('A' ≤ c && c ≤ 'F')

/-- The text `fmt.Fprintf(b, "%%%02x", c)` writes for the byte `b`. -/
def percentLower (b : Nat) : List Char :=
  ['%', hexDigit (b / 16), hexDigit (b % 16)]

/-- The bytes `processURLOnto` copies when it normalises, whatever follows
them: the reserved and unreserved characters of RFC 3986 without the single
quote and the round brackets. -/
def urlKeep (c : Char) : Bool :=
  c ∈ ['!', '#', '$', '&', '*', '+', ',', '/', ':', ';', '=', '?', '@', '[', ']',
    '-', '.', '_', '~'] ||
  ('a' ≤ c && c ≤ 'z') || ('A' ≤ c && c ≤ 'Z') || ('0' ≤ c && c ≤ '9')

/-- The loop of `processURLOnto(s, norm, b)` of `html/template` with `norm`
set: bytes of the URL syntax and valid percent escapes are copied, every other
byte is written as a percent escape. -/
def processURLOnto : List Char → List Char
  | [] => []
  | c :: rest =>
    if urlKeep c then c :: processURLOnto rest
    else if c = '%' then
      match rest with
      | a :: b :: _ =>
        if isHex a && isHex b then c :: processURLOnto rest
        else percentLower c.toNat ++ processURLOnto rest
      | _ => percentLower c.toNat ++ processURLOnto rest
    else (utf8Encode c.toNat).flatMap percentLower ++ processURLOnto rest

/-- The escaper `_html_template_urlnormalizer` applied to a Go string. -/
def urlNormalizer (s : String) : String :=
  ⟨processURLOnto s.data⟩

/-- The table `htmlReplacementTable` of `html/template`, read at the character
`c`: the replacement text, or the character itself where the table is empty. -/
def htmlReplacement (c : Char) : List Char :=
  if c = '\x00' then ['\uFFFD']
  else if c = '"' then "&#34;".data
  else if c = '&' then "&amp;".data
  else if c = '\'' then "&#39;".data
  else if c = '+' then "&#43;".data
  else if c = '<' then "&lt;".data
  else if c = '>' then "&gt;".data
  else [c]

/-- The escaper `_html_template_attrescaper` applied to a Go string:
`htmlReplacer(s, htmlReplacementTable, true)`. -/
def attrEscaper (s : String) : String :=
  ⟨s.data.flatMap htmlReplacement⟩

/-- The function `isJSIdentPart` of `html/template`. -/
def isJSIdentPart (c : Char) : Bool :=
  c = '$' || ('0' ≤ c && c ≤ '9') || ('A' ≤ c && c ≤ 'Z') || c = '_' ||
    ('a' ≤ c && c ≤ 'z')

/-- The rewriting loop of `jsValEscaper`, at one character of the JSON text:
U+2028 and U+2029 are written as escapes. -/
def jsLineSeparator (c : Char) : List Char :=
  if c = '\u2028' then "\\u2028".data
  else if c = '\u2029' then "\\u2029".data
  else [c]

/-- The escaper `_html_template_jsvalescaper` applied to a Go string: the
JSON encoding `b` of the string by `json.Marshal`, with U+2028 and U+2029
rewritten, between two spaces when `b` starts or ends with a character of a
JavaScript identifier; the text ` null ` when `b` is empty. -/
def jsValEscaper (s : String) : String :=
  let b := (appendString s).data
  match b.head?, b.getLast? with
  | some first, some last =>
    let pad := if isJSIdentPart first || isJSIdentPart last then [' '] else []
    ⟨pad ++ b.flatMap jsLineSeparator ++ pad⟩
  | _, _ => " null "

/-- What `html/template` writes for an HTML comment in the template text:
nothing. -/
def htmlComment (_ : String) : String := ""

/-- What `html/template` writes for a JavaScript line comment in the template
text: nothing (the line break after the comment is template text). -/
def jsLineComment (_ : String) : String := ""

/-! ## `graphiql.go` -/

/-- The page data structure of the rendered GraphiQL page. -/
structure graphiqlPage where
  GraphiqlVersion : String
  SubscriptionTransportVersion : String
  QueryString : String
  ResultString : String
  VariablesString : String
  OperationName : String
  Endpoint : String
  SubscriptionsEndpoint : String
  deriving DecidableEq, Repr

/-- The current version of GraphiQL. -/
def graphiqlVersion : String := "0.11.10"

/-- The current version of the subscription transport of GraphiQL. -/
def subscriptionTransportVersion : String := "0.8.2"

/-- Template text, line 92 of `graphiql.go`. -/
def text92 : String :=
  "\n"

/-- The HTML comment of the template, lines 93 to 100 of `graphiql.go`. -/
def comment93to100 : String :=
  "<!--\n" ++
  "The request to this GraphQL server provided the header \"Accept: text/html\"\n" ++
  "and as a result has been presented GraphiQL - an in-browser IDE for\n" ++
  "exploring GraphQL.\n" ++
  "\n" ++
  "If you wish to receive JSON, provide the header \"Accept: application/json\" or\n" ++
  "add \"&raw\" to the end of the URL within a browser.\n" ++
  "-->"

/-- Template text, lines 100 to 115 of `graphiql.go`. -/
def text100to115 : String :=
  "\n" ++
  "<!DOCTYPE html>\n" ++
  "<html>\n" ++
  "<head>\n" ++
  "  <meta charset=\"utf-8\" />\n" ++
  "  <title>GraphiQL</title>\n" ++
  "  <meta name=\"robots\" content=\"noindex\" />\n" ++
  "  <style>\n" ++
  "    html, body \x7b\n" ++
  "      height: 100%;\n" ++
  "      margin: 0;\n" ++
  "      overflow: hidden;\n" ++
  "      width: 100%;\n" ++
  "    \x7d\n" ++
  "  </style>\n" ++
  "  <link href=\"//cdn.jsdelivr.net/npm/graphiql@"

/-- Template text, lines 115 to 118 of `graphiql.go`. -/
def text115to118 : String :=
  "/graphiql.css\" rel=\"stylesheet\" />\n" ++
  "  <script src=\"//cdn.jsdelivr.net/react/15.4.2/react.min.js\"></script>\n" ++
  "  <script src=\"//cdn.jsdelivr.net/react/15.4.2/react-dom.min.js\"></script>\n" ++
  "  <script src=\"//cdn.jsdelivr.net/npm/graphiql@"

/-- Template text, lines 118 to 121 of `graphiql.go`. -/
def text118to121 : String :=
  "/graphiql.min.js\"></script>\n" ++
  "\n" ++
  "  <script src=\"//cdn.jsdelivr.net/fetch/2.0.1/fetch.min.js\"></script>\n" ++
  "  "

/-- Template text, lines 121 to 122 of `graphiql.go`. -/
def text121to122 : String :=
  "\n" ++
  "    <script src=\"//unpkg.com/subscriptions-transport-ws@"

/-- Template text, lines 122 to 124 of `graphiql.go`. -/
def text122to124 : String :=
  "/browser/client.js\"></script>\n" ++
  "    <script src=\"//unpkg.com/graphiql-subscriptions-fetcher@0.0.2/browser/client.js\"></script>\n" ++
  "  "

/-- Template text, lines 124 to 128 of `graphiql.go`. -/
def text124to128 : String :=
  "\n" ++
  "\n" ++
  "</head>\n" ++
  "<body>\n" ++
  "  <script>"

/-- Template text, lines 128 to 129 of `graphiql.go`. -/
def text128to129 : String :=
  "\n" ++
  "    "

/-- The JavaScript line comment of the template, line 129 of `graphiql.go`. -/
def comment129 : String :=
  "// Collect the URL parameters"

/-- Template text, lines 129 to 139 of `graphiql.go`. -/
def text129to139 : String :=
  "\n" ++
  "    var parameters = \x7b\x7d;\n" ++
  "    window.location.search.substr(1).split(\'&\').forEach(function (entry) \x7b\n" ++
  "      var eq = entry.indexOf(\'=\');\n" ++
  "      if (eq >= 0) \x7b\n" ++
  "        parameters[decodeURIComponent(entry.slice(0, eq))] =\n" ++
  "          decodeURIComponent(entry.slice(eq + 1));\n" ++
  "      \x7d\n" ++
  "    \x7d);\n" ++
  "\n" ++
  "    "

/-- The JavaScript line comment of the template, line 139 of `graphiql.go`. -/
def comment139 : String :=
  "// Produce a Location query string from a parameter object."

/-- Template text, lines 139 to 147 of `graphiql.go`. -/
def text139to147 : String :=
  "\n" ++
  "    function locationQuery(params, location) \x7b\n" ++
  "      return (location ? location: \'\') + \'?\' + Object.keys(params).map(function (key) \x7b\n" ++
  "        return encodeURIComponent(key) + \'=\' +\n" ++
  "          encodeURIComponent(params[key]);\n" ++
  "      \x7d).join(\'&\');\n" ++
  "    \x7d\n" ++
  "\n" ++
  "    "

/-- The JavaScript line comment of the template, line 147 of `graphiql.go`. -/
def comment147 : String :=
  "// Derive a fetch URL from the current URL, sans the GraphQL parameters."

/-- Template text, lines 147 to 161 of `graphiql.go`. -/
def text147to161 : String :=
  "\n" ++
  "    var graphqlParamNames = \x7b\n" ++
  "      query: true,\n" ++
  "      variables: true,\n" ++
  "      operationName: true\n" ++
  "    \x7d;\n" ++
  "\n" ++
  "    var otherParams = \x7b\x7d;\n" ++
  "    for (var k in parameters) \x7b\n" ++
  "      if (parameters.hasOwnProperty(k) && graphqlParamNames[k] !== true) \x7b\n" ++
  "        otherParams[k] = parameters[k];\n" ++
  "      \x7d\n" ++
  "    \x7d\n" ++
  "\n" ++
  "    "

/-- Template text, lines 161 to 162 of `graphiql.go`. -/
def text161to162 : String :=
  "\n" ++
  "      var subscriptionsClient = new window.SubscriptionsTransportWs.SubscriptionClient("

/-- Template text, lines 162 to 166 of `graphiql.go`. -/
def text162to166 : String :=
  ", \x7b\n" ++
  "        reconnect: true\n" ++
  "      \x7d);\n" ++
  "      var graphQLWSFetcher = subscriptionsClient.request.bind(subscriptionsClient);\n" ++
  "    "

/-- Template text, lines 166 to 168 of `graphiql.go`. -/
def text166to168 : String :=
  "\n" ++
  "\n" ++
  "    "

/-- Template text, lines 168 to 169 of `graphiql.go`. -/
def text168to169 : String :=
  "\n" ++
  "      var fetchURL = locationQuery(otherParams, "

/-- Template text, lines 169 to 170 of `graphiql.go`. -/
def text169to170 : String :=
  ");\n" ++
  "    "

/-- Template text, lines 170 to 172 of `graphiql.go`. -/
def text170to172 : String :=
  "\n" ++
  "      var fetchURL = locationQuery(otherParams)\n" ++
  "    "

/-- Template text, lines 172 to 174 of `graphiql.go`. -/
def text172to174 : String :=
  "\n" ++
  "\n" ++
  "    "

/-- The JavaScript line comment of the template, line 174 of `graphiql.go`. -/
def comment174 : String :=
  "// Defines a GraphQL fetcher using the fetch API."

/-- Template text, lines 174 to 204 of `graphiql.go`. -/
def text174to204 : String :=
  "\n" ++
  "    function graphQLHttpFetcher(graphQLParams) \x7b\n" ++
  "      return fetch(fetchURL, \x7b\n" ++
  "        method: \'post\',\n" ++
  "        headers: \x7b\n" ++
  "          \'Accept\': \'application/json\',\n" ++
  "          \'Content-Type\': \'application/json\'\n" ++
  "        \x7d,\n" ++
  "        body: JSON.stringify(graphQLParams),\n" ++
  "        credentials: \'include\',\n" ++
  "      \x7d).then(function (response) \x7b\n" ++
  "        return response.text();\n" ++
  "      \x7d).then(function (responseBody) \x7b\n" ++
  "        try \x7b\n" ++
  "          return JSON.parse(responseBody);\n" ++
  "        \x7d catch (error) \x7b\n" ++
  "          return responseBody;\n" ++
  "        \x7d\n" ++
  "      \x7d);\n" ++
  "    \x7d\n" ++
  "\n" ++
  "    var fetcher = graphQLHttpFetcher\n" ++
  "\n" ++
  "    if (typeof graphQLWSFetcher != \'undefined\') \x7b\n" ++
  "      fetcher = window.GraphiQLSubscriptionsFetcher.graphQLFetcher(\n" ++
  "        subscriptionsClient,\n" ++
  "        graphQLHttpFetcher\n" ++
  "      );\n" ++
  "    \x7d\n" ++
  "\n" ++
  "    "

/-- The JavaScript line comment of the template, line 204 of `graphiql.go`. -/
def comment204 : String :=
  "// When the query and variables string is edited, update the URL bar so"

/-- Template text, lines 204 to 205 of `graphiql.go`. -/
def text204to205 : String :=
  "\n" ++
  "    "

/-- The JavaScript line comment of the template, line 205 of `graphiql.go`. -/
def comment205 : String :=
  "// that it can be easily shared."

/-- Template text, lines 205 to 225 of `graphiql.go`. -/
def text205to225 : String :=
  "\n" ++
  "    function onEditQuery(newQuery) \x7b\n" ++
  "      parameters.query = newQuery;\n" ++
  "      updateURL();\n" ++
  "    \x7d\n" ++
  "\n" ++
  "    function onEditVariables(newVariables) \x7b\n" ++
  "      parameters.variables = newVariables;\n" ++
  "      updateURL();\n" ++
  "    \x7d\n" ++
  "\n" ++
  "    function onEditOperationName(newOperationName) \x7b\n" ++
  "      parameters.operationName = newOperationName;\n" ++
  "      updateURL();\n" ++
  "    \x7d\n" ++
  "\n" ++
  "    function updateURL() \x7b\n" ++
  "      history.replaceState(null, null, locationQuery(parameters));\n" ++
  "    \x7d\n" ++
  "\n" ++
  "    "

/-- The JavaScript line comment of the template, line 225 of `graphiql.go`. -/
def comment225 : String :=
  "// Render <GraphiQL /> into the body."

/-- Template text, lines 225 to 232 of `graphiql.go`. -/
def text225to232 : String :=
  "\n" ++
  "    ReactDOM.render(\n" ++
  "      React.createElement(GraphiQL, \x7b\n" ++
  "        fetcher: fetcher,\n" ++
  "        onEditQuery: onEditQuery,\n" ++
  "        onEditVariables: onEditVariables,\n" ++
  "        onEditOperationName: onEditOperationName,\n" ++
  "        query: "

/-- Template text, lines 232 to 233 of `graphiql.go`. -/
def text232to233 : String :=
  ",\n" ++
  "        response: "

/-- Template text, lines 233 to 234 of `graphiql.go`. -/
def text233to234 : String :=
  ",\n" ++
  "        variables: "

/-- Template text, lines 234 to 235 of `graphiql.go`. -/
def text234to235 : String :=
  ",\n" ++
  "        operationName: "

/-- Template text, lines 235 to 239 of `graphiql.go`. -/
def text235to239 : String :=
  ",\n" ++
  "      \x7d),\n" ++
  "      document.body\n" ++
  "    );\n" ++
  "  "

/-- Template text, lines 239 to 241 of `graphiql.go`. -/
def text239to241 : String :=
  "</script>\n" ++
  "</body>\n" ++
  "</html>\n"

/-- An action of the template inside a URL attribute (`href`, `src`) in double
quotes, after the start of the URL: `html/template` pipes the value through
`_html_template_urlnormalizer` and `_html_template_attrescaper`. -/
def urlAttrAction (s : String) : String :=
  attrEscaper (urlNormalizer s)

/-- The two `<script>` tags of lines 121 to 124, as executed for page `p`. -/
def subscriptionTags (p : graphiqlPage) : String :=
  text121to122 ++ urlAttrAction p.SubscriptionTransportVersion ++ text122to124

/-- The script lines 161 to 166 that create the subscriptions client, as
executed for page `p`. -/
def subscriptionWiring (p : graphiqlPage) : String :=
  text161to162 ++ jsValEscaper p.SubscriptionsEndpoint ++ text162to166

/-- The script lines 168 to 172 that set `fetchURL`, as executed for `p`. -/
def fetchURLLines (p : graphiqlPage) : String :=
  if p.Endpoint ≠ "" then text168to169 ++ jsValEscaper p.Endpoint ++ text169to170
  else text170to172

/-- The template `index` executed up to and with the `<script>` tag of line
128. -/
def indexHead (p : graphiqlPage) : String :=
  text92 ++ htmlComment comment93to100 ++ text100to115 ++
  urlAttrAction p.GraphiqlVersion ++ text115to118 ++
  urlAttrAction p.GraphiqlVersion ++ text118to121 ++
  (if p.SubscriptionsEndpoint ≠ "" then subscriptionTags p else "") ++
  text124to128

/-- The template `index` executed between the `<script>` tag of line 128 and
the `</script>` tag of line 239: the bootstrap script with the page data. -/
def indexScript (p : graphiqlPage) : String :=
  text128to129 ++ jsLineComment comment129 ++ text129to139 ++
  jsLineComment comment139 ++ text139to147 ++
  jsLineComment comment147 ++ text147to161 ++
  (if p.SubscriptionsEndpoint ≠ "" then subscriptionWiring p else "") ++
  text166to168 ++ fetchURLLines p ++ text172to174 ++
  jsLineComment comment174 ++ text174to204 ++
  jsLineComment comment204 ++ text204to205 ++
  jsLineComment comment205 ++ text205to225 ++
  jsLineComment comment225 ++ text225to232 ++
  jsValEscaper p.QueryString ++ text232to233 ++
  jsValEscaper p.ResultString ++ text233to234 ++
  jsValEscaper p.VariablesString ++ text234to235 ++
  jsValEscaper p.OperationName ++ text235to239

/-- The call `t.ExecuteTemplate(w, "index", p)`: the document the template
writes for the page data `p` when the response writer takes every write. -/
def ExecuteTemplate (p : graphiqlPage) : String :=
  indexHead p ++ indexScript p ++ text239to241

/-- The fields of `graphql.Params` that `renderGraphiQL` reads. `Val` is the
type of the Go values a request carries. -/
structure Params (Val : Type) where
  RequestString : String
  VariableValues : Val
  OperationName : String

/-- Modelled from the spec: the type `GraphiQLConfig` of the handler package,
declared outside `graphiql.go`; its two endpoint fields are read here. -/
structure GraphiQLConfig where
  Endpoint : String
  SubscriptionsEndpoint : String

/-- Modelled from the spec: the type `Handler` of the handler package,
declared outside `graphiql.go`; `graphiqlConfig` is a pointer that may be
nil. -/
structure Handler where
  graphiqlConfig : Option GraphiQLConfig

/-- The two functions of other packages that `renderGraphiQL` calls. -/
structure Packages (Val : Type) where
  /-- The function `json.MarshalIndent(v, prefix, indent)`. -/
  MarshalIndent : Val → String → String → Except String String
  /-- The function `graphql.Do(params)`, the executor. -/
  Do : Params Val → Val

/-- What `renderGraphiQL` wrote to the response writer. -/
inductive Response
  /-- The call `http.Error(w, err.Error(), code)`. -/
  | error (msg : String) (code : Nat)
  /-- The template executed with page data `p` wrote `body`. -/
  | page (p : graphiqlPage) (body : String)
  deriving DecidableEq

/-- The constant `http.StatusInternalServerError`. -/
def StatusInternalServerError : Nat := 500

/-- What a run of `renderGraphiQL` did: the response it wrote and the calls of
the executor it made, in order. -/
structure Run (Val : Type) where
  response : Response
  doCalls : List (Params Val)

/-- The `http.ResponseWriter` handed to `renderGraphiQL`, as far as the
function depends on it: `writeError doc` is the error of the first `Write`
that fails while the template writes the document `doc`, and `none` when every
write succeeds. -/
structure ResponseWriter where
  writeError : String → Option String

/-- A response writer that takes every write. -/
def bufferWriter : ResponseWriter := { writeError := fun _ => none }

/-- The function `renderGraphiQL(w, params, handler)` of lines 24 to 82, with
its response writer `w`. Parsing the constant `graphiqlTemplate` does not
fail (lines 26 to 30) and no action of the template fails on a
`graphiqlPage`, so `ExecuteTemplate` returns an error only when a write
fails; the response is then the call of `http.Error` of lines 78 to 80 (what
the template wrote before the failure is not recorded). -/
def renderGraphiQLTo {Val : Type} (w : ResponseWriter) (pkg : Packages Val)
    (params : Params Val) (handler : Handler) : Run Val :=
  -- Create variables string
  match pkg.MarshalIndent params.VariableValues "" "  " with
  | .error err => ⟨.error err StatusInternalServerError, []⟩
  | .ok vars =>
    let varsString := if vars = "null" then "" else vars
    -- Create result string
    let result : Except String String × List (Params Val) :=
      if params.RequestString = "" then (.ok "", [])
      else (pkg.MarshalIndent (pkg.Do params) "" "  ", [params])
    match result with
    | (.error err, calls) => ⟨.error err StatusInternalServerError, calls⟩
    | (.ok resString, calls) =>
      let endpoint :=
        match handler.graphiqlConfig with
        | some config => config.Endpoint
        | none => ""
      let subscriptionsEndpoint :=
        match handler.graphiqlConfig with
        | some config => config.SubscriptionsEndpoint
        | none => ""
      let p : graphiqlPage :=
        { GraphiqlVersion := graphiqlVersion
          SubscriptionTransportVersion := subscriptionTransportVersion
          QueryString := params.RequestString
          ResultString := resString
          VariablesString := varsString
          OperationName := params.OperationName
          Endpoint := endpoint
          SubscriptionsEndpoint := subscriptionsEndpoint }
      match w.writeError (ExecuteTemplate p) with
      | some err => ⟨.error err StatusInternalServerError, calls⟩
      | none => ⟨.page p (ExecuteTemplate p), calls⟩

/-- The function `renderGraphiQL` called with a response writer that takes
every write: `ExecuteTemplate` writes into a buffer. -/
def renderGraphiQL {Val : Type} (pkg : Packages Val) (params : Params Val)
    (handler : Handler) : Run Val :=
  renderGraphiQLTo bufferWriter pkg params handler

/-- The packages as Go provides them: `encoding/json` on Go values, and an
executor `exec` standing for `graphql.Do` with the handler's schema. -/
def goPackages (exec : Params GoValue → GoValue) : Packages GoValue :=
  { MarshalIndent := MarshalIndent, Do := exec }

/-- The elements of a slice that is not nil. -/
def GoList.ofList : List GoValue → GoList
  | [] => .nil
  | v :: vs => .cons v (GoList.ofList vs)

/-- The type `location.SourceLocation` of the graphql package, with the
fields `line` and `column` of its JSON encoding. -/
structure SourceLocation where
  Line : Int
  Column : Int

/-- The type `gqlerrors.FormattedError` of the graphql package, with the
fields `message` and `locations` of its JSON encoding; `Locations` is a slice
and `none` is the nil slice. -/
structure FormattedError where
  Message : String
  Locations : Option (List SourceLocation)

/-- The type `graphql.Result` of the graphql package: `graphql.Do` returns a
pointer to one, which is never nil. Its JSON encoding has the field `data`
and, when there are errors, the field `errors`. -/
structure Result where
  Data : GoValue
  Errors : List FormattedError

/-- The struct `location.SourceLocation` as `encoding/json` sees it. -/
def SourceLocation.toGo (l : SourceLocation) : GoValue :=
  .obj (.cons "line" (.int l.Line) (.cons "column" (.int l.Column) .nil))

/-- The struct `gqlerrors.FormattedError` as `encoding/json` sees it: a nil
slice is encoded as `null`. -/
def FormattedError.toGo (e : FormattedError) : GoValue :=
  .obj (.cons "message" (.str e.Message)
    (.cons "locations"
      (match e.Locations with
        | none => .null
        | some ls => .arr (GoList.ofList (ls.map SourceLocation.toGo))) .nil))

/-- The struct `graphql.Result` as `encoding/json` sees it: the field
`errors` has the tag `omitempty` and is left out when there is no error. -/
def Result.toGo (r : Result) : GoValue :=
  .obj (.cons "data" r.Data
    (match r.Errors with
      | [] => .nil
      | e :: es =>
        .cons "errors" (.arr (GoList.ofList ((e :: es).map FormattedError.toGo))) .nil))

/-- The packages as Go provides them, with an executor `run` that returns a
`graphql.Result`, as `graphql.Do` does. -/
def graphqlPackages (run : Params GoValue → Result) : Packages GoValue :=
  goPackages fun params => (run params).toGo

/-! ## The bootstrap script of the template (lines 129 to 172)

JavaScript strings are lists of characters. A plain object is the list of its
own properties, in the order in which `Object.keys` and `for ... in` visit
them. -/

/-- A JavaScript string. -/
abbrev JSString := List Char

/-- A plain JavaScript object whose property values are strings: its own
properties in the order of `Object.keys`. -/
abbrev JSObject := List (JSString × JSString)

/-- The digits `encodeURIComponent` writes in a percent escape. -/
def upperHex : List Char := "0123456789ABCDEF".data

/-- The escape `%XY` that `encodeURIComponent` writes for the byte `b`. -/
def percentUpper (b : Nat) : List Char :=
  ['%', upperHex.getD (b / 16) '0', upperHex.getD (b % 16) '0']

/-- The characters `encodeURIComponent` leaves as they are: letters, digits
and ``- _ . ! ~ * ' ( )``. -/
def uriUnescaped (c : Char) : Bool :=
  ('a' ≤ c && c ≤ 'z') || ('A' ≤ c && c ≤ 'Z') || ('0' ≤ c && c ≤ '9') ||
  c ∈ ['-', '_', '.', '!', '~', '*', '\'', '(', ')']

/-- The function `encodeURIComponent`. -/
def encodeURIComponent (s : JSString) : JSString :=
  s.flatMap fun c =>
    if uriUnescaped c then [c] else (utf8Encode c.toNat).flatMap percentUpper

/-- The value of a hexadecimal digit. -/
def hexVal (c : Char) : Option Nat :=
  if '0' ≤ c ∧ c ≤ '9' then some (c.toNat - '0'.toNat)
  else if 'a' ≤ c ∧ c ≤ 'f' then some (c.toNat - 'a'.toNat + 10)
  else if 'A' ≤ c ∧ c ≤ 'F' then some (c.toNat - 'A'.toNat + 10)
  else none

/-- One unit of the text `decodeURIComponent` reads: a character that stands
for itself, or the byte of a percent escape. -/
inductive URIUnit
  | char (c : Char)
  | byte (b : Nat)
  deriving DecidableEq

/-- First pass of `decodeURIComponent`: every `%` must start an escape `%XY`
of two hexadecimal digits, else a `URIError` is thrown (`none`). -/
def readEscapes : JSString → Option (List URIUnit)
  | [] => some []
  | '%' :: a :: b :: rest =>
    match hexVal a, hexVal b, readEscapes rest with
    | some x, some y, some us => some (.byte (16 * x + y) :: us)
    | _, _, _ => none
  | c :: rest =>
    if c = '%' then none
    else
      match readEscapes rest with
      | some us => some (.char c :: us)
      | none => none

/-- Whether `b` is a continuation byte of UTF-8 (`10xxxxxx`). -/
def isContinuation (b : Nat) : Bool :=
  decide (0x80 ≤ b) && decide (b < 0xC0)

/-- Second pass of `decodeURIComponent`, one step: the character at the head
of the units and the units after it. An escaped byte below `0x80` is its
character; a lead byte must be followed by its escaped continuation bytes,
and the bytes must be the UTF-8 encoding of a code point (shortest form, no
surrogate, at most `0x10FFFF`), else a `URIError` is thrown (`none`). -/
def decodeOne : List URIUnit → Option (Char × List URIUnit)
  | [] => none
  | .char c :: rest => some (c, rest)
  | .byte b0 :: rest =>
    if b0 < 0x80 then some (Char.ofNat b0, rest)
    else if b0 < 0xC0 then none
    else if b0 < 0xE0 then
      match rest with
      | .byte b1 :: rest1 =>
        let v := (b0 - 0xC0) * 64 + (b1 - 0x80)
        if isContinuation b1 && decide (0x80 ≤ v) then some (Char.ofNat v, rest1)
        else none
      | _ => none
    else if b0 < 0xF0 then
      match rest with
      | .byte b1 :: .byte b2 :: rest2 =>
        let v := (b0 - 0xE0) * 4096 + (b1 - 0x80) * 64 + (b2 - 0x80)
        if isContinuation b1 && isContinuation b2 && decide (0x800 ≤ v) &&
            !(decide (0xD800 ≤ v) && decide (v ≤ 0xDFFF)) then some (Char.ofNat v, rest2)
        else none
      | _ => none
    else if b0 < 0xF8 then
      match rest with
      | .byte b1 :: .byte b2 :: .byte b3 :: rest3 =>
        let v := (b0 - 0xF0) * 262144 + (b1 - 0x80) * 4096 + (b2 - 0x80) * 64 + (b3 - 0x80)
        if isContinuation b1 && isContinuation b2 && isContinuation b3 &&
            decide (0x10000 ≤ v) && decide (v ≤ 0x10FFFF) then some (Char.ofNat v, rest3)
        else none
      | _ => none
    else none

/-- Second pass of `decodeURIComponent`: the loop that decodes one character
after the other until no unit is left. Every step takes at least one unit, so
`fuel` at least the number of units is never used up. -/
def decodeLoop : Nat → List URIUnit → Option JSString
  | _, [] => some []
  | 0, _ :: _ => none
  | fuel + 1, u :: us =>
    match decodeOne (u :: us) with
    | some (c, rest) =>
      match decodeLoop fuel rest with
      | some s => some (c :: s)
      | none => none
    | none => none

/-- Second pass of `decodeURIComponent` on all units. -/
def decodeUnits (us : List URIUnit) : Option JSString :=
  decodeLoop us.length us

/-- The function `decodeURIComponent`; `none` when it throws a `URIError`. -/
def decodeURIComponent (s : JSString) : Option JSString :=
  match readEscapes s with
  | some us => decodeUnits us
  | none => none

/-- The method `String.prototype.split` with a separator of one character. -/
def split (sep : Char) : JSString → List JSString
  | [] => [[]]
  | c :: rest =>
    if c = sep then [] :: split sep rest
    else
      match split sep rest with
      | [] => [[c]]
      | piece :: pieces => (c :: piece) :: pieces

/-- The method `String.prototype.indexOf` with a string of one character;
`none` stands for the result `-1`. -/
def indexOf (c : Char) : JSString → Option Nat
  | [] => none
  | d :: rest =>
    if d = c then some 0
    else
      match indexOf c rest with
      | some i => some (i + 1)
      | none => none

/-- The digits of a decimal numeral, most significant first. -/
def digitsValue (ds : List Char) : Nat :=
  ds.foldl (fun n d => 10 * n + (d.toNat - '0'.toNat)) 0

/-- The array index a property name stands for, when it is one: the canonical
decimal numeral of an integer below `2^32 - 1`. -/
def arrayIndex (k : JSString) : Option Nat :=
  if k ≠ [] ∧ k.all Char.isDigit ∧ (k = ['0'] ∨ k.head? ≠ some '0') ∧
      digitsValue k < 4294967295 then
    some (digitsValue k)
  else none

/-- Whether a new property named `k` is listed before an existing property
named `k0`: array indices come first, in ascending order; other names keep
the order in which they were created. -/
def listedBefore (k k0 : JSString) : Bool :=
  match arrayIndex k, arrayIndex k0 with
  | some i, some j => decide (i < j)
  | some _, none => true
  | none, _ => false

/-- Creation of a new own property `k` with value `v`. -/
def insertProperty (k v : JSString) : JSObject → JSObject
  | [] => [(k, v)]
  | (k0, v0) :: rest =>
    if listedBefore k k0 then (k, v) :: (k0, v0) :: rest
    else (k0, v0) :: insertProperty k v rest

/-- A new value for the own property `k`, which keeps its place. -/
def updateProperty (k v : JSString) : JSObject → JSObject
  | [] => []
  | (k0, v0) :: rest =>
    if k0 = k then (k0, v) :: rest else (k0, v0) :: updateProperty k v rest

/-- The method `hasOwnProperty` of `Object.prototype`. -/
def hasOwnProperty (o : JSObject) (k : JSString) : Bool :=
  o.any fun kv => kv.1 = k

/-- The value of the own property `k` of `o`. -/
def getOwn (o : JSObject) (k : JSString) : Option JSString :=
  (o.find? fun kv => kv.1 = k).map Prod.snd

/-- The function `Object.keys`. -/
def keys (o : JSObject) : List JSString :=
  o.map Prod.fst

/-- The assignment `o[k] = v` of a string `v` to a plain object: the name
`__proto__` reaches the setter of `Object.prototype`, which ignores a string;
an own property is overwritten in place; any other name becomes a new own
property. -/
def assign (o : JSObject) (k v : JSString) : JSObject :=
  if k = "__proto__".data then o
  else if hasOwnProperty o k then updateProperty k v o
  else insertProperty k v o

/-- The body of the `forEach` callback of lines 131 to 137, run on `entry`
with the object `parameters`; `none` when `decodeURIComponent` throws. -/
def collectEntry (parameters : JSObject) (entry : JSString) : Option JSObject :=
  match indexOf '=' entry with
  | some eq =>
    match decodeURIComponent (entry.take eq), decodeURIComponent (entry.drop (eq + 1)) with
    | some k, some v => some (assign parameters k v)
    | _, _ => none
  | none => some parameters

/-- Lines 130 to 137: "Collect the URL parameters". `search` is
`window.location.search`; the result is the object `parameters`, `none` when
the script is stopped by an exception. -/
def collectParameters (search : JSString) : Option JSObject :=
  (split '&' (search.drop 1)).foldlM collectEntry []

/-- The function `locationQuery(params, location)` of lines 140 to 145;
`location` is `none` when the argument is left out. -/
def locationQuery (params : JSObject) (location : Option JSString) : JSString :=
  (match location with
    | some l => l
    | none => []) ++ '?' ::
    List.intercalate ['&']
      (params.map fun kv => encodeURIComponent kv.1 ++ '=' :: encodeURIComponent kv.2)

/-- The object `graphqlParamNames` of lines 148 to 152, read at `k` and
compared with `true`. -/
def graphqlParamNames (k : JSString) : Bool :=
  k = "query".data || k = "variables".data || k = "operationName".data

/-- The body of the `for ... in` loop of lines 155 to 159, run for the name
`k`. When `parameters` has an own property named `hasOwnProperty`, the call
`parameters.hasOwnProperty(k)` calls a string and throws a `TypeError`
(`none`); otherwise it is true of every name the loop visits. -/
def otherParamsStep (parameters otherParams : JSObject) (k : JSString) : Option JSObject :=
  if hasOwnProperty parameters "hasOwnProperty".data then none
  else if !graphqlParamNames k then
    match getOwn parameters k with
    | some v => some (assign otherParams k v)
    | none => some otherParams
  else some otherParams

/-- Lines 154 to 159: the object `otherParams` derived from `parameters`. -/
def deriveOtherParams (parameters : JSObject) : Option JSObject :=
  (keys parameters).foldlM (otherParamsStep parameters) []

/-- Lines 168 to 172 as the template writes them for the page's `Endpoint`:
`locationQuery(otherParams, Endpoint)` when the endpoint is not empty, else
`locationQuery(otherParams)`. -/
def fetchURL (endpoint : String) (otherParams : JSObject) : JSString :=
  if endpoint ≠ "" then locationQuery otherParams (some endpoint.data)
  else locationQuery otherParams none

/-- The variables of the script after line 172. -/
structure ScriptState where
  parameters : JSObject
  otherParams : JSObject
  fetchURL : JSString
  deriving DecidableEq

/-- Lines 129 to 172 of the script, run in a page rendered with `endpoint`
at an address whose query string is `search`; `none` when an exception stops
the script. -/
def bootstrap (endpoint : String) (search : JSString) : Option ScriptState :=
  match collectParameters search with
  | none => none
  | some parameters =>
    match deriveOtherParams parameters with
    | none => none
    | some otherParams => some ⟨parameters, otherParams, fetchURL endpoint otherParams⟩

/-- The request of the scenarios: the query `{ hello }`, no variables, no
operation name. -/
def helloParams : Params GoValue :=
  { RequestString := "\x7b hello \x7d", VariableValues := .null, OperationName := "" }

/-- The result `{data: {hello: "world"}}`. -/
def helloResult : GoValue :=
  .obj (.cons "data" (.obj (.cons "hello" (.str "world") .nil)) .nil)

/-- A handler without a GraphiQL configuration. -/
def plainHandler : Handler := { graphiqlConfig := none }

/-- The page data `renderGraphiQL` builds from its parts. -/
def pageOf {Val : Type} (params : Params Val) (handler : Handler)
    (varsString resString : String) : graphiqlPage :=
  { GraphiqlVersion := graphiqlVersion
    SubscriptionTransportVersion := subscriptionTransportVersion
    QueryString := params.RequestString
    ResultString := resString
    VariablesString := varsString
    OperationName := params.OperationName
    Endpoint := match handler.graphiqlConfig with
      | some config => config.Endpoint
      | none => ""
    SubscriptionsEndpoint := match handler.graphiqlConfig with
      | some config => config.SubscriptionsEndpoint
      | none => "" }

/-- A request with an empty query text and variables that are absent. -/
def emptyParams : Params GoValue :=
  { RequestString := "", VariableValues := .null, OperationName := "" }

/-- A request with an empty query text and a variables map that is present
and has no entries. -/
def emptyMapParams : Params GoValue :=
  { RequestString := "", VariableValues := .obj .nil, OperationName := "" }

/-- A request whose query names a field the schema does not have. -/
def oopsParams : Params GoValue :=
  { RequestString := "\x7b oops \x7d", VariableValues := .null, OperationName := "" }

/-- The line terminators of JavaScript. -/
def isLineTerminator (c : Char) : Bool :=
  c = '\n' || c = '\r' || c = '\u2028' || c = '\u2029'

/-- The character a single-character escape of JavaScript stands for, for the
escapes that JSON has. -/
def escapeValue (e : Char) : Option Char :=
  if e = '"' then some '"'
  else if e = '\\' then some '\\'
  else if e = 'b' then some '\x08'
  else if e = 'f' then some '\x0c'
  else if e = 'n' then some '\n'
  else if e = 'r' then some '\r'
  else if e = 't' then some '\t'
  else none

/-- The character a `\u` escape with the four digits `a b c d` stands for;
`none` when a digit is not hexadecimal, or the code unit is a surrogate (which is no character of the
model). -/
def unicodeEscapeValue (a b c d : Char) : Option Char :=
  match hexVal a, hexVal b, hexVal c, hexVal d with
  | some x3, some x2, some x1, some x0 =>
    let v := 4096 * x3 + 256 * x2 + 16 * x1 + x0
    if 0xD800 ≤ v ∧ v ≤ 0xDFFF then none else some (Char.ofNat v)
  | _, _, _, _ => none

/-- The value of a double-quoted JavaScript string literal, read after its
opening quote: `t` has to be string characters (anything but the quote, the
backslash and the line terminators) and escapes, up to a closing quote that
is the last character of `t`; `none` when `t` is not of that form. -/
def stringValue : List Char → Option JSString
  | [] => none
  | c :: rest =>
    if c = '"' then (if rest.isEmpty then some [] else none)
    else if c = '\\' then
      match rest with
      | [] => none
      | e :: rest1 =>
        if e = 'u' then
          match rest1 with
          | a :: b :: c :: d :: rest2 =>
            match unicodeEscapeValue a b c d, stringValue rest2 with
            | some x, some s => some (x :: s)
            | _, _ => none
          | _ => none
        else
          match escapeValue e, stringValue rest1 with
          | some x, some s => some (x :: s)
          | _, _ => none
    else if isLineTerminator c then none
    else
      match stringValue rest with
      | some s => some (c :: s)
      | none => none

/-- The value of the text `t` read as one double-quoted JavaScript string
literal; `none` when `t` is not one such literal. -/
def stringLiteralValue (t : List Char) : Option JSString :=
  match t with
  | [] => none
  | c :: rest => if c = '"' then stringValue rest else none

/-- Whether no occurrence of `m` starts inside `x`, whatever follows `x`: no
suffix of `x` that is not empty is the start of `m` or starts with `m`. -/
def clearOf (m : List Char) : List Char → Bool
  | [] => true
  | c :: x => !((c :: x).isPrefixOf m || m.isPrefixOf (c :: x)) && clearOf m x

/-- The template text before the first action. -/
def static1 : String := text92 ++ text100to115

/-- The template text from the second version action up to line 168, as
executed without a subscriptions endpoint. -/
def static3 : String :=
  text118to121 ++ text124to128 ++ text128to129 ++ text129to139 ++ text139to147 ++
    text147to161 ++ text166to168

/-- The template text from line 172 up to the query action. -/
def static4 : String :=
  text172to174 ++ text174to204 ++ text204to205 ++ text205to225 ++ text225to232

/-- The template text after the last action. -/
def static8 : String := text235to239 ++ text239to241

/-- A request whose query text tries to close the script element. -/
def scriptParams : Params GoValue :=
  { RequestString := "</script><script>alert(\"x\")</script>", VariableValues := .null,
    OperationName := "" }

/-- A handler configured with a subscriptions endpoint only. -/
def subscriptionsHandler : Handler :=
  { graphiqlConfig := some { Endpoint := "", SubscriptionsEndpoint := "ws://localhost/subscriptions" } }

/-- The line break and the indentation in front of a line at nesting depth
`depth` of a JSON text indented by two spaces. -/
def indentation (depth : Nat) : List Char :=
  '\n' :: List.replicate (2 * depth) ' '

/-- The text after the literal `lit` at the head of `cs`; `none` when `cs`
does not start with `lit`. -/
def expect (lit cs : List Char) : Option (List Char) :=
  if lit.isPrefixOf cs then some (cs.drop lit.length) else none

/-- The text after a JSON string, read after its opening quote: characters
from U+0020 on other than the quote and the backslash, and the escapes of
JSON, up to the closing quote; `none` when there is no such string. -/
def skipString : List Char → Option (List Char)
  | [] => none
  | c :: rest =>
    if c = '"' then some rest
    else if c = '\\' then
      match rest with
      | [] => none
      | e :: rest1 =>
        if e = 'u' then
          match rest1 with
          | a :: b :: c :: d :: rest2 =>
            if isHex a && isHex b && isHex c && isHex d then skipString rest2 else none
          | _ => none
        else if e ∈ ['"', '\\', '/', 'b', 'f', 'n', 'r', 't'] then skipString rest1
        else none
    else if c.toNat < 0x20 then none
    else skipString rest

/-- The text after the digits at the head of `cs`. -/
def skipDigits (cs : List Char) : List Char :=
  cs.dropWhile Char.isDigit

/-- The text after a JSON integer without sign: `0`, or a digit from `1` to
`9` and the digits after it. -/
def skipNatural : List Char → Option (List Char)
  | [] => none
  | c :: r =>
    if c = '0' then some r
    else if '1' ≤ c ∧ c ≤ '9' then some (skipDigits r)
    else none

/-- The text after a JSON integer. -/
def skipInteger : List Char → Option (List Char)
  | [] => none
  | c :: r => if c = '-' then skipNatural r else skipNatural (c :: r)

mutual
/-- The text after one JSON value that is laid out as `json.Indent` lays out
a value at nesting depth `depth`, with two spaces for each level: `null`,
`true`, `false`, a string, an integer, `[]`, `{}`, or an array or object with
every element or member on a line of its own, indented one level deeper, and
the closing bracket on a line at depth `depth`. `none` when `cs` does not
start with such a value. `fuel` bounds the nesting and the number of
elements. -/
def prettyValue : Nat → Nat → List Char → Option (List Char)
  | 0, _, _ => none
  | fuel + 1, depth, cs =>
    match cs with
    | [] => none
    | c :: r =>
      if c = 'n' then expect "ull".data r
      else if c = 't' then expect "rue".data r
      else if c = 'f' then expect "alse".data r
      else if c = '"' then skipString r
      else if c = '[' then
        match expect [']'] r with
        | some r1 => some r1
        | none =>
          match expect (indentation (depth + 1)) r with
          | some r1 => prettyElements fuel depth r1
          | none => none
      else if c = '\x7b' then
        match expect ['\x7d'] r with
        | some r1 => some r1
        | none =>
          match expect (indentation (depth + 1)) r with
          | some r1 => prettyMembers fuel depth r1
          | none => none
      else skipInteger (c :: r)
/-- The text after the elements of an array at depth `depth` and its closing
bracket, read at the first element. -/
def prettyElements : Nat → Nat → List Char → Option (List Char)
  | 0, _, _ => none
  | fuel + 1, depth, cs =>
    match prettyValue fuel (depth + 1) cs with
    | none => none
    | some r =>
      match expect (',' :: indentation (depth + 1)) r with
      | some r1 => prettyElements fuel depth r1
      | none => expect (indentation depth ++ [']']) r
/-- The text after the members of an object at depth `depth` and its closing
bracket, read at the first member: each member is a string, a colon, a space
and a value. -/
def prettyMembers : Nat → Nat → List Char → Option (List Char)
  | 0, _, _ => none
  | fuel + 1, depth, cs =>
    match expect ['"'] cs with
    | none => none
    | some r0 =>
      match skipString r0 with
      | none => none
      | some r1 =>
        match expect [':', ' '] r1 with
        | none => none
        | some r2 =>
          match prettyValue fuel (depth + 1) r2 with
          | none => none
          | some r =>
            match expect (',' :: indentation (depth + 1)) r with
            | some r3 => prettyMembers fuel depth r3
            | none => expect (indentation depth ++ ['\x7d']) r
end

/-- Whether `s` is one JSON value, pretty-printed with an indentation of two
spaces and no prefix, and nothing else. -/
def isIndentedJSON (s : List Char) : Bool :=
  prettyValue (s.length + 1) 0 s = some []

/-- Whether a digit may not follow: the text is empty or starts with a
character that is not a digit. -/
def endsNumber (rest : List Char) : Prop :=
  ∀ c ∈ rest.head?, c.isDigit = false

/-- What `prettyElements` does after an element: a comma and a line break
lead to the next element, else the closing bracket has to follow on its
line. -/
def afterElement (fuel depth : Nat) (r : List Char) : Option (List Char) :=
  match expect (',' :: indentation (depth + 1)) r with
  | some r1 => prettyElements fuel depth r1
  | none => expect (indentation depth ++ [']']) r

/-- What `prettyMembers` does after a member. -/
def afterMember (fuel depth : Nat) (r : List Char) : Option (List Char) :=
  match expect (',' :: indentation (depth + 1)) r with
  | some r3 => prettyMembers fuel depth r3
  | none => expect (indentation depth ++ ['\x7d']) r

/-- An executor that answers every request with the result
`{data: {hello: "world"}}` and no errors. -/
def helloRun (_ : Params GoValue) : Result :=
  { Data := .obj (.cons "hello" (.str "world") .nil), Errors := [] }

/-- The result `graphql.Do` returns for the query `{ oops }` on a schema whose
query type has no field `oops`: no data and one error, located at the field
(line 1, column 3). -/
def failedResult : Result :=
  { Data := .null
    Errors := [{ Message := "Cannot query field \"oops\" on type \"Query\"."
                 Locations := some [{ Line := 1, Column := 3 }] }] }

/-- A response writer on which every write fails, as on a closed
connection. -/
def brokenWriter : ResponseWriter := { writeError := fun _ => some "write: broken pipe" }

/-- The units `encodeURIComponent` writes for the character `c`. -/
def unitsOf (c : Char) : List URIUnit :=
  if uriUnescaped c then [.char c] else (utf8Encode c.toNat).map .byte

/-- The representation of a plain object that was built by assignments: the
names are distinct, none is `__proto__`, and they stand in the order of
`Object.keys` (no name is listed before one that stands in front of it). -/
def Listed (o : JSObject) : Prop :=
  (keys o).Nodup ∧ "__proto__".data ∉ keys o ∧
    (keys o).Pairwise (fun a b => listedBefore b a = false)

/-- The query string of the URL `url`, as the URL parser gives it to
`location.search`: the text from the first `?` up to the fragment, and the
empty string when there is no query or the query is empty. -/
def urlSearch (url : JSString) : JSString :=
  let q := (url.takeWhile fun c => c != '#').dropWhile fun c => c != '?'
  if q = ['?'] then [] else q

/-- The plain object the script holds after the assignments `o[k] = v` of
`entries`, in turn, to the empty object `{}`: the way the script builds
`parameters` (lines 130 to 137) and edits it (lines 207, 212 and 217). -/
def objectOf (entries : List (JSString × JSString)) : JSObject :=
  entries.foldl (fun o kv => assign o kv.1 kv.2) []

/-- A query string with the three GraphQL parameters, other parameters, an
array index name and an escaped character outside ASCII. -/
def sampleSearch : JSString :=
  "?query=%7Bhello%7D&trace=1&variables=&2=b&x=%E2%82%AC&operationName=Q".data

/-- The object `parameters` the script collects from `sampleSearch`. -/
def sampleParameters : JSObject :=
  [("2".data, "b".data), ("query".data, "\x7bhello\x7d".data), ("trace".data, "1".data),
    ("variables".data, []), ("x".data, "€".data), ("operationName".data, "Q".data)]

/-- The assignments the script makes when it collects `sampleSearch`. -/
def sampleEntries : List (JSString × JSString) :=
  [("query".data, "\x7bhello\x7d".data), ("trace".data, "1".data), ("variables".data, []),
    ("2".data, "b".data), ("x".data, "€".data), ("operationName".data, "Q".data)]

/-- The variables of the script after line 172, at `sampleSearch` in a page
with the endpoint `/graphql`. -/
def sampleState : ScriptState :=
  { parameters := sampleParameters
    otherParams := [("2".data, "b".data), ("trace".data, "1".data), ("x".data, "€".data)]
    fetchURL := "/graphql?2=b&trace=1&x=%E2%82%AC".data }

/-! ## Theorems -/

/-- With an empty query text `renderGraphiQL` does not reach the executor: the
outcome is decided by the variables alone. -/
theorem renderGraphiQL_empty {Val : Type} (pkg : Packages Val) (params : Params Val)
    (handler : Handler) (h : params.RequestString = "") :
    renderGraphiQL pkg params handler =
      match pkg.MarshalIndent params.VariableValues "" "  " with
      | .error err => ⟨.error err StatusInternalServerError, []⟩
      | .ok vars =>
        ⟨.page (pageOf params handler (if vars = "null" then "" else vars) "")
          (ExecuteTemplate (pageOf params handler (if vars = "null" then "" else vars) "")), []⟩ := by
  unfold renderGraphiQL renderGraphiQLTo bufferWriter
  cases hv : pkg.MarshalIndent params.VariableValues "" "  " with
  | error e => rfl
  | ok vars => simp [h, pageOf]

/-- With a query text that is not empty `renderGraphiQL` calls the executor
once, after the variables were serialised, and the outcome is decided by the
two serialisations. -/
theorem renderGraphiQL_nonempty {Val : Type} (pkg : Packages Val) (params : Params Val)
    (handler : Handler) (h : params.RequestString ≠ "") :
    renderGraphiQL pkg params handler =
      match pkg.MarshalIndent params.VariableValues "" "  " with
      | .error err => ⟨.error err StatusInternalServerError, []⟩
      | .ok vars =>
        match pkg.MarshalIndent (pkg.Do params) "" "  " with
        | .error err => ⟨.error err StatusInternalServerError, [params]⟩
        | .ok res =>
          ⟨.page (pageOf params handler (if vars = "null" then "" else vars) res)
            (ExecuteTemplate (pageOf params handler (if vars = "null" then "" else vars) res)),
            [params]⟩ := by
  unfold renderGraphiQL renderGraphiQLTo bufferWriter
  cases hv : pkg.MarshalIndent params.VariableValues "" "  " with
  | error e => rfl
  | ok vars =>
    cases hr : pkg.MarshalIndent (pkg.Do params) "" "  " with
    | error e => simp [h, hr]
    | ok res => simp [h, hr, pageOf]

/-- Every page `renderGraphiQL` renders, with any response writer: the
variables serialised, the result string is empty for an empty query text and
the serialisation of the executor's result otherwise, the page data is built
from these, and the document is the executed template, which the writer
took. -/
theorem renderGraphiQLTo_page {Val : Type} (w : ResponseWriter) (pkg : Packages Val)
    (params : Params Val) (handler : Handler) (p : graphiqlPage) (body : String)
    (h : (renderGraphiQLTo w pkg params handler).response = .page p body) :
    ∃ vars res, pkg.MarshalIndent params.VariableValues "" "  " = .ok vars ∧
      ((params.RequestString = "" ∧ res = "") ∨
        (params.RequestString ≠ "" ∧ pkg.MarshalIndent (pkg.Do params) "" "  " = .ok res)) ∧
      p = pageOf params handler (if vars = "null" then "" else vars) res ∧
      body = ExecuteTemplate p ∧ w.writeError body = none := by
  unfold renderGraphiQLTo at h
  cases hv : pkg.MarshalIndent params.VariableValues "" "  " with
  | error e => rw [hv] at h; cases h
  | ok vars =>
    rw [hv] at h
    by_cases hq : params.RequestString = ""
    · simp only [hq, if_true] at h
      split at h
      · rename_i err hw
        cases h
      · rename_i hw
        injection h with h1 h2
        refine ⟨vars, "", rfl, Or.inl ⟨hq, rfl⟩, ?_, ?_, ?_⟩
        · rw [← h1]; simp [pageOf, hq]
        · rw [← h2, ← h1]
        · rw [← h2]; exact hw
    · simp only [hq, if_false] at h
      cases hr : pkg.MarshalIndent (pkg.Do params) "" "  " with
      | error e => rw [hr] at h; cases h
      | ok res =>
        rw [hr] at h
        simp only [] at h
        split at h
        · cases h
        · rename_i hw
          injection h with h1 h2
          refine ⟨vars, res, rfl, Or.inr ⟨hq, rfl⟩, ?_, ?_, ?_⟩
          · rw [← h1]; simp [pageOf]
          · rw [← h2, ← h1]
          · rw [← h2]; exact hw

/-- Every page rendered for an empty query text has an empty result string. -/
theorem page_resultString_empty {Val : Type} (pkg : Packages Val) (params : Params Val)
    (handler : Handler) (h : params.RequestString = "") (p : graphiqlPage) (body : String)
    (hp : (renderGraphiQL pkg params handler).response = .page p body) :
    p.ResultString = "" := by
  rw [renderGraphiQL_empty pkg params handler h] at hp
  cases hv : pkg.MarshalIndent params.VariableValues "" "  " with
  | error e => rw [hv] at hp; cases hp
  | ok vars =>
    rw [hv] at hp
    injection hp with hp1 _
    rw [← hp1]
    rfl

/-- C2: for every request whose query text is empty, whatever the variables,
the operation name, the configuration and the executor are, `renderGraphiQL`
never calls the executor (an executor swapped for any other gives the same
run), and it sets `ResultString` to the empty string: every page it renders
has an empty `ResultString`, and it renders one whenever the variables
serialise. -/
theorem C2_empty_query_skips_executor {Val : Type} (pkg : Packages Val)
    (params : Params Val) (handler : Handler) (h : params.RequestString = "") :
    (renderGraphiQL pkg params handler).doCalls = [] ∧
    (∀ exec : Params Val → Val,
      renderGraphiQL { pkg with Do := exec } params handler =
        renderGraphiQL pkg params handler) ∧
    (∀ p body, (renderGraphiQL pkg params handler).response = .page p body →
      p.ResultString = "") ∧
    (∀ vars, pkg.MarshalIndent params.VariableValues "" "  " = .ok vars →
      ∃ p body, (renderGraphiQL pkg params handler).response = .page p body ∧
        p.ResultString = "") := by
  have key := renderGraphiQL_empty pkg params handler h
  refine ⟨?_, ?_, ?_, ?_⟩
  · rw [key]
    cases pkg.MarshalIndent params.VariableValues "" "  " <;> rfl
  · intro exec
    rw [key, renderGraphiQL_empty { pkg with Do := exec } params handler h]
  · exact fun p body hp => page_resultString_empty pkg params handler h p body hp
  · intro vars hv
    rw [key, hv]
    exact ⟨_, _, rfl, rfl⟩

/-- Witness of C2 at the request with an empty query and an executor that
would return `helloResult`. -/
theorem C2_witness :
    emptyParams.RequestString = "" ∧
    (renderGraphiQL (goPackages fun _ => helloResult) emptyParams plainHandler).doCalls = [] ∧
    (∀ p body,
      (renderGraphiQL (goPackages fun _ => helloResult) emptyParams plainHandler).response
        = .page p body → p.ResultString = "") :=
  ⟨rfl,
    (C2_empty_query_skips_executor (goPackages fun _ => helloResult) emptyParams
      plainHandler rfl).1,
    (C2_empty_query_skips_executor (goPackages fun _ => helloResult) emptyParams
      plainHandler rfl).2.2.1⟩

/-- The variables string of every rendered page is the serialisation of the
variables, with the text `null` replaced by the empty string. -/
theorem page_variablesString {Val : Type} (pkg : Packages Val) (params : Params Val)
    (handler : Handler) (p : graphiqlPage) (body : String)
    (hp : (renderGraphiQL pkg params handler).response = .page p body) :
    ∃ vars, pkg.MarshalIndent params.VariableValues "" "  " = .ok vars ∧
      p.VariablesString = (if vars = "null" then "" else vars) := by
  by_cases h : params.RequestString = ""
  · rw [renderGraphiQL_empty pkg params handler h] at hp
    cases hv : pkg.MarshalIndent params.VariableValues "" "  " with
    | error e => rw [hv] at hp; cases hp
    | ok vars =>
      rw [hv] at hp
      injection hp with hp1 _
      exact ⟨vars, rfl, by rw [← hp1]; rfl⟩
  · rw [renderGraphiQL_nonempty pkg params handler h] at hp
    cases hv : pkg.MarshalIndent params.VariableValues "" "  " with
    | error e => rw [hv] at hp; cases hp
    | ok vars =>
      rw [hv] at hp
      cases hr : pkg.MarshalIndent (pkg.Do params) "" "  " with
      | error e => rw [hr] at hp; cases hp
      | ok res =>
        rw [hr] at hp
        injection hp with hp1 _
        exact ⟨vars, rfl, by rw [← hp1]; rfl⟩

/-- The result string of every rendered page: empty for an empty query text,
else the serialisation of what the executor returned. -/
theorem page_resultString {Val : Type} (pkg : Packages Val) (params : Params Val)
    (handler : Handler) (p : graphiqlPage) (body : String)
    (hp : (renderGraphiQL pkg params handler).response = .page p body) :
    (params.RequestString = "" ∧ p.ResultString = "") ∨
    (params.RequestString ≠ "" ∧
      pkg.MarshalIndent (pkg.Do params) "" "  " = .ok p.ResultString) := by
  by_cases h : params.RequestString = ""
  · left
    exact ⟨h, (page_resultString_empty pkg params handler h p body hp)⟩
  · right
    rw [renderGraphiQL_nonempty pkg params handler h] at hp
    cases hv : pkg.MarshalIndent params.VariableValues "" "  " with
    | error e => rw [hv] at hp; cases hp
    | ok vars =>
      rw [hv] at hp
      cases hr : pkg.MarshalIndent (pkg.Do params) "" "  " with
      | error e => rw [hr] at hp; cases hp
      | ok res =>
        rw [hr] at hp
        injection hp with hp1 _
        exact ⟨h, by rw [← hp1]; rfl⟩

/-- C3: in every page `renderGraphiQL` renders, `VariablesString` is the empty
string when the indented JSON serialisation of the variables is the text
`null`, is exactly that serialisation when it is any other text, and so is
never the text `null`; and the page is rendered whenever the variables
serialise and the query text is empty or the executor's result serialises. -/
theorem C3_null_variables_collapse {Val : Type} (pkg : Packages Val)
    (params : Params Val) (handler : Handler) :
    (∀ p body, (renderGraphiQL pkg params handler).response = .page p body →
      (pkg.MarshalIndent params.VariableValues "" "  " = .ok "null" →
        p.VariablesString = "") ∧
      (∀ vars, pkg.MarshalIndent params.VariableValues "" "  " = .ok vars →
        vars ≠ "null" → p.VariablesString = vars) ∧
      p.VariablesString ≠ "null") ∧
    (∀ vars, pkg.MarshalIndent params.VariableValues "" "  " = .ok vars →
      (params.RequestString = "" ∨
        ∃ res, pkg.MarshalIndent (pkg.Do params) "" "  " = .ok res) →
      ∃ p body, (renderGraphiQL pkg params handler).response = .page p body ∧
        p.VariablesString = (if vars = "null" then "" else vars)) := by
  constructor
  · intro p body hp
    obtain ⟨vars, hv, hvs⟩ := page_variablesString pkg params handler p body hp
    refine ⟨?_, ?_, ?_⟩
    · intro hnull
      rw [hnull] at hv
      injection hv with hv
      rw [hvs, ← hv]
      rfl
    · intro vars0 hv0 hne
      rw [hv0] at hv
      injection hv with hv
      rw [hvs, ← hv, if_neg hne]
    · rw [hvs]
      by_cases hn : vars = "null"
      · rw [if_pos hn]
        decide
      · rw [if_neg hn]
        exact hn
  · intro vars hv hres
    by_cases h : params.RequestString = ""
    · rw [renderGraphiQL_empty pkg params handler h, hv]
      exact ⟨_, _, rfl, rfl⟩
    · rcases hres with h0 | ⟨res, hr⟩
      · exact absurd h0 h
      · rw [renderGraphiQL_nonempty pkg params handler h, hv, hr]
        exact ⟨_, _, rfl, rfl⟩

/-- C5: for every request with a query text that is not empty and variables
that serialise, `renderGraphiQL` calls the executor exactly once, on that
request; when the returned payload serialises, the page is rendered and its
`ResultString` is exactly `json.MarshalIndent(payload, "", "  ")`; when it
does not, the response is the error. -/
theorem C5_executes_once {Val : Type} (pkg : Packages Val) (params : Params Val)
    (handler : Handler) (vars : String) (h : params.RequestString ≠ "")
    (hv : pkg.MarshalIndent params.VariableValues "" "  " = .ok vars) :
    (renderGraphiQL pkg params handler).doCalls = [params] ∧
    (∀ res, pkg.MarshalIndent (pkg.Do params) "" "  " = .ok res →
      ∃ p body, (renderGraphiQL pkg params handler).response = .page p body ∧
        p.ResultString = res) ∧
    (∀ err, pkg.MarshalIndent (pkg.Do params) "" "  " = .error err →
      (renderGraphiQL pkg params handler).response =
        .error err StatusInternalServerError) := by
  have key := renderGraphiQL_nonempty pkg params handler h
  rw [hv] at key
  refine ⟨?_, ?_, ?_⟩
  · rw [key]
    cases pkg.MarshalIndent (pkg.Do params) "" "  " <;> rfl
  · intro res hr
    rw [key, hr]
    exact ⟨_, _, rfl, rfl⟩
  · intro err hr
    rw [key, hr]

/-- Witness of C5: the query `{ hello }` with the result
`{data: {hello: "world"}}` gives one call of the executor and the indented
JSON text of that object. -/
theorem C5_witness :
    helloParams.RequestString ≠ "" ∧
    MarshalIndent helloParams.VariableValues "" "  " = .ok "null" ∧
    (renderGraphiQL (goPackages fun _ => helloResult) helloParams plainHandler).doCalls
      = [helloParams] ∧
    ∃ p body,
      (renderGraphiQL (goPackages fun _ => helloResult) helloParams plainHandler).response
        = .page p body ∧
      p.ResultString = "\x7b\n  \"data\": \x7b\n    \"hello\": \"world\"\n  \x7d\n\x7d" :=
  ⟨by decide, by decide!,
    (C5_executes_once (goPackages fun _ => helloResult) helloParams plainHandler "null"
      (by decide) (by decide!)).1,
    (C5_executes_once (goPackages fun _ => helloResult) helloParams plainHandler "null"
      (by decide) (by decide!)).2.1 _ (by decide!)⟩

/-- C7, counterexample: for a variables map that is present and has no
entries the page is rendered with `VariablesString` equal to the text `{}`,
not the empty string. -/
theorem C7_counterexample :
    ∃ p body,
      (renderGraphiQL (goPackages fun _ => helloResult) emptyMapParams plainHandler).response
        = .page p body ∧
      p.VariablesString = "\x7b\x7d" ∧ p.VariablesString ≠ "" :=
  ⟨_, _, rfl, by decide!, by decide!⟩

/-- C7, amended: in every page `renderGraphiQL` renders with `encoding/json`,
`VariablesString` is the empty string when the variables mapping is absent
(nil), and is the text `{}` when the mapping is present and has no entries. -/
theorem C7_no_variables (exec : Params GoValue → GoValue) (params : Params GoValue)
    (handler : Handler) (p : graphiqlPage) (body : String)
    (hp : (renderGraphiQL (goPackages exec) params handler).response = .page p body) :
    (params.VariableValues = .null → p.VariablesString = "") ∧
    (params.VariableValues = .obj .nil → p.VariablesString = "\x7b\x7d") := by
  obtain ⟨vars, hv, hvs⟩ := page_variablesString (goPackages exec) params handler p body hp
  constructor
  · intro hnil
    rw [hnil] at hv
    have : vars = "null" := by
      have h0 : (goPackages exec).MarshalIndent .null "" "  " = .ok "null" := rfl
      rw [h0] at hv
      injection hv with hv
      exact hv.symm
    rw [hvs, if_pos this]
  · intro hmap
    rw [hmap] at hv
    have : vars = "\x7b\x7d" := by
      have h0 : (goPackages exec).MarshalIndent (.obj .nil) "" "  " = .ok "\x7b\x7d" := rfl
      rw [h0] at hv
      injection hv with hv
      exact hv.symm
    rw [hvs, this]
    decide

/-- Witness of C7 at the request with an empty query and absent variables. -/
theorem C7_witness :
    (emptyParams.VariableValues = .null →
      (pageOf emptyParams plainHandler "" "").VariablesString = "") ∧
    (emptyParams.VariableValues = .obj .nil →
      (pageOf emptyParams plainHandler "" "").VariablesString = "\x7b\x7d") :=
  C7_no_variables (fun _ => helloResult) emptyParams plainHandler
    (pageOf emptyParams plainHandler "" "") (ExecuteTemplate (pageOf emptyParams plainHandler "" ""))
    (by decide!)

theorem stringValue_plain (c : Char) (t : List Char) (hq : c ≠ '"') (hb : c ≠ '\\')
    (hl : isLineTerminator c = false) :
    stringValue (c :: t) = (stringValue t).map (fun s => c :: s) := by
  rw [stringValue.eq_def]
  simp only [hq, hb, hl, if_false, Bool.false_eq_true]
  cases stringValue t <;> rfl

theorem stringValue_escape (e x : Char) (t : List Char) (he : escapeValue e = some x) :
    stringValue ('\\' :: e :: t) = (stringValue t).map (fun s => x :: s) := by
  have hu : e ≠ 'u' := by
    rintro rfl
    have h0 : escapeValue 'u' = none := by decide
    rw [h0] at he
    cases he
  rw [stringValue.eq_def]
  simp only [hu, he, if_false]
  have h1 : ('\\' : Char) ≠ '"' := by decide
  simp only [h1, if_false, if_true]
  cases stringValue t <;> rfl

theorem stringValue_unicode (a b c d x : Char) (t : List Char)
    (he : unicodeEscapeValue a b c d = some x) :
    stringValue ('\\' :: 'u' :: a :: b :: c :: d :: t) =
      (stringValue t).map (fun s => x :: s) := by
  rw [stringValue.eq_def]
  have h1 : ('\\' : Char) ≠ '"' := by decide
  simp only [h1, he, if_false, if_true]
  cases stringValue t <;> rfl

theorem hexDigit_mem (k : Nat) : hexDigit k ∈ hex := by
  unfold hexDigit
  by_cases h : k < hex.length
  · rw [List.getD_eq_getElem _ _ h]; exact List.getElem_mem _
  · rw [List.getD_eq_default _ _ (by omega)]; decide

theorem hexVal_hexDigit (k : Nat) (h : k < 16) : hexVal (hexDigit k) = some k := by
  revert k; decide

theorem unicodeEscapeValue_low (c : Char) (h : c.toNat < 0x80) :
    unicodeEscapeValue '0' '0' (hexDigit (c.toNat / 16)) (hexDigit (c.toNat % 16)) = some c := by
  unfold unicodeEscapeValue
  have z : hexVal '0' = some 0 := by decide
  rw [z, hexVal_hexDigit _ (by omega), hexVal_hexDigit _ (by omega)]
  simp only
  have e : 4096 * 0 + 256 * 0 + 16 * (c.toNat / 16) + c.toNat % 16 = c.toNat := by omega
  rw [e, if_neg (by omega), Char.ofNat_toNat]

theorem unicodeEscapeValue_separator (c : Char) (h : c = '\u2028' ∨ c = '\u2029') :
    unicodeEscapeValue '2' '0' '2' (hexDigit (c.toNat % 16)) = some c := by
  rcases h with rfl | rfl <;> decide

theorem escapeRune_value (c : Char) (t : List Char) :
    stringValue (escapeRune c ++ t) = (stringValue t).map (fun s => c :: s) := by
  unfold escapeRune
  split_ifs with h1 h2 h3 h4 h5 h6 h7 h8 h9
  · have hq : c ≠ '"' := by rintro rfl; revert h2; decide
    have hb : c ≠ '\\' := by rintro rfl; revert h2; decide
    have hl : isLineTerminator c = false := by
      unfold htmlSafeSet at h2
      simp only [Bool.and_eq_true, decide_eq_true_eq] at h2
      have h20 := h2.1.1
      unfold isLineTerminator
      have e1 : c ≠ '\n' := by rintro rfl; revert h20; decide
      have e2 : c ≠ '\r' := by rintro rfl; revert h20; decide
      have e3 : c ≠ '\u2028' := by rintro rfl; revert h1; decide
      have e4 : c ≠ '\u2029' := by rintro rfl; revert h1; decide
      simp [e1, e2, e3, e4]
    exact stringValue_plain c t hq hb hl
  · rcases h3 with rfl | rfl
    · exact stringValue_escape _ _ _ (by decide)
    · exact stringValue_escape _ _ _ (by decide)
  · subst h4; exact stringValue_escape _ _ _ (by decide)
  · subst h5; exact stringValue_escape _ _ _ (by decide)
  · subst h6; exact stringValue_escape _ _ _ (by decide)
  · subst h7; exact stringValue_escape _ _ _ (by decide)
  · subst h8; exact stringValue_escape _ _ _ (by decide)
  · exact stringValue_unicode _ _ _ _ _ _ (unicodeEscapeValue_low c h1)
  · exact stringValue_unicode _ _ _ _ _ _ (unicodeEscapeValue_separator c h9)
  · have hq : c ≠ '"' := by rintro rfl; revert h1; decide
    have hb : c ≠ '\\' := by rintro rfl; revert h1; decide
    have hl : isLineTerminator c = false := by
      unfold isLineTerminator
      have e1 : c ≠ '\n' := by rintro rfl; revert h1; decide
      have e2 : c ≠ '\r' := by rintro rfl; revert h1; decide
      have e3 : c ≠ '\u2028' := fun e => h9 (Or.inl e)
      have e4 : c ≠ '\u2029' := fun e => h9 (Or.inr e)
      simp [e1, e2, e3, e4]
    exact stringValue_plain c t hq hb hl

theorem escapeString_value (s : List Char) :
    stringValue (escapeString s ++ ['"']) = some s := by
  induction s with
  | nil => rfl
  | cons c s ih =>
    simp only [escapeString, List.flatMap_cons, List.append_assoc] at ih ⊢
    rw [escapeRune_value, ih]
    rfl

/-- The JSON encoding of a Go string is one JavaScript string literal, and
the value of the literal is the string. -/
theorem appendString_value (s : String) :
    stringLiteralValue (appendString s).data = some s.data := by
  show stringLiteralValue ('"' :: (escapeString s.data ++ ['"'])) = _
  simp only [stringLiteralValue, if_true]
  exact escapeString_value s.data

/-- The characters `escapeRune` writes: never `<`, `>`, `&`, a raw line break,
U+2028 or U+2029. -/
theorem escapeRune_safe (c x : Char) (hx : x ∈ escapeRune c) :
    x ≠ '<' ∧ x ≠ '>' ∧ x ≠ '&' ∧ x ≠ '\n' ∧ x ≠ '\u2028' ∧ x ≠ '\u2029' := by
  unfold escapeRune at hx
  have hexsafe : ∀ y ∈ hex,
      y ≠ '<' ∧ y ≠ '>' ∧ y ≠ '&' ∧ y ≠ '\n' ∧ y ≠ '\u2028' ∧ y ≠ '\u2029' := by decide
  split_ifs at hx with h1 h2 h3 h4 h5 h6 h7 h8 h9
  · simp only [List.mem_singleton] at hx
    subst hx
    refine ⟨?_, ?_, ?_, ?_, ?_, ?_⟩
    · rintro rfl; revert h2; decide
    · rintro rfl; revert h2; decide
    · rintro rfl; revert h2; decide
    · rintro rfl; revert h2; decide
    · rintro rfl; revert h1; decide
    · rintro rfl; revert h1; decide
  · rcases h3 with rfl | rfl <;> revert x <;> decide
  · revert x; decide
  · revert x; decide
  · revert x; decide
  · revert x; decide
  · revert x; decide
  · simp only [List.mem_cons, List.mem_singleton, List.not_mem_nil, or_false] at hx
    rcases hx with rfl | rfl | rfl | rfl | rfl | rfl
    · decide
    · decide
    · decide
    · decide
    · exact hexsafe _ (hexDigit_mem _)
    · exact hexsafe _ (hexDigit_mem _)
  · simp only [List.mem_cons, List.mem_singleton, List.not_mem_nil, or_false] at hx
    rcases hx with rfl | rfl | rfl | rfl | rfl | rfl
    · decide
    · decide
    · decide
    · decide
    · decide
    · exact hexsafe _ (hexDigit_mem _)
  · simp only [List.mem_singleton] at hx
    subst hx
    refine ⟨?_, ?_, ?_, ?_, fun e => h9 (Or.inl e), fun e => h9 (Or.inr e)⟩ <;>
      rintro rfl <;> revert h1 <;> decide

theorem appendString_safe (s : String) (x : Char) (hx : x ∈ (appendString s).data) :
    x ≠ '<' ∧ x ≠ '>' ∧ x ≠ '&' ∧ x ≠ '\n' ∧ x ≠ '\u2028' ∧ x ≠ '\u2029' := by
  have hx0 : x ∈ '"' :: (escapeString s.data ++ ['"']) := hx
  simp only [List.mem_cons, List.mem_append, List.mem_singleton, List.not_mem_nil,
    or_false] at hx0
  rcases hx0 with rfl | h | rfl
  · decide
  · unfold escapeString at h
    rw [List.mem_flatMap] at h
    obtain ⟨c, _, hc⟩ := h
    exact escapeRune_safe c x hc
  · decide

theorem flatMap_jsLineSeparator (l : List Char)
    (h : ∀ x ∈ l, x ≠ '\u2028' ∧ x ≠ '\u2029') : l.flatMap jsLineSeparator = l := by
  induction l with
  | nil => rfl
  | cons c l ih =>
    have hc := h c (by simp)
    rw [List.flatMap_cons, ih (fun x hx => h x (by simp [hx]))]
    simp [jsLineSeparator, hc.1, hc.2]

/-- For a Go string `jsValEscaper` writes the JSON encoding of the string:
that text starts and ends with a quote, so it is not padded, and holds no
U+2028 or U+2029, so it is not rewritten. -/
theorem jsValEscaper_eq (s : String) : jsValEscaper s = appendString s := by
  have hs := appendString_safe s
  unfold jsValEscaper
  have hb : (appendString s).data = '"' :: (escapeString s.data ++ ['"']) := rfl
  have hh : (appendString s).data.head? = some '"' := by rw [hb]; rfl
  have hl : (appendString s).data.getLast? = some '"' := by
    rw [hb, ← List.cons_append, List.getLast?_append]
    rfl
  simp only [hh, hl]
  have hp : (isJSIdentPart '"' || isJSIdentPart '"') = false := by decide
  simp only [hp, Bool.false_eq_true, if_false, List.nil_append, List.append_nil]
  rw [flatMap_jsLineSeparator _ (fun x hx => ⟨(hs x hx).2.2.2.2.1, (hs x hx).2.2.2.2.2⟩)]

/-- The text `jsValEscaper` writes for a string holds no `<`, `>`, `&` and no
raw line break. -/
theorem jsValEscaper_safe (s : String) (x : Char) (hx : x ∈ (jsValEscaper s).data) :
    x ≠ '<' ∧ x ≠ '>' ∧ x ≠ '&' ∧ x ≠ '\n' := by
  rw [jsValEscaper_eq] at hx
  have := appendString_safe s x hx
  exact ⟨this.1, this.2.1, this.2.2.1, this.2.2.2.1⟩

/-- The text `jsValEscaper` writes for a Go string is one JavaScript string
literal whose value is the string. -/
theorem jsValEscaper_value (s : String) :
    stringLiteralValue (jsValEscaper s).data = some s.data := by
  rw [jsValEscaper_eq]
  exact appendString_value s

/-- The script between the tags of lines 128 and 239 holds no `<`. -/
theorem indexScript_no_lt (p : graphiqlPage) : '<' ∉ (indexScript p).data := by
  have J : ∀ s, '<' ∉ (jsValEscaper s).data := fun s h => (jsValEscaper_safe s _ h).1 rfl
  have E : '<' ∉ ("" : String).data := by decide
  unfold indexScript subscriptionWiring fetchURLLines jsLineComment
  split_ifs <;>
    simp only [String.data_append, List.mem_append, not_or] <;>
    repeat' apply And.intro
  all_goals first | with_reducible exact J _ | with_reducible exact E | decide!

theorem clearOf_suffix (m x c : List Char) (hx : clearOf m x = true) (hc : c ≠ [])
    (hs : c <:+ x) : ¬ c <+: m ∧ ¬ m <+: c := by
  induction x with
  | nil =>
    have := List.eq_nil_of_suffix_nil hs
    exact absurd this hc
  | cons a x ih =>
    rw [clearOf] at hx
    simp only [Bool.and_eq_true, Bool.not_eq_true', Bool.or_eq_false_iff] at hx
    rcases List.suffix_cons_iff.mp hs with rfl | h
    · constructor
      · intro h1
        have := List.isPrefixOf_iff_prefix.mpr h1
        rw [this] at hx
        exact absurd hx.1.1 (by decide)
      · intro h1
        have := List.isPrefixOf_iff_prefix.mpr h1
        rw [this] at hx
        exact absurd hx.1.2 (by decide)
    · exact ih hx.2 h

/-- An occurrence of `a :: m0` in `h ++ y` lies in `y` when `a` is not in `h`. -/
theorem infix_skip_hole (a : Char) (m0 c t h y : List Char) (hh : a ∉ h)
    (e : c ++ (a :: m0 ++ t) = h ++ y) : (a :: m0) <:+: y := by
  rcases List.append_eq_append_iff.mp e with ⟨d, hd1, hd2⟩ | ⟨d, hd1, hd2⟩
  · cases d with
    | nil => exact ⟨[], t, by simpa using hd2⟩
    | cons d0 d =>
      simp only [List.cons_append, List.cons.injEq] at hd2
      exact absurd (by rw [hd1, hd2.1]; simp) hh
  · exact ⟨d, t, by rw [hd2]; simp⟩

/-- An occurrence of `a :: m0` in `x ++ (h ++ y)` lies in `y`, when no
occurrence starts in `x` and `a` is not in `h`. -/
theorem infix_after_hole (a : Char) (m0 x h y : List Char)
    (hx : clearOf (a :: m0) x = true) (hh : a ∉ h)
    (hm : (a :: m0) <:+: x ++ (h ++ y)) : (a :: m0) <:+: y := by
  obtain ⟨s, t, e⟩ := hm
  rw [List.append_assoc] at e
  rcases List.append_eq_append_iff.mp e with ⟨c, hc1, hc2⟩ | ⟨c, hc1, hc2⟩
  · by_cases hcn : c = []
    · subst hcn
      exact infix_skip_hole a m0 [] t h y hh (by simpa using hc2)
    · have hsuf : c <:+ x := ⟨s, hc1.symm⟩
      have := clearOf_suffix _ _ _ hx hcn hsuf
      rcases List.append_eq_append_iff.mp hc2 with ⟨d, hd1, hd2⟩ | ⟨d, hd1, hd2⟩
      · exact absurd ⟨d, hd1.symm⟩ this.2
      · exact absurd ⟨d, hd1.symm⟩ this.1
  · exact infix_skip_hole a m0 c t h y hh hc2.symm

theorem processURLOnto_no_newline (l : List Char) : '\n' ∉ processURLOnto l := by
  have hp : ∀ b, '\n' ∉ percentLower b := by
    intro b hb
    unfold percentLower at hb
    simp only [List.mem_cons, List.mem_singleton, List.not_mem_nil, or_false] at hb
    have hexsafe : ∀ y ∈ hex, y ≠ '\n' := by decide
    rcases hb with h | h | h
    · revert h; decide
    · exact hexsafe _ (h ▸ hexDigit_mem _) rfl
    · exact hexsafe _ (h ▸ hexDigit_mem _) rfl
  induction l with
  | nil => simp [processURLOnto]
  | cons c rest ih =>
    rw [processURLOnto.eq_def]
    simp only
    split_ifs with h1 h2
    · intro h
      rcases List.mem_cons.mp h with h | h
      · rw [← h] at h1; revert h1; decide
      · exact ih h
    · have hpc : '\n' ∉ percentLower c.toNat ++ processURLOnto rest := by
        intro h
        rcases List.mem_append.mp h with h | h
        · exact hp _ h
        · exact ih h
      split
      · split_ifs
        · intro h
          rcases List.mem_cons.mp h with h | h
          · rw [← h] at h2; revert h2; decide
          · exact ih h
        · exact hpc
      · exact hpc
    · intro h
      rcases List.mem_append.mp h with h | h
      · rw [List.mem_flatMap] at h
        obtain ⟨b, _, hb⟩ := h
        exact hp _ hb
      · exact ih h

theorem htmlReplacement_newline (c : Char) (h : '\n' ∈ htmlReplacement c) : c = '\n' := by
  unfold htmlReplacement at h
  split_ifs at h
  · exact absurd h (by decide)
  · exact absurd h (by decide)
  · exact absurd h (by decide)
  · exact absurd h (by decide)
  · exact absurd h (by decide)
  · exact absurd h (by decide)
  · exact absurd h (by decide)
  · exact (List.mem_singleton.mp h).symm

/-- The text written for an action inside a URL attribute holds no line break. -/
theorem urlAttrAction_no_newline (s : String) : '\n' ∉ (urlAttrAction s).data := by
  intro h
  have h0 : '\n' ∈ (processURLOnto s.data).flatMap htmlReplacement := h
  rw [List.mem_flatMap] at h0
  obtain ⟨c, hc, hx⟩ := h0
  have := htmlReplacement_newline c hx
  rw [this] at hc
  exact processURLOnto_no_newline _ hc

theorem jsValEscaper_no_newline (s : String) : '\n' ∉ (jsValEscaper s).data :=
  fun h => (jsValEscaper_safe s _ h).2.2.2 rfl

/-- The document of a page without a subscriptions endpoint and with an
endpoint, as template text and action values in turn. -/
theorem ExecuteTemplate_data_endpoint (p : graphiqlPage)
    (hs : p.SubscriptionsEndpoint = "") (he : p.Endpoint ≠ "") :
    (ExecuteTemplate p).data =
      static1.data ++ ((urlAttrAction p.GraphiqlVersion).data ++
      (text115to118.data ++ ((urlAttrAction p.GraphiqlVersion).data ++
      ((static3 ++ text168to169).data ++ ((jsValEscaper p.Endpoint).data ++
      ((text169to170 ++ static4).data ++ ((jsValEscaper p.QueryString).data ++
      (text232to233.data ++ ((jsValEscaper p.ResultString).data ++
      (text233to234.data ++ ((jsValEscaper p.VariablesString).data ++
      (text234to235.data ++ ((jsValEscaper p.OperationName).data ++
      static8.data))))))))))))) := by
  simp only [ExecuteTemplate, indexHead, indexScript, fetchURLLines, hs, he, htmlComment,
    jsLineComment, static1, static3, static4, static8, String.data_append,
    List.append_assoc, ne_eq, not_true_eq_false, not_false_eq_true, if_true, if_false,
    String.append_empty, String.empty_append]

/-- The document of a page without a subscriptions endpoint and without an
endpoint, as template text and action values in turn. -/
theorem ExecuteTemplate_data_plain (p : graphiqlPage)
    (hs : p.SubscriptionsEndpoint = "") (he : p.Endpoint = "") :
    (ExecuteTemplate p).data =
      static1.data ++ ((urlAttrAction p.GraphiqlVersion).data ++
      (text115to118.data ++ ((urlAttrAction p.GraphiqlVersion).data ++
      ((static3 ++ text170to172 ++ static4).data ++ ((jsValEscaper p.QueryString).data ++
      (text232to233.data ++ ((jsValEscaper p.ResultString).data ++
      (text233to234.data ++ ((jsValEscaper p.VariablesString).data ++
      (text234to235.data ++ ((jsValEscaper p.OperationName).data ++
      static8.data))))))))))) := by
  simp only [ExecuteTemplate, indexHead, indexScript, fetchURLLines, hs, he, htmlComment,
    jsLineComment, static1, static3, static4, static8, String.data_append,
    List.append_assoc, ne_eq, not_true_eq_false, not_false_eq_true, if_true, if_false,
    String.append_empty, String.empty_append]

/-- The replacement text of the attribute escaper holds no `<`. -/
theorem htmlReplacement_no_lt (c : Char) : '<' ∉ htmlReplacement c := by
  intro h
  unfold htmlReplacement at h
  split_ifs at h with h1 h2 h3 h4 h5 h6 h7
  · exact absurd h (by decide)
  · exact absurd h (by decide)
  · exact absurd h (by decide)
  · exact absurd h (by decide)
  · exact absurd h (by decide)
  · exact absurd h (by decide)
  · exact absurd h (by decide)
  · exact h6 (List.mem_singleton.mp h).symm

/-- The text written for an action inside a URL attribute holds no `<`. -/
theorem urlAttrAction_no_lt (s : String) : '<' ∉ (urlAttrAction s).data := by
  intro h
  have h0 : '<' ∈ (processURLOnto s.data).flatMap htmlReplacement := h
  rw [List.mem_flatMap] at h0
  obtain ⟨c, _, hx⟩ := h0
  exact htmlReplacement_no_lt c hx

/-- The text written for an action inside the script holds no `<`. -/
theorem jsValEscaper_no_lt (s : String) : '<' ∉ (jsValEscaper s).data :=
  fun h => (jsValEscaper_safe s _ h).1 rfl

/-- The document of a page with a subscriptions endpoint and without an
endpoint, as template text and action values in turn. -/
theorem ExecuteTemplate_data_subscriptions (p : graphiqlPage)
    (hs : p.SubscriptionsEndpoint ≠ "") (he : p.Endpoint = "") :
    (ExecuteTemplate p).data =
      static1.data ++ ((urlAttrAction p.GraphiqlVersion).data ++
      (text115to118.data ++ ((urlAttrAction p.GraphiqlVersion).data ++
      ((text118to121 ++ text121to122).data ++
        ((urlAttrAction p.SubscriptionTransportVersion).data ++
      ((text122to124 ++ text124to128 ++ text128to129 ++ text129to139 ++ text139to147 ++
          text147to161 ++ text161to162).data ++ ((jsValEscaper p.SubscriptionsEndpoint).data ++
      ((text162to166 ++ text166to168 ++ text170to172 ++ static4).data ++
        ((jsValEscaper p.QueryString).data ++
      (text232to233.data ++ ((jsValEscaper p.ResultString).data ++
      (text233to234.data ++ ((jsValEscaper p.VariablesString).data ++
      (text234to235.data ++ ((jsValEscaper p.OperationName).data ++
      static8.data))))))))))))))) := by
  simp only [ExecuteTemplate, indexHead, indexScript, fetchURLLines, subscriptionTags,
    subscriptionWiring, hs, he, htmlComment,
    jsLineComment, static1, static3, static4, static8, String.data_append,
    List.append_assoc, ne_eq, not_true_eq_false, not_false_eq_true, if_true, if_false,
    String.append_empty, String.empty_append]

/-- A text that starts with a character `a` that no action value holds, and
starts nowhere in the template text, does not occur in the document of a page
without a subscriptions endpoint. -/
theorem not_infix_without_subscriptions (a : Char) (m0 : List Char) (p : graphiqlPage)
    (U : ∀ s, a ∉ (urlAttrAction s).data) (J : ∀ s, a ∉ (jsValEscaper s).data)
    (hs : p.SubscriptionsEndpoint = "")
    (c1 : clearOf (a :: m0) static1.data = true)
    (c2 : clearOf (a :: m0) text115to118.data = true)
    (c3 : clearOf (a :: m0) (static3 ++ text168to169).data = true)
    (c4 : clearOf (a :: m0) (text169to170 ++ static4).data = true)
    (c34 : clearOf (a :: m0) (static3 ++ text170to172 ++ static4).data = true)
    (c5 : clearOf (a :: m0) text232to233.data = true)
    (c6 : clearOf (a :: m0) text233to234.data = true)
    (c7 : clearOf (a :: m0) text234to235.data = true)
    (c8 : ¬ (a :: m0) <:+: static8.data) :
    ¬ (a :: m0) <:+: (ExecuteTemplate p).data := by
  intro h
  by_cases he : p.Endpoint = ""
  · rw [ExecuteTemplate_data_plain p hs he] at h
    have h := infix_after_hole _ _ _ _ _ c1 (U _) h
    have h := infix_after_hole _ _ _ _ _ c2 (U _) h
    have h := infix_after_hole _ _ _ _ _ c34 (J _) h
    have h := infix_after_hole _ _ _ _ _ c5 (J _) h
    have h := infix_after_hole _ _ _ _ _ c6 (J _) h
    have h := infix_after_hole _ _ _ _ _ c7 (J _) h
    exact c8 h
  · rw [ExecuteTemplate_data_endpoint p hs he] at h
    have h := infix_after_hole _ _ _ _ _ c1 (U _) h
    have h := infix_after_hole _ _ _ _ _ c2 (U _) h
    have h := infix_after_hole _ _ _ _ _ c3 (J _) h
    have h := infix_after_hole _ _ _ _ _ c4 (J _) h
    have h := infix_after_hole _ _ _ _ _ c5 (J _) h
    have h := infix_after_hole _ _ _ _ _ c6 (J _) h
    have h := infix_after_hole _ _ _ _ _ c7 (J _) h
    exact c8 h

/-- A text that starts with a character `a` that no action value holds, and
starts nowhere in the template text, does not occur in the document of a page
with a subscriptions endpoint and without an endpoint. -/
theorem not_infix_with_subscriptions (a : Char) (m0 : List Char) (p : graphiqlPage)
    (U : ∀ s, a ∉ (urlAttrAction s).data) (J : ∀ s, a ∉ (jsValEscaper s).data)
    (hs : p.SubscriptionsEndpoint ≠ "") (he : p.Endpoint = "")
    (c1 : clearOf (a :: m0) static1.data = true)
    (c2 : clearOf (a :: m0) text115to118.data = true)
    (c3 : clearOf (a :: m0) (text118to121 ++ text121to122).data = true)
    (c4 : clearOf (a :: m0) (text122to124 ++ text124to128 ++ text128to129 ++ text129to139 ++
      text139to147 ++ text147to161 ++ text161to162).data = true)
    (c5 : clearOf (a :: m0)
      (text162to166 ++ text166to168 ++ text170to172 ++ static4).data = true)
    (c6 : clearOf (a :: m0) text232to233.data = true)
    (c7 : clearOf (a :: m0) text233to234.data = true)
    (c8 : clearOf (a :: m0) text234to235.data = true)
    (c9 : ¬ (a :: m0) <:+: static8.data) :
    ¬ (a :: m0) <:+: (ExecuteTemplate p).data := by
  intro h
  rw [ExecuteTemplate_data_subscriptions p hs he] at h
  have h := infix_after_hole _ _ _ _ _ c1 (U _) h
  have h := infix_after_hole _ _ _ _ _ c2 (U _) h
  have h := infix_after_hole _ _ _ _ _ c3 (U _) h
  have h := infix_after_hole _ _ _ _ _ c4 (J _) h
  have h := infix_after_hole _ _ _ _ _ c5 (J _) h
  have h := infix_after_hole _ _ _ _ _ c6 (J _) h
  have h := infix_after_hole _ _ _ _ _ c7 (J _) h
  have h := infix_after_hole _ _ _ _ _ c8 (J _) h
  exact c9 h

/-- No `<script>` tag that loads from `unpkg.com` is in the document of a page
without a subscriptions endpoint. -/
theorem no_tags_without_subscriptions (p : graphiqlPage)
    (hs : p.SubscriptionsEndpoint = "") :
    ¬ "<script src=\"//unpkg.com/".data <:+: (ExecuteTemplate p).data :=
  not_infix_without_subscriptions '<' "script src=\"//unpkg.com/".data p
    urlAttrAction_no_lt jsValEscaper_no_lt hs
    (by decide!) (by decide!) (by decide!) (by decide!) (by decide!) (by decide!)
    (by decide!) (by decide!) (by decide!)

/-- No line of the document of a page without a subscriptions endpoint
declares `subscriptionsClient`. -/
theorem no_wiring_without_subscriptions (p : graphiqlPage)
    (hs : p.SubscriptionsEndpoint = "") :
    ¬ "\n      var subscriptionsClient".data <:+: (ExecuteTemplate p).data :=
  not_infix_without_subscriptions '\n' "      var subscriptionsClient".data p
    urlAttrAction_no_newline jsValEscaper_no_newline hs
    (by decide!) (by decide!) (by decide!) (by decide!) (by decide!) (by decide!)
    (by decide!) (by decide!) (by decide!)

/-- No line of the document of a page without a subscriptions endpoint
declares `graphQLWSFetcher`. -/
theorem no_fetcher_without_subscriptions (p : graphiqlPage)
    (hs : p.SubscriptionsEndpoint = "") :
    ¬ "\n      var graphQLWSFetcher".data <:+: (ExecuteTemplate p).data :=
  not_infix_without_subscriptions '\n' "      var graphQLWSFetcher".data p
    urlAttrAction_no_newline jsValEscaper_no_newline hs
    (by decide!) (by decide!) (by decide!) (by decide!) (by decide!) (by decide!)
    (by decide!) (by decide!) (by decide!)

/-- In the document of a page without an endpoint no line sets `fetchURL`
from an endpoint. -/
theorem no_endpoint_line (p : graphiqlPage) (he : p.Endpoint = "") :
    ¬ "\n      var fetchURL = locationQuery(otherParams, ".data <:+:
      (ExecuteTemplate p).data := by
  by_cases hs : p.SubscriptionsEndpoint = ""
  · intro h
    rw [ExecuteTemplate_data_plain p hs he] at h
    have h := infix_after_hole _ _ _ _ _ (by decide!) (urlAttrAction_no_newline _) h
    have h := infix_after_hole _ _ _ _ _ (by decide!) (urlAttrAction_no_newline _) h
    have h := infix_after_hole _ _ _ _ _ (by decide!) (jsValEscaper_no_newline _) h
    have h := infix_after_hole _ _ _ _ _ (by decide!) (jsValEscaper_no_newline _) h
    have h := infix_after_hole _ _ _ _ _ (by decide!) (jsValEscaper_no_newline _) h
    have h := infix_after_hole _ _ _ _ _ (by decide!) (jsValEscaper_no_newline _) h
    exact absurd h (by decide!)
  · exact not_infix_with_subscriptions '\n'
      "      var fetchURL = locationQuery(otherParams, ".data p
      urlAttrAction_no_newline jsValEscaper_no_newline hs he
      (by decide!) (by decide!) (by decide!) (by decide!) (by decide!) (by decide!)
      (by decide!) (by decide!) (by decide!)

/-- Every rendered page is the template executed with the page data that
`renderGraphiQL` builds from the request and the handler. -/
theorem page_shape {Val : Type} (pkg : Packages Val) (params : Params Val)
    (handler : Handler) (p : graphiqlPage) (body : String)
    (hp : (renderGraphiQL pkg params handler).response = .page p body) :
    body = ExecuteTemplate p ∧
    ∃ varsString resString, p = pageOf params handler varsString resString := by
  by_cases h : params.RequestString = ""
  · rw [renderGraphiQL_empty pkg params handler h] at hp
    cases hv : pkg.MarshalIndent params.VariableValues "" "  " with
    | error e => rw [hv] at hp; cases hp
    | ok vars =>
      rw [hv] at hp
      injection hp with hp1 hp2
      subst hp1
      exact ⟨hp2.symm, _, _, rfl⟩
  · rw [renderGraphiQL_nonempty pkg params handler h] at hp
    cases hv : pkg.MarshalIndent params.VariableValues "" "  " with
    | error e => rw [hv] at hp; cases hp
    | ok vars =>
      rw [hv] at hp
      cases hr : pkg.MarshalIndent (pkg.Do params) "" "  " with
      | error e => rw [hr] at hp; cases hp
      | ok res =>
        rw [hr] at hp
        injection hp with hp1 hp2
        subst hp1
        exact ⟨hp2.symm, _, _, rfl⟩

/-- The value written for `query:` stands in the script between the template
text of line 232. -/
theorem query_literal_in_script (p : graphiqlPage) :
    (text225to232 ++ jsValEscaper p.QueryString ++ text232to233).data <:+:
      (indexScript p).data := by
  refine ⟨(text128to129 ++ jsLineComment comment129 ++ text129to139 ++
      jsLineComment comment139 ++ text139to147 ++
      jsLineComment comment147 ++ text147to161 ++
      (if p.SubscriptionsEndpoint ≠ "" then subscriptionWiring p else "") ++
      text166to168 ++ fetchURLLines p ++ text172to174 ++
      jsLineComment comment174 ++ text174to204 ++
      jsLineComment comment204 ++ text204to205 ++
      jsLineComment comment205 ++ text205to225 ++
      jsLineComment comment225).data,
    (jsValEscaper p.ResultString ++ text233to234 ++
      jsValEscaper p.VariablesString ++ text234to235 ++
      jsValEscaper p.OperationName ++ text235to239).data, ?_⟩
  simp only [indexScript, String.data_append, List.append_assoc]

/-- A text that starts with `<` does not occur where there is no `<`. -/
theorem not_infix_of_head_not_mem (a : Char) (m0 l : List Char) (h : a ∉ l) :
    ¬ (a :: m0) <:+: l := by
  rintro ⟨s, t, rfl⟩
  exact h (by simp)

/-- With a subscriptions endpoint the two tags of lines 121 to 124 are in the
document. -/
theorem tags_with_subscriptions (p : graphiqlPage) (hs : p.SubscriptionsEndpoint ≠ "") :
    (subscriptionTags p).data <:+: (ExecuteTemplate p).data := by
  refine ⟨(text92 ++ htmlComment comment93to100 ++ text100to115 ++
      urlAttrAction p.GraphiqlVersion ++ text115to118 ++
      urlAttrAction p.GraphiqlVersion ++ text118to121).data,
    (text124to128 ++ indexScript p ++ text239to241).data, ?_⟩
  simp only [ExecuteTemplate, indexHead, if_pos hs, String.data_append, List.append_assoc]

/-- With a subscriptions endpoint the lines 161 to 166 that create the
subscriptions client are in the document. -/
theorem wiring_with_subscriptions (p : graphiqlPage) (hs : p.SubscriptionsEndpoint ≠ "") :
    (subscriptionWiring p).data <:+: (ExecuteTemplate p).data := by
  refine ⟨(indexHead p ++ (text128to129 ++ jsLineComment comment129 ++ text129to139 ++
      jsLineComment comment139 ++ text139to147 ++
      jsLineComment comment147 ++ text147to161)).data,
    (text166to168 ++ fetchURLLines p ++ text172to174 ++
      jsLineComment comment174 ++ text174to204 ++
      jsLineComment comment204 ++ text204to205 ++
      jsLineComment comment205 ++ text205to225 ++
      jsLineComment comment225 ++ text225to232 ++
      jsValEscaper p.QueryString ++ text232to233 ++
      jsValEscaper p.ResultString ++ text233to234 ++
      jsValEscaper p.VariablesString ++ text234to235 ++
      jsValEscaper p.OperationName ++ text235to239 ++ text239to241).data, ?_⟩
  simp only [ExecuteTemplate, indexScript, if_pos hs, String.data_append, List.append_assoc]

/-- The two `<script>` tags, as text, are in the executed lines 121 to 124. -/
theorem tags_text_in_tags (q : graphiqlPage) :
    ("<script src=\"//unpkg.com/subscriptions-transport-ws@" ++
        urlAttrAction q.SubscriptionTransportVersion ++
        "/browser/client.js\"></script>\n" ++
        "    <script src=\"//unpkg.com/graphiql-subscriptions-fetcher@0.0.2/browser/client.js\"></script>").data
      <:+: (subscriptionTags q).data := by
  refine ⟨"\n    ".data, "\n  ".data, ?_⟩
  simp only [subscriptionTags, String.data_append, List.append_assoc]
  have h1 : text121to122.data = "\n    ".data ++
      "<script src=\"//unpkg.com/subscriptions-transport-ws@".data := by decide
  have h2 : text122to124.data = "/browser/client.js\"></script>\n".data ++
      ("    <script src=\"//unpkg.com/graphiql-subscriptions-fetcher@0.0.2/browser/client.js\"></script>".data
        ++ "\n  ".data) := by decide
  rw [h1, h2]
  simp only [List.append_assoc]

/-- The lines that create the subscriptions client, as text, are the executed
lines 161 to 166. -/
theorem wiring_text_in_wiring (q : graphiqlPage) :
    ("\n      var subscriptionsClient = new window.SubscriptionsTransportWs.SubscriptionClient(" ++
        jsValEscaper q.SubscriptionsEndpoint ++
        ", \x7b\n        reconnect: true\n      \x7d);\n" ++
        "      var graphQLWSFetcher = subscriptionsClient.request.bind(subscriptionsClient);\n").data
      <:+: (subscriptionWiring q).data := by
  refine ⟨[], "    ".data, ?_⟩
  simp only [subscriptionWiring, String.data_append, List.append_assoc, List.nil_append]
  have h1 : text161to162.data =
      "\n      var subscriptionsClient = new window.SubscriptionsTransportWs.SubscriptionClient(".data := by
    decide
  have h2 : text162to166.data = ", \x7b\n        reconnect: true\n      \x7d);\n".data ++
      ("      var graphQLWSFetcher = subscriptionsClient.request.bind(subscriptionsClient);\n".data
        ++ "    ".data) := by decide
  rw [h1, h2]

/-- The lines 168 to 172 that set `fetchURL` are in the document. -/
theorem fetchURLLines_in_document (p : graphiqlPage) :
    (fetchURLLines p).data <:+: (ExecuteTemplate p).data := by
  refine ⟨(indexHead p ++ (text128to129 ++ jsLineComment comment129 ++ text129to139 ++
      jsLineComment comment139 ++ text139to147 ++
      jsLineComment comment147 ++ text147to161 ++
      (if p.SubscriptionsEndpoint ≠ "" then subscriptionWiring p else "") ++
      text166to168)).data,
    (text172to174 ++
      jsLineComment comment174 ++ text174to204 ++
      jsLineComment comment204 ++ text204to205 ++
      jsLineComment comment205 ++ text205to225 ++
      jsLineComment comment225 ++ text225to232 ++
      jsValEscaper p.QueryString ++ text232to233 ++
      jsValEscaper p.ResultString ++ text233to234 ++
      jsValEscaper p.VariablesString ++ text234to235 ++
      jsValEscaper p.OperationName ++ text235to239 ++ text239to241).data, ?_⟩
  simp only [ExecuteTemplate, indexScript, String.data_append, List.append_assoc]

/-- Without an endpoint the line that sets `fetchURL` from `otherParams`
alone is in the document. -/
theorem plain_fetchURL_line (p : graphiqlPage) (he : p.Endpoint = "") :
    "\n      var fetchURL = locationQuery(otherParams)\n".data <:+:
      (ExecuteTemplate p).data := by
  refine List.IsInfix.trans ?_ (fetchURLLines_in_document p)
  unfold fetchURLLines
  rw [he]
  exact ⟨[], "    ".data, by decide⟩

/-- Where a text occurs, the text it starts with occurs. -/
theorem isInfix_of_start (m a b l : List Char) (h : (m ++ a ++ b) <:+: l) :
    m <:+: l := by
  obtain ⟨s, t, e⟩ := h
  exact ⟨s, a ++ b ++ t, by rw [← e]; simp⟩

/-- C1: in every page `renderGraphiQL` renders, whatever the query text of
the request holds (the text `</script>` and quote characters included), the
document is the head, the script and the closing tag of line 239; the value
written for `query:` in the script is the escaped query text, which is one
JavaScript string literal (its only unescaped quotes open and close it) whose
value is the query text, and holds no `<`, so no `</script>`; and the whole
script between the tags of lines 128 and 239 holds no `<`, so the text
`</script` occurs nowhere in it and the script element closes at the tag of
line 239. -/
theorem C1_query_literal_is_safe {Val : Type} (pkg : Packages Val) (params : Params Val)
    (handler : Handler) (p : graphiqlPage) (body : String)
    (hp : (renderGraphiQL pkg params handler).response = .page p body) :
    body = indexHead p ++ indexScript p ++ text239to241 ∧
    (text225to232 ++ jsValEscaper params.RequestString ++ text232to233).data <:+:
      (indexScript p).data ∧
    stringLiteralValue (jsValEscaper params.RequestString).data =
      some params.RequestString.data ∧
    '<' ∉ (jsValEscaper params.RequestString).data ∧
    ¬ "</script>".data <:+: (jsValEscaper params.RequestString).data ∧
    '<' ∉ (indexScript p).data ∧
    ¬ "</script".data <:+: (indexScript p).data ∧
    "</script>".data <+: text239to241.data := by
  obtain ⟨hb, vs, rs, hpage⟩ := page_shape pkg params handler p body hp
  have hq : p.QueryString = params.RequestString := by rw [hpage]; rfl
  have hlt : '<' ∉ (jsValEscaper params.RequestString).data :=
    fun h => (jsValEscaper_safe _ _ h).1 rfl
  refine ⟨hb, ?_, jsValEscaper_value _, hlt, ?_, indexScript_no_lt p, ?_, ?_⟩
  · rw [← hq]
    exact query_literal_in_script p
  · exact not_infix_of_head_not_mem '<' "/script>".data _ hlt
  · exact not_infix_of_head_not_mem '<' "/script".data _ (indexScript_no_lt p)
  · exact ⟨"\n</body>\n</html>\n".data, by decide⟩

/-- Witness of C1 at the query text
`</script><script>alert("x")</script>`. -/
theorem C1_witness :
    jsValEscaper scriptParams.RequestString =
      "\"\\u003c/script\\u003e\\u003cscript\\u003ealert(\\\"x\\\")\\u003c/script\\u003e\"" ∧
    stringLiteralValue (jsValEscaper scriptParams.RequestString).data =
      some scriptParams.RequestString.data ∧
    '<' ∉ (indexScript (pageOf scriptParams plainHandler ""
      "\x7b\n  \"data\": \x7b\n    \"hello\": \"world\"\n  \x7d\n\x7d")).data :=
  ⟨by decide!,
    (C1_query_literal_is_safe (goPackages fun _ => helloResult) scriptParams plainHandler
      (pageOf scriptParams plainHandler "" "\x7b\n  \"data\": \x7b\n    \"hello\": \"world\"\n  \x7d\n\x7d")
      (ExecuteTemplate (pageOf scriptParams plainHandler ""
        "\x7b\n  \"data\": \x7b\n    \"hello\": \"world\"\n  \x7d\n\x7d")) (by decide!)).2.2.1,
    (C1_query_literal_is_safe (goPackages fun _ => helloResult) scriptParams plainHandler
      (pageOf scriptParams plainHandler "" "\x7b\n  \"data\": \x7b\n    \"hello\": \"world\"\n  \x7d\n\x7d")
      (ExecuteTemplate (pageOf scriptParams plainHandler ""
        "\x7b\n  \"data\": \x7b\n    \"hello\": \"world\"\n  \x7d\n\x7d")) (by decide!)).2.2.2.2.2.1⟩

/-- C8: for every page data value `q` the executed template contains the two
streaming-transport `<script>` tags of lines 122 and 123 (loaded from
`unpkg.com`, the first at the version `q.SubscriptionTransportVersion`) and
the script lines 162 to 165 that create the subscriptions client and its
fetcher if and only if `q.SubscriptionsEndpoint` is not empty; without it the
document has no `<script>` tag that loads from `unpkg.com` at all and no line
that declares `subscriptionsClient` or `graphQLWSFetcher`; and when
`q.Endpoint` is empty the document sets `fetchURL` by
`locationQuery(otherParams)` and has no line that sets it from an endpoint.
In every page `renderGraphiQL` renders, the transport version is `0.8.2`,
and `SubscriptionsEndpoint` and `Endpoint` are the configured values when the
handler has a config and the empty string when it has none; so with no
subscriptions endpoint configured the page has none of the tags, and with
only the subscriptions endpoint set the tags and the client lines are there
while `fetchURL` is set by `locationQuery(otherParams)`, without an
endpoint. -/
theorem C8_subscription_tags {Val : Type} (pkg : Packages Val) (params : Params Val)
    (handler : Handler) (p : graphiqlPage) (body : String)
    (hp : (renderGraphiQL pkg params handler).response = .page p body) :
    (∀ q : graphiqlPage,
      (("<script src=\"//unpkg.com/subscriptions-transport-ws@" ++
          urlAttrAction q.SubscriptionTransportVersion ++
          "/browser/client.js\"></script>\n" ++
          "    <script src=\"//unpkg.com/graphiql-subscriptions-fetcher@0.0.2/browser/client.js\"></script>").data
        <:+: (ExecuteTemplate q).data ↔ q.SubscriptionsEndpoint ≠ "") ∧
      (("\n      var subscriptionsClient = new window.SubscriptionsTransportWs.SubscriptionClient(" ++
          jsValEscaper q.SubscriptionsEndpoint ++
          ", \x7b\n        reconnect: true\n      \x7d);\n" ++
          "      var graphQLWSFetcher = subscriptionsClient.request.bind(subscriptionsClient);\n").data
        <:+: (ExecuteTemplate q).data ↔ q.SubscriptionsEndpoint ≠ "") ∧
      (q.SubscriptionsEndpoint = "" →
        ¬ "<script src=\"//unpkg.com/".data <:+: (ExecuteTemplate q).data ∧
        ¬ "\n      var subscriptionsClient".data <:+: (ExecuteTemplate q).data ∧
        ¬ "\n      var graphQLWSFetcher".data <:+: (ExecuteTemplate q).data) ∧
      (q.Endpoint = "" →
        "\n      var fetchURL = locationQuery(otherParams)\n".data <:+:
          (ExecuteTemplate q).data ∧
        ¬ "\n      var fetchURL = locationQuery(otherParams, ".data <:+:
          (ExecuteTemplate q).data)) ∧
    body = ExecuteTemplate p ∧
    p.SubscriptionTransportVersion = "0.8.2" ∧
    p.SubscriptionsEndpoint =
      (match handler.graphiqlConfig with
        | some config => config.SubscriptionsEndpoint
        | none => "") ∧
    p.Endpoint =
      (match handler.graphiqlConfig with
        | some config => config.Endpoint
        | none => "") ∧
    ((∀ config, handler.graphiqlConfig = some config → config.SubscriptionsEndpoint = "") →
      ¬ "<script src=\"//unpkg.com/".data <:+: body.data ∧
      ¬ "\n      var subscriptionsClient".data <:+: body.data) ∧
    (∀ sub, sub ≠ "" →
      handler.graphiqlConfig = some { Endpoint := "", SubscriptionsEndpoint := sub } →
      ("<script src=\"//unpkg.com/subscriptions-transport-ws@0.8.2/browser/client.js\"></script>\n" ++
        "    <script src=\"//unpkg.com/graphiql-subscriptions-fetcher@0.0.2/browser/client.js\"></script>").data
        <:+: body.data ∧
      ("\n      var subscriptionsClient = new window.SubscriptionsTransportWs.SubscriptionClient(" ++
        jsValEscaper sub ++
        ", \x7b\n        reconnect: true\n      \x7d);\n" ++
        "      var graphQLWSFetcher = subscriptionsClient.request.bind(subscriptionsClient);\n").data
        <:+: body.data ∧
      "\n      var fetchURL = locationQuery(otherParams)\n".data <:+: body.data ∧
      ¬ "\n      var fetchURL = locationQuery(otherParams, ".data <:+: body.data ∧
      ∀ otherParams, fetchURL p.Endpoint otherParams = locationQuery otherParams none) := by
  obtain ⟨hb, vs, rs, hpage⟩ := page_shape pkg params handler p body hp
  have all : ∀ q : graphiqlPage,
      (("<script src=\"//unpkg.com/subscriptions-transport-ws@" ++
          urlAttrAction q.SubscriptionTransportVersion ++
          "/browser/client.js\"></script>\n" ++
          "    <script src=\"//unpkg.com/graphiql-subscriptions-fetcher@0.0.2/browser/client.js\"></script>").data
        <:+: (ExecuteTemplate q).data ↔ q.SubscriptionsEndpoint ≠ "") ∧
      (("\n      var subscriptionsClient = new window.SubscriptionsTransportWs.SubscriptionClient(" ++
          jsValEscaper q.SubscriptionsEndpoint ++
          ", \x7b\n        reconnect: true\n      \x7d);\n" ++
          "      var graphQLWSFetcher = subscriptionsClient.request.bind(subscriptionsClient);\n").data
        <:+: (ExecuteTemplate q).data ↔ q.SubscriptionsEndpoint ≠ "") ∧
      (q.SubscriptionsEndpoint = "" →
        ¬ "<script src=\"//unpkg.com/".data <:+: (ExecuteTemplate q).data ∧
        ¬ "\n      var subscriptionsClient".data <:+: (ExecuteTemplate q).data ∧
        ¬ "\n      var graphQLWSFetcher".data <:+: (ExecuteTemplate q).data) ∧
      (q.Endpoint = "" →
        "\n      var fetchURL = locationQuery(otherParams)\n".data <:+:
          (ExecuteTemplate q).data ∧
        ¬ "\n      var fetchURL = locationQuery(otherParams, ".data <:+:
          (ExecuteTemplate q).data) := by
    intro q
    refine ⟨⟨?_, fun hs => (tags_text_in_tags q).trans (tags_with_subscriptions q hs)⟩,
      ⟨?_, fun hs => (wiring_text_in_wiring q).trans (wiring_with_subscriptions q hs)⟩,
      fun hs => ⟨no_tags_without_subscriptions q hs, no_wiring_without_subscriptions q hs,
        no_fetcher_without_subscriptions q hs⟩,
      fun he => ⟨plain_fetchURL_line q he, no_endpoint_line q he⟩⟩
    · intro h hs
      refine no_tags_without_subscriptions q hs
        (isInfix_of_start "<script src=\"//unpkg.com/".data
          ("subscriptions-transport-ws@".data ++
            (urlAttrAction q.SubscriptionTransportVersion).data)
          ("/browser/client.js\"></script>\n" ++
            "    <script src=\"//unpkg.com/graphiql-subscriptions-fetcher@0.0.2/browser/client.js\"></script>").data
          _ ?_)
      have e : "<script src=\"//unpkg.com/subscriptions-transport-ws@".data =
          "<script src=\"//unpkg.com/".data ++ "subscriptions-transport-ws@".data := by decide
      simpa only [String.data_append, List.append_assoc, e] using h
    · intro h hs
      refine no_wiring_without_subscriptions q hs
        (isInfix_of_start "\n      var subscriptionsClient".data
          (" = new window.SubscriptionsTransportWs.SubscriptionClient(".data ++
            (jsValEscaper q.SubscriptionsEndpoint).data)
          (", \x7b\n        reconnect: true\n      \x7d);\n" ++
            "      var graphQLWSFetcher = subscriptionsClient.request.bind(subscriptionsClient);\n").data
          _ ?_)
      have e : "\n      var subscriptionsClient = new window.SubscriptionsTransportWs.SubscriptionClient(".data =
          "\n      var subscriptionsClient".data ++
            " = new window.SubscriptionsTransportWs.SubscriptionClient(".data := by decide
      simpa only [String.data_append, List.append_assoc, e] using h
  have hver : p.SubscriptionTransportVersion = "0.8.2" := by rw [hpage]; rfl
  have hsub : p.SubscriptionsEndpoint =
      (match handler.graphiqlConfig with
        | some config => config.SubscriptionsEndpoint
        | none => "") := by rw [hpage]; rfl
  have hend : p.Endpoint =
      (match handler.graphiqlConfig with
        | some config => config.Endpoint
        | none => "") := by rw [hpage]; rfl
  refine ⟨all, hb, hver, hsub, hend, ?_, ?_⟩
  · intro hnone
    have hs : p.SubscriptionsEndpoint = "" := by
      rw [hsub]
      cases hc : handler.graphiqlConfig with
      | none => rfl
      | some config => exact hnone config hc
    rw [hb]
    exact ⟨((all p).2.2.1 hs).1, ((all p).2.2.1 hs).2.1⟩
  · intro sub hne hc
    have hs : p.SubscriptionsEndpoint ≠ "" := by rw [hsub, hc]; exact hne
    have hs2 : p.SubscriptionsEndpoint = sub := by rw [hsub, hc]
    have he : p.Endpoint = "" := by rw [hend, hc]
    have hu : urlAttrAction p.SubscriptionTransportVersion = "0.8.2" := by
      rw [hver]
      decide
    have ht := (all p).1.mpr hs
    have hw := (all p).2.1.mpr hs
    rw [hu] at ht
    rw [hs2] at hw
    rw [hb]
    refine ⟨?_, hw, ((all p).2.2.2 he).1, ((all p).2.2.2 he).2, ?_⟩
    · simpa only [String.data_append, List.append_assoc] using ht
    · intro otherParams
      unfold fetchURL
      rw [he]
      rfl

/-- Witness of C8 at a handler configured with the subscriptions endpoint
`ws://localhost/subscriptions` only. -/
theorem C8_witness :
    ("<script src=\"//unpkg.com/subscriptions-transport-ws@0.8.2/browser/client.js\"></script>\n" ++
        "    <script src=\"//unpkg.com/graphiql-subscriptions-fetcher@0.0.2/browser/client.js\"></script>").data
      <:+: (ExecuteTemplate (pageOf emptyParams subscriptionsHandler "" "")).data ∧
    ("\n      var subscriptionsClient = new window.SubscriptionsTransportWs.SubscriptionClient(" ++
      "\"ws://localhost/subscriptions\", \x7b\n        reconnect: true\n      \x7d);\n").data
      <:+: (ExecuteTemplate (pageOf emptyParams subscriptionsHandler "" "")).data ∧
    "\n      var fetchURL = locationQuery(otherParams)\n".data <:+:
      (ExecuteTemplate (pageOf emptyParams subscriptionsHandler "" "")).data :=
  ⟨((C8_subscription_tags (goPackages fun _ => helloResult) emptyParams subscriptionsHandler
      (pageOf emptyParams subscriptionsHandler "" "")
      (ExecuteTemplate (pageOf emptyParams subscriptionsHandler "" "")) (by decide!)).2.2.2.2.2.2
      "ws://localhost/subscriptions" (by decide) rfl).1,
    by decide!,
    ((C8_subscription_tags (goPackages fun _ => helloResult) emptyParams subscriptionsHandler
      (pageOf emptyParams subscriptionsHandler "" "")
      (ExecuteTemplate (pageOf emptyParams subscriptionsHandler "" "")) (by decide!)).2.2.2.2.2.2
      "ws://localhost/subscriptions" (by decide) rfl).2.2.1⟩

theorem expect_append (lit rest : List Char) : expect lit (lit ++ rest) = some rest := by
  unfold expect
  have h : lit.isPrefixOf (lit ++ rest) = true :=
    List.isPrefixOf_iff_prefix.mpr (List.prefix_append lit rest)
  rw [h]
  simp

theorem expect_head_ne (a c : Char) (lit cs : List Char) (h : a ≠ c) :
    expect (a :: lit) (c :: cs) = none := by
  unfold expect
  simp [List.isPrefixOf, h]

theorem newline_data (depth : Nat) : (newline "" "  " depth).data = indentation depth := by
  unfold newline indentation
  simp only [String.data_append, String.data_join, List.map_replicate]
  have : ∀ n, (List.replicate n "  ".data).flatten = List.replicate (2 * n) ' ' := by
    intro n
    induction n with
    | zero => rfl
    | succ n ih =>
      rw [List.replicate_succ, List.flatten_cons, ih]
      have : 2 * (n + 1) = (2 * n) + 1 + 1 := by omega
      rw [this, List.replicate_succ, List.replicate_succ]
      rfl
  rw [this]
  rfl

theorem skipDigits_append (ds rest : List Char) (hd : ∀ x ∈ ds, x.isDigit = true)
    (hr : endsNumber rest) : skipDigits (ds ++ rest) = rest := by
  unfold skipDigits
  induction ds with
  | nil =>
    cases rest with
    | nil => rfl
    | cons c r =>
      have : c.isDigit = false := hr c (by simp)
      simp [List.dropWhile, this]
  | cons d ds ih =>
    have h1 : d.isDigit = true := hd d (by simp)
    simp only [List.cons_append, List.dropWhile, h1]
    exact ih (fun x hx => hd x (by simp [hx]))

theorem digitChar_isDigit : ∀ k, k < 10 →
    (Nat.digitChar k).isDigit = true ∧ (Nat.digitChar k = '0' → k = 0) := by
  decide

theorem isDigit_cases (d : Char) (h : d.isDigit = true) :
    d = '0' ∨ ('1' ≤ d ∧ d ≤ '9') := by
  unfold Char.isDigit at h
  simp only [Bool.and_eq_true, decide_eq_true_eq] at h
  obtain ⟨h1, h2⟩ := h
  have a1 : 48 ≤ d.toNat := UInt32.le_def.mp h1
  have a2 : d.toNat ≤ 57 := UInt32.le_def.mp h2
  by_cases h0 : d.toNat = 48
  · left
    apply Char.ext
    apply UInt32.ext
    exact h0
  · right
    have a3 : 49 ≤ d.toNat := by omega
    exact ⟨UInt32.le_def.mpr a3, UInt32.le_def.mpr a2⟩

theorem toDigitsCore_shape (fuel n : Nat) (ds : List Char) (h : n < fuel) :
    ∃ d ds0, Nat.toDigitsCore 10 fuel n ds = d :: (ds0 ++ ds) ∧ d.isDigit = true ∧
      (∀ x ∈ ds0, x.isDigit = true) ∧ (d = '0' → n = 0 ∧ ds0 = []) := by
  induction fuel generalizing n ds with
  | zero => omega
  | succ fuel ih =>
    have hd := digitChar_isDigit (n % 10) (Nat.mod_lt _ (by decide))
    rw [Nat.toDigitsCore]
    split_ifs with h0
    · refine ⟨Nat.digitChar (n % 10), [], rfl, hd.1, by simp, ?_⟩
      intro e
      have := hd.2 e
      exact ⟨by omega, rfl⟩
    · obtain ⟨d, ds0, e, h1, h2, h3⟩ := ih (n / 10) (Nat.digitChar (n % 10) :: ds) (by omega)
      refine ⟨d, ds0 ++ [Nat.digitChar (n % 10)], by rw [e]; simp, h1, ?_, ?_⟩
      · intro x hx
        rcases List.mem_append.mp hx with hx | hx
        · exact h2 x hx
        · rw [List.mem_singleton.mp hx]; exact hd.1
      · intro e0
        exact absurd (h3 e0).1 h0

theorem skipNatural_repr (k : Nat) (rest : List Char) (hr : endsNumber rest) :
    skipNatural ((toString k).data ++ rest) = some rest ∧
    ∃ d ds, (toString k).data = d :: ds ∧ d.isDigit = true ∧ (d = '0' → k = 0) := by
  have e : (toString k).data = Nat.toDigitsCore 10 (k + 1) k [] := rfl
  obtain ⟨d, ds0, e1, h1, h2, h3⟩ := toDigitsCore_shape (k + 1) k [] (by omega)
  rw [List.append_nil] at e1
  rw [e, e1]
  refine ⟨?_, d, ds0, rfl, h1, fun e0 => (h3 e0).1⟩
  simp only [List.cons_append, skipNatural]
  rcases isDigit_cases d h1 with h0 | h0
  · rw [if_pos h0, (h3 h0).2]
    rfl
  · have hne : d ≠ '0' := by
      rintro rfl
      exact absurd h0.1 (by decide)
    rw [if_neg hne, if_pos h0, skipDigits_append ds0 rest h2 hr]

/-- The text `formatInt` writes is a JSON integer, and its first character is
the minus sign or a digit. -/
theorem skipInteger_formatInt (n : Int) (rest : List Char) (hr : endsNumber rest) :
    ∃ c cs, (formatInt n).data = c :: cs ∧ (c = '-' ∨ c.isDigit = true) ∧
      skipInteger (c :: cs ++ rest) = some rest := by
  cases n with
  | ofNat k =>
    obtain ⟨h1, d, ds, e, hd, _⟩ := skipNatural_repr k rest hr
    refine ⟨d, ds, e, Or.inr hd, ?_⟩
    have hne : d ≠ '-' := by
      rintro rfl
      exact absurd hd (by decide)
    show skipInteger (d :: (ds ++ rest)) = _
    rw [skipInteger, if_neg hne]
    have : d :: (ds ++ rest) = (toString k).data ++ rest := by rw [e]; rfl
    rw [this]
    exact h1
  | negSucc k =>
    obtain ⟨h1, d, ds, e, hd, _⟩ := skipNatural_repr (k + 1) rest hr
    refine ⟨'-', (toString (k + 1)).data, rfl, Or.inl rfl, ?_⟩
    show skipInteger ('-' :: ((toString (k + 1)).data ++ rest)) = _
    rw [skipInteger, if_pos rfl]
    exact h1

theorem skipString_plain (c : Char) (t : List Char) (hq : c ≠ '"') (hb : c ≠ '\\')
    (hl : ¬ c.toNat < 0x20) : skipString (c :: t) = skipString t := by
  rw [skipString.eq_def]
  simp only [hq, hb, hl, if_false]

theorem skipString_escape (e : Char) (t : List Char)
    (he : e ∈ ['"', '\\', '/', 'b', 'f', 'n', 'r', 't']) :
    skipString ('\\' :: e :: t) = skipString t := by
  have hu : e ≠ 'u' := by rintro rfl; revert he; decide
  rw [skipString.eq_def]
  have h1 : ('\\' : Char) ≠ '"' := by decide
  simp only [h1, hu, he, if_false, if_true]

theorem skipString_unicode (a b c d : Char) (t : List Char)
    (h : (isHex a && isHex b && isHex c && isHex d) = true) :
    skipString ('\\' :: 'u' :: a :: b :: c :: d :: t) = skipString t := by
  rw [skipString.eq_def]
  have h1 : ('\\' : Char) ≠ '"' := by decide
  simp only [h1, h, if_false, if_true]

theorem isHex_hexDigit (k : Nat) (h : k < 16) : isHex (hexDigit k) = true := by
  revert k; decide

theorem escapeRune_skip (c : Char) (t : List Char) :
    skipString (escapeRune c ++ t) = skipString t := by
  unfold escapeRune
  split_ifs with h1 h2 h3 h4 h5 h6 h7 h8 h9
  · have hq : c ≠ '"' := by rintro rfl; revert h2; decide
    have hb : c ≠ '\\' := by rintro rfl; revert h2; decide
    have hl : ¬ c.toNat < 0x20 := by
      unfold htmlSafeSet at h2
      simp only [Bool.and_eq_true, decide_eq_true_eq] at h2
      have := h2.1.1
      omega
    exact skipString_plain c t hq hb hl
  · rcases h3 with rfl | rfl
    · exact skipString_escape _ _ (by decide)
    · exact skipString_escape _ _ (by decide)
  · exact skipString_escape _ _ (by decide)
  · exact skipString_escape _ _ (by decide)
  · exact skipString_escape _ _ (by decide)
  · exact skipString_escape _ _ (by decide)
  · exact skipString_escape _ _ (by decide)
  · have a1 := isHex_hexDigit (c.toNat / 16) (by omega)
    have a2 := isHex_hexDigit (c.toNat % 16) (by omega)
    have z : isHex '0' = true := by decide
    exact skipString_unicode _ _ _ _ _ (by simp [a1, a2, z])
  · have a2 := isHex_hexDigit (c.toNat % 16) (by omega)
    have z : isHex '0' = true := by decide
    have z2 : isHex '2' = true := by decide
    exact skipString_unicode _ _ _ _ _ (by simp [a2, z, z2])
  · have hq : c ≠ '"' := by rintro rfl; revert h1; decide
    have hb : c ≠ '\\' := by rintro rfl; revert h1; decide
    exact skipString_plain c t hq hb (by omega)

theorem escapeString_skip (s rest : List Char) :
    skipString (escapeString s ++ '"' :: rest) = some rest := by
  induction s with
  | nil =>
    show skipString ('"' :: rest) = some rest
    rw [skipString.eq_def]
    simp
  | cons c s ih =>
    simp only [escapeString, List.flatMap_cons, List.append_assoc] at ih ⊢
    rw [escapeRune_skip, ih]

/-- The text `appendString` writes is a JSON string. -/
theorem appendString_skip (s : String) (rest : List Char) :
    (appendString s).data ++ rest = '"' :: (escapeString s.data ++ '"' :: rest) ∧
    skipString (escapeString s.data ++ '"' :: rest) = some rest := by
  refine ⟨?_, escapeString_skip _ _⟩
  show ('"' :: (escapeString s.data ++ ['"'])) ++ rest = _
  simp

theorem prettyElements_succ (fuel depth : Nat) (cs : List Char) :
    prettyElements (fuel + 1) depth cs =
      match prettyValue fuel (depth + 1) cs with
      | none => none
      | some r => afterElement fuel depth r := by
  rw [prettyElements]
  rfl

theorem prettyMembers_succ (fuel depth : Nat) (k r2 : List Char)
    (hk : skipString k = some (':' :: ' ' :: r2)) :
    prettyMembers (fuel + 1) depth ('"' :: k) =
      match prettyValue fuel (depth + 1) r2 with
      | none => none
      | some r => afterMember fuel depth r := by
  rw [prettyMembers]
  have e1 : expect ['"'] ('"' :: k) = some k := expect_append ['"'] k
  have e2 : expect [':', ' '] (':' :: ' ' :: r2) = some r2 := expect_append [':', ' '] r2
  simp only [e1, hk, e2]
  rfl

theorem prettyValue_succ (fuel depth : Nat) (c : Char) (r : List Char) :
    prettyValue (fuel + 1) depth (c :: r) =
      if c = 'n' then expect "ull".data r
      else if c = 't' then expect "rue".data r
      else if c = 'f' then expect "alse".data r
      else if c = '"' then skipString r
      else if c = '[' then
        match expect [']'] r with
        | some r1 => some r1
        | none =>
          match expect (indentation (depth + 1)) r with
          | some r1 => prettyElements fuel depth r1
          | none => none
      else if c = '\x7b' then
        match expect ['\x7d'] r with
        | some r1 => some r1
        | none =>
          match expect (indentation (depth + 1)) r with
          | some r1 => prettyMembers fuel depth r1
          | none => none
      else skipInteger (c :: r) := by
  rw [prettyValue]

/-- The text written for the elements after the first, and for the members
after the first, is empty or starts with a comma. -/
theorem encodeElems_head (depth : Nat) (xs : GoList) (b : String)
    (h : encodeElems "" "  " depth xs = .ok b) :
    b.data = [] ∨ ∃ r, b.data = ',' :: r := by
  cases xs with
  | nil =>
    rw [encodeElems] at h
    injection h with h
    left
    rw [← h]
  | cons v rest =>
    rw [encodeElems] at h
    split at h
    · injection h with h
      right
      rw [← h]
      exact ⟨_, by simp only [String.data_append]; rfl⟩
    · cases h
    · cases h

theorem encodeMembers_head (depth : Nat) (m : GoMembers) (b : String)
    (h : encodeMembers "" "  " depth m = .ok b) :
    b.data = [] ∨ ∃ r, b.data = ',' :: r := by
  cases m with
  | nil =>
    rw [encodeMembers] at h
    injection h with h
    left
    rw [← h]
  | cons k v rest =>
    rw [encodeMembers] at h
    split at h
    · injection h with h
      right
      rw [← h]
      exact ⟨_, by simp only [String.data_append]; rfl⟩
    · cases h
    · cases h

theorem endsNumber_tail (b tail : List Char) (h : b = [] ∨ ∃ r, b = ',' :: r) :
    endsNumber (b ++ '\n' :: tail) := by
  intro c hc
  rcases h with rfl | ⟨r, rfl⟩
  · simp at hc
    rw [← hc]
    decide
  · simp at hc
    rw [← hc]
    decide

theorem indentation_cons (depth : Nat) :
    indentation depth = '\n' :: List.replicate (2 * depth) ' ' := rfl

theorem endsNumber_indent (b : List Char) (depth : Nat) (tail : List Char)
    (h : b = [] ∨ ∃ r, b = ',' :: r) :
    endsNumber (b ++ (indentation depth ++ tail)) := by
  rw [indentation_cons]
  exact endsNumber_tail b _ h

mutual
/-- The text `encodeValue` writes for a value at depth `depth` is recognised
by `prettyValue` at that depth, whatever follows it. -/
theorem encodeValue_pretty (v : GoValue) (depth : Nat) (t : String)
    (h : encodeValue "" "  " depth v = .ok t) (fuel : Nat) (rest : List Char)
    (hf : t.data.length < fuel) (hr : endsNumber rest) :
    prettyValue fuel depth (t.data ++ rest) = some rest := by
  obtain ⟨f, rfl⟩ : ∃ f, fuel = f + 1 := ⟨fuel - 1, by omega⟩
  cases v with
  | null =>
    rw [encodeValue] at h
    injection h with h
    subst h
    show prettyValue (f + 1) depth ('n' :: ("ull".data ++ rest)) = _
    rw [prettyValue_succ, if_pos rfl, expect_append]
  | bool b =>
    rw [encodeValue] at h
    injection h with h
    subst h
    cases b
    · show prettyValue (f + 1) depth ('f' :: ("alse".data ++ rest)) = _
      rw [prettyValue_succ, if_neg (by decide), if_neg (by decide), if_pos rfl, expect_append]
    · show prettyValue (f + 1) depth ('t' :: ("rue".data ++ rest)) = _
      rw [prettyValue_succ, if_neg (by decide), if_pos rfl, expect_append]
  | int n =>
    rw [encodeValue] at h
    injection h with h
    subst h
    obtain ⟨c, cs, e, hc, hs⟩ := skipInteger_formatInt n rest hr
    rw [e]
    show prettyValue (f + 1) depth (c :: (cs ++ rest)) = _
    have n1 : c ≠ 'n' := by rintro rfl; rcases hc with h | h <;> revert h <;> decide
    have n2 : c ≠ 't' := by rintro rfl; rcases hc with h | h <;> revert h <;> decide
    have n3 : c ≠ 'f' := by rintro rfl; rcases hc with h | h <;> revert h <;> decide
    have n4 : c ≠ '"' := by rintro rfl; rcases hc with h | h <;> revert h <;> decide
    have n5 : c ≠ '[' := by rintro rfl; rcases hc with h | h <;> revert h <;> decide
    have n6 : c ≠ '\x7b' := by rintro rfl; rcases hc with h | h <;> revert h <;> decide
    rw [prettyValue_succ, if_neg n1, if_neg n2, if_neg n3, if_neg n4, if_neg n5, if_neg n6]
    exact hs
  | str s =>
    rw [encodeValue] at h
    injection h with h
    subst h
    obtain ⟨e, hs⟩ := appendString_skip s rest
    rw [e, prettyValue_succ, if_neg (by decide), if_neg (by decide), if_neg (by decide),
      if_pos rfl]
    exact hs
  | unsupported =>
    rw [encodeValue] at h
    cases h
  | arr xs =>
    cases xs with
    | nil =>
      rw [encodeValue] at h
      injection h with h
      subst h
      show prettyValue (f + 1) depth ('[' :: ([']'] ++ rest)) = _
      rw [prettyValue_succ, if_neg (by decide), if_neg (by decide), if_neg (by decide),
        if_neg (by decide), if_pos rfl, expect_append]
    | cons v xs =>
      rw [encodeValue] at h
      split at h
      · rename_i a b ha hb
        injection h with h
        subst h
        simp only [String.data_append, newline_data, List.length_append] at hf ⊢
        simp only [List.length_cons, List.length_nil] at hf
        have hlen0 : 0 < (indentation (depth + 1)).length := by simp [indentation]
        have e : "[".data ++ indentation (depth + 1) ++ a.data ++ b.data ++ indentation depth ++
            "]".data ++ rest =
            '[' :: (indentation (depth + 1) ++
              (a.data ++ (b.data ++ (indentation depth ++ ']' :: rest)))) := by
          simp
        rw [e, prettyValue_succ, if_neg (by decide), if_neg (by decide), if_neg (by decide),
          if_neg (by decide), if_pos rfl]
        have e1 : expect [']'] (indentation (depth + 1) ++
            (a.data ++ (b.data ++ (indentation depth ++ ']' :: rest)))) = none :=
          expect_head_ne _ _ _ _ (by decide)
        rw [e1, expect_append]
        simp only []
        have hlen : ("[".data).length = 1 := rfl
        have hlen1 : 0 < (indentation (depth + 1)).length := by simp [indentation]
        obtain ⟨g, rfl⟩ : ∃ g, f = g + 1 := ⟨f - 1, by omega⟩
        rw [prettyElements_succ,
          encodeValue_pretty v (depth + 1) a ha g _ (by omega)
            (endsNumber_indent _ _ _ (encodeElems_head _ _ _ hb))]
        exact encodeElems_pretty xs depth b hb g rest (by omega)
      · cases h
      · cases h
  | obj m =>
    cases m with
    | nil =>
      rw [encodeValue] at h
      injection h with h
      subst h
      show prettyValue (f + 1) depth ('\x7b' :: (['\x7d'] ++ rest)) = _
      rw [prettyValue_succ, if_neg (by decide), if_neg (by decide), if_neg (by decide),
        if_neg (by decide), if_neg (by decide), if_pos rfl, expect_append]
    | cons k v m =>
      rw [encodeValue] at h
      split at h
      · rename_i a b ha hb
        injection h with h
        subst h
        simp only [String.data_append, newline_data, List.length_append] at hf ⊢
        simp only [List.length_cons, List.length_nil] at hf
        have hlen0 : 0 < (indentation (depth + 1)).length := by simp [indentation]
        have e : "\x7b".data ++ indentation (depth + 1) ++ (appendString k).data ++ ": ".data ++
            a.data ++ b.data ++ indentation depth ++ "\x7d".data ++ rest =
            '\x7b' :: (indentation (depth + 1) ++
              ('"' :: (escapeString k.data ++ '"' :: (':' :: ' ' ::
                (a.data ++ (b.data ++ (indentation depth ++ '\x7d' :: rest))))))) := by
          have := (appendString_skip k (':' :: ' ' ::
            (a.data ++ (b.data ++ (indentation depth ++ '\x7d' :: rest))))).1
          simp only [List.append_assoc]
          rw [← this]
          simp
        rw [e, prettyValue_succ, if_neg (by decide), if_neg (by decide), if_neg (by decide),
          if_neg (by decide), if_neg (by decide), if_pos rfl]
        have e1 : expect ['\x7d'] (indentation (depth + 1) ++
            ('"' :: (escapeString k.data ++ '"' :: (':' :: ' ' ::
              (a.data ++ (b.data ++ (indentation depth ++ '\x7d' :: rest))))))) = none :=
          expect_head_ne _ _ _ _ (by decide)
        rw [e1, expect_append]
        simp only []
        have hlen1 : 0 < (indentation (depth + 1)).length := by simp [indentation]
        have hlen2 : ("\x7b".data).length = 1 := rfl
        obtain ⟨g, rfl⟩ : ∃ g, f = g + 1 := ⟨f - 1, by omega⟩
        rw [prettyMembers_succ g depth _ _ (escapeString_skip k.data _),
          encodeValue_pretty v (depth + 1) a ha g _ (by omega)
            (endsNumber_indent _ _ _ (encodeMembers_head _ _ _ hb))]
        exact encodeMembers_pretty m depth b hb g rest (by omega)
      · cases h
      · cases h
/-- After an element, the text `encodeElems` writes for the elements that
follow, and the closing bracket on its line, are recognised. -/
theorem encodeElems_pretty (xs : GoList) (depth : Nat) (b : String)
    (h : encodeElems "" "  " (depth + 1) xs = .ok b) (fuel : Nat) (rest : List Char)
    (hf : b.data.length < fuel + 1) :
    afterElement fuel depth (b.data ++ (indentation depth ++ ']' :: rest)) = some rest := by
  cases xs with
  | nil =>
    rw [encodeElems] at h
    injection h with h
    subst h
    show afterElement fuel depth (indentation depth ++ ']' :: rest) = some rest
    unfold afterElement
    have e1 : expect (',' :: indentation (depth + 1)) (indentation depth ++ ']' :: rest) = none :=
      expect_head_ne _ _ _ _ (by decide)
    rw [e1]
    have e2 : indentation depth ++ ']' :: rest = (indentation depth ++ [']']) ++ rest := by simp
    simp only []
    rw [e2, expect_append]
  | cons v xs =>
    rw [encodeElems] at h
    split at h
    · rename_i a b0 ha hb
      injection h with h
      subst h
      simp only [String.data_append, newline_data, List.length_append] at hf ⊢
      simp only [List.length_cons, List.length_nil] at hf
      have hlen0 : 0 < (indentation (depth + 1)).length := by simp [indentation]
      have e : ",".data ++ indentation (depth + 1) ++ a.data ++ b0.data ++
          (indentation depth ++ ']' :: rest) =
          (',' :: indentation (depth + 1)) ++
            (a.data ++ (b0.data ++ (indentation depth ++ ']' :: rest))) := by
        simp
      unfold afterElement
      rw [e, expect_append]
      simp only []
      have hlen : (",".data).length = 1 := rfl
      obtain ⟨g, rfl⟩ : ∃ g, fuel = g + 1 := ⟨fuel - 1, by omega⟩
      rw [prettyElements_succ,
        encodeValue_pretty v (depth + 1) a ha g _ (by omega)
          (endsNumber_indent _ _ _ (encodeElems_head _ _ _ hb))]
      exact encodeElems_pretty xs depth b0 hb g rest (by omega)
    · cases h
    · cases h
/-- After a member, the text `encodeMembers` writes for the members that
follow, and the closing bracket on its line, are recognised. -/
theorem encodeMembers_pretty (m : GoMembers) (depth : Nat) (b : String)
    (h : encodeMembers "" "  " (depth + 1) m = .ok b) (fuel : Nat) (rest : List Char)
    (hf : b.data.length < fuel + 1) :
    afterMember fuel depth (b.data ++ (indentation depth ++ '\x7d' :: rest)) = some rest := by
  cases m with
  | nil =>
    rw [encodeMembers] at h
    injection h with h
    subst h
    show afterMember fuel depth (indentation depth ++ '\x7d' :: rest) = some rest
    unfold afterMember
    have e1 : expect (',' :: indentation (depth + 1)) (indentation depth ++ '\x7d' :: rest) = none :=
      expect_head_ne _ _ _ _ (by decide)
    rw [e1]
    have e2 : indentation depth ++ '\x7d' :: rest = (indentation depth ++ ['\x7d']) ++ rest := by
      simp
    simp only []
    rw [e2, expect_append]
  | cons k v m =>
    rw [encodeMembers] at h
    split at h
    · rename_i a b0 ha hb
      injection h with h
      subst h
      simp only [String.data_append, newline_data, List.length_append] at hf ⊢
      simp only [List.length_cons, List.length_nil] at hf
      have hlen0 : 0 < (indentation (depth + 1)).length := by simp [indentation]
      have e : ",".data ++ indentation (depth + 1) ++ (appendString k).data ++ ": ".data ++
          a.data ++ b0.data ++ (indentation depth ++ '\x7d' :: rest) =
          (',' :: indentation (depth + 1)) ++
            ('"' :: (escapeString k.data ++ '"' :: (':' :: ' ' ::
              (a.data ++ (b0.data ++ (indentation depth ++ '\x7d' :: rest)))))) := by
        have := (appendString_skip k (':' :: ' ' ::
          (a.data ++ (b0.data ++ (indentation depth ++ '\x7d' :: rest))))).1
        simp only [List.append_assoc]
        rw [← this]
        simp
      unfold afterMember
      rw [e, expect_append]
      simp only []
      have hlen : (",".data).length = 1 := rfl
      obtain ⟨g, rfl⟩ : ∃ g, fuel = g + 1 := ⟨fuel - 1, by omega⟩
      rw [prettyMembers_succ g depth _ _ (escapeString_skip k.data _),
        encodeValue_pretty v (depth + 1) a ha g _ (by omega)
          (endsNumber_indent _ _ _ (encodeMembers_head _ _ _ hb))]
      exact encodeMembers_pretty m depth b0 hb g rest (by omega)
    · cases h
    · cases h
end

/-- What `isIndentedJSON` accepts and what it rejects, on sample texts: it
accepts the indented result of the `hello` scenario, the text `null`, and
nested arrays with negative numbers; it rejects the empty text, the compact
encoding, an indentation of one space, a number with a leading zero, a
missing closing bracket, and text after the value. -/
theorem isIndentedJSON_samples :
    isIndentedJSON "\x7b\n  \"data\": \x7b\n    \"hello\": \"world\"\n  \x7d\n\x7d".data = true ∧
    isIndentedJSON "null".data = true ∧
    isIndentedJSON "[\n  -12,\n  0,\n  [],\n  [\n    true\n  ]\n]".data = true ∧
    isIndentedJSON "".data = false ∧
    isIndentedJSON "\x7b\"data\":\x7b\"hello\":\"world\"\x7d\x7d".data = false ∧
    isIndentedJSON "\x7b\n \"a\": 1\n\x7d".data = false ∧
    isIndentedJSON "[\n  01\n]".data = false ∧
    isIndentedJSON "[\n  1\n".data = false ∧
    isIndentedJSON "null null".data = false := by
  decide!

/-- The text `json.MarshalIndent` writes for a struct or map starts with an
opening brace. -/
theorem encodeValue_obj_head (pfx indent : String) (depth : Nat) (m : GoMembers) (t : String)
    (h : encodeValue pfx indent depth (.obj m) = .ok t) : ∃ r, t.data = '\x7b' :: r := by
  cases m with
  | nil =>
    rw [encodeValue] at h
    injection h with h
    subst h
    exact ⟨_, rfl⟩
  | cons k v m =>
    rw [encodeValue] at h
    split at h
    · injection h with h
      subst h
      exact ⟨_, by simp only [String.data_append, List.append_assoc]; rfl⟩
    · cases h
    · cases h

/-- The text `json.MarshalIndent` writes for a `graphql.Result` starts with an
opening brace. -/
theorem marshal_result_head (r : Result) (t : String)
    (h : MarshalIndent r.toGo "" "  " = .ok t) : ∃ cs, t.data = '\x7b' :: cs :=
  encodeValue_obj_head "" "  " 0 _ t h

/-- Every text `json.MarshalIndent` returns with the indent of two spaces is
indented JSON. -/
theorem marshal_isIndentedJSON (v : GoValue) (t : String)
    (h : MarshalIndent v "" "  " = .ok t) : isIndentedJSON t.data = true := by
  have := encodeValue_pretty v 0 t h (t.data.length + 1) [] (Nat.lt_succ_self _)
    (fun c hc => by simp at hc)
  rw [List.append_nil] at this
  simp only [isIndentedJSON, decide_eq_true_eq]
  exact this

/-- C4: for every request, every response writer and every executor that
returns a `graphql.Result` as `graphql.Do` does, whenever `renderGraphiQL`
renders a page, its `ResultString` is the empty string or indented JSON text
(one JSON value laid out with two spaces for each level, as checked by
`isIndentedJSON`, a recogniser that does not use the encoder), and it is not
the text `null`; it is empty exactly when the query text is empty. No
`graphql.Result` serialises to the text `null`: the serialisation of a result
is a JSON object, so there is no payload that would have to be collapsed. -/
theorem C4_result_string_invariant (w : ResponseWriter) (run : Params GoValue → Result)
    (params : Params GoValue) (handler : Handler) (p : graphiqlPage) (body : String)
    (h : (renderGraphiQLTo w (graphqlPackages run) params handler).response = .page p body) :
    (p.ResultString = "" ∨ isIndentedJSON p.ResultString.data = true) ∧
    p.ResultString ≠ "null" ∧
    (p.ResultString = "" ↔ params.RequestString = "") ∧
    (∀ (r : Result) (t : String), MarshalIndent r.toGo "" "  " = .ok t →
      t ≠ "null" ∧ isIndentedJSON t.data = true) := by
  have hall : ∀ (r : Result) (t : String), MarshalIndent r.toGo "" "  " = .ok t →
      t ≠ "null" ∧ t ≠ "" ∧ isIndentedJSON t.data = true := by
    intro r t ht
    obtain ⟨cs, hcs⟩ := marshal_result_head r t ht
    refine ⟨?_, ?_, marshal_isIndentedJSON _ t ht⟩
    · rintro rfl
      cases hcs
    · rintro rfl
      cases hcs
  obtain ⟨vars, res, _, hres, hp, _, _⟩ := renderGraphiQLTo_page w _ params handler p body h
  have hr : p.ResultString = res := by rw [hp]; rfl
  rw [hr]
  rcases hres with ⟨hq, rfl⟩ | ⟨hq, hm⟩
  · exact ⟨Or.inl rfl, by decide, ⟨fun _ => hq, fun _ => rfl⟩,
      fun r t ht => ⟨(hall r t ht).1, (hall r t ht).2.2⟩⟩
  · have := hall (run params) res hm
    exact ⟨Or.inr this.2.2, this.1, ⟨fun e => absurd e this.2.1, fun e => absurd e hq⟩,
      fun r t ht => ⟨(hall r t ht).1, (hall r t ht).2.2⟩⟩

/-- Witness of C4 at the query `{ hello }` with the executor `helloRun`. -/
theorem C4_witness :
    (renderGraphiQLTo bufferWriter (graphqlPackages helloRun) helloParams plainHandler).response =
      .page (pageOf helloParams plainHandler ""
          "\x7b\n  \"data\": \x7b\n    \"hello\": \"world\"\n  \x7d\n\x7d")
        (ExecuteTemplate (pageOf helloParams plainHandler ""
          "\x7b\n  \"data\": \x7b\n    \"hello\": \"world\"\n  \x7d\n\x7d")) ∧
    isIndentedJSON
      "\x7b\n  \"data\": \x7b\n    \"hello\": \"world\"\n  \x7d\n\x7d".data = true :=
  ⟨by decide!,
    ((C4_result_string_invariant bufferWriter helloRun helloParams plainHandler
      (pageOf helloParams plainHandler ""
        "\x7b\n  \"data\": \x7b\n    \"hello\": \"world\"\n  \x7d\n\x7d")
      (ExecuteTemplate (pageOf helloParams plainHandler ""
        "\x7b\n  \"data\": \x7b\n    \"hello\": \"world\"\n  \x7d\n\x7d"))
      (by decide!)).1).resolve_left (by decide)⟩

/-- The text `json.MarshalIndent` writes for a slice with an element starts
with an opening bracket. -/
theorem encodeValue_arr_head (pfx indent : String) (depth : Nat) (v : GoValue) (xs : GoList)
    (t : String) (h : encodeValue pfx indent depth (.arr (.cons v xs)) = .ok t) :
    ∃ r, t.data = '[' :: r := by
  rw [encodeValue] at h
  split at h
  · injection h with h
    subst h
    exact ⟨_, by simp only [String.data_append, List.append_assoc]; rfl⟩
  · cases h
  · cases h

/-- The serialisation of a `graphql.Result` that has errors has the member
`errors`, an array. -/
theorem marshal_result_errors (r : Result) (e : FormattedError) (es : List FormattedError)
    (he : r.Errors = e :: es) (t : String) (h : MarshalIndent r.toGo "" "  " = .ok t) :
    "\"errors\": [".data <:+: t.data := by
  unfold MarshalIndent Result.toGo at h
  rw [he] at h
  simp only [List.map_cons, GoList.ofList] at h
  rw [encodeValue] at h
  split at h
  · rename_i a b ha hb
    injection h with h
    subst h
    rw [encodeMembers] at hb
    split at hb
    · rename_i a1 b1 ha1 hb1
      injection hb with hb
      subst hb
      obtain ⟨r1, hr1⟩ := encodeValue_arr_head _ _ _ _ _ _ ha1
      refine ⟨("\x7b" ++ newline "" "  " (0 + 1) ++ appendString "data" ++ ": " ++ a ++ ","
        ++ newline "" "  " (0 + 1)).data, r1 ++ b1.data ++ (newline "" "  " 0 ++ "\x7d").data, ?_⟩
      have hk : (appendString "errors").data = "\"errors\"".data := by decide!
      simp only [String.data_append, List.append_assoc, hr1, hk]
      simp
    · cases hb
    · cases hb
  · cases h
  · cases h

/-- C6, counterexample: for the query `{ oops }` the execution engine reports
a failure (the result has an error), and `renderGraphiQL` answers with the
page, not with an error: the failure is serialised into `ResultString`. -/
theorem C6_counterexample :
    oopsParams.RequestString ≠ "" ∧ failedResult.Errors ≠ [] ∧
    ∃ p body,
      (renderGraphiQL (graphqlPackages fun _ => failedResult) oopsParams plainHandler).response
        = .page p body ∧
      p.ResultString =
        "\x7b\n  \"data\": null,\n  \"errors\": [\n    \x7b\n      \"message\": " ++
        "\"Cannot query field \\\"oops\\\" on type \\\"Query\\\".\",\n" ++
        "      \"locations\": [\n        \x7b\n          \"line\": 1,\n" ++
        "          \"column\": 3\n        \x7d\n      ]\n    \x7d\n  ]\n\x7d" :=
  ⟨by decide, by simp [failedResult], _, _, rfl, by decide!⟩

/-- C6, amended: for every request with a query text that is not empty, every
response writer, serialiser and executor, `renderGraphiQL` answers with an
error (status 500, the error text) and no page exactly when
`json.MarshalIndent` fails on the variables, or it fails on the executor's
result, or both succeed and a write of the executed template fails; when both
serialisations succeed and the writer takes the document, the page is
rendered and its `ResultString` is the serialisation of what the executor
returned. The executor returns a result and no error: a `graphql.Result` with
errors serialises, when it serialises, to a text with the member `errors`,
so the failure the engine reports is part of `ResultString`. -/
theorem C6_error_responses {Val : Type} (w : ResponseWriter) (pkg : Packages Val)
    (params : Params Val) (handler : Handler) (h : params.RequestString ≠ "") :
    ((∃ msg, (renderGraphiQLTo w pkg params handler).response =
        .error msg StatusInternalServerError) ↔
      ((∃ err, pkg.MarshalIndent params.VariableValues "" "  " = .error err) ∨
        (∃ err, pkg.MarshalIndent (pkg.Do params) "" "  " = .error err) ∨
        ∃ vars res err, pkg.MarshalIndent params.VariableValues "" "  " = .ok vars ∧
          pkg.MarshalIndent (pkg.Do params) "" "  " = .ok res ∧
          w.writeError (ExecuteTemplate
            (pageOf params handler (if vars = "null" then "" else vars) res)) = some err)) ∧
    ((∃ p body, (renderGraphiQLTo w pkg params handler).response = .page p body) ↔
      ¬ ∃ msg code, (renderGraphiQLTo w pkg params handler).response = .error msg code) ∧
    (∀ vars res, pkg.MarshalIndent params.VariableValues "" "  " = .ok vars →
      pkg.MarshalIndent (pkg.Do params) "" "  " = .ok res →
      w.writeError (ExecuteTemplate
        (pageOf params handler (if vars = "null" then "" else vars) res)) = none →
      ∃ p body, (renderGraphiQLTo w pkg params handler).response = .page p body ∧
        p.ResultString = res ∧ body = ExecuteTemplate p) ∧
    (∀ (r : Result) (e : FormattedError) (es : List FormattedError), r.Errors = e :: es →
      ∀ t, MarshalIndent r.toGo "" "  " = .ok t → "\"errors\": [".data <:+: t.data) := by
  have key : renderGraphiQLTo w pkg params handler =
      match pkg.MarshalIndent params.VariableValues "" "  " with
      | .error err => ⟨.error err StatusInternalServerError, []⟩
      | .ok vars =>
        match pkg.MarshalIndent (pkg.Do params) "" "  " with
        | .error err => ⟨.error err StatusInternalServerError, [params]⟩
        | .ok res =>
          match w.writeError (ExecuteTemplate
              (pageOf params handler (if vars = "null" then "" else vars) res)) with
          | some err => ⟨.error err StatusInternalServerError, [params]⟩
          | none =>
            ⟨.page (pageOf params handler (if vars = "null" then "" else vars) res)
              (ExecuteTemplate (pageOf params handler (if vars = "null" then "" else vars) res)),
              [params]⟩ := by
    unfold renderGraphiQLTo
    cases hv : pkg.MarshalIndent params.VariableValues "" "  " with
    | error e => rfl
    | ok vars =>
      cases hr : pkg.MarshalIndent (pkg.Do params) "" "  " with
      | error e => simp [h, hr]
      | ok res =>
        simp only [h, hr, if_false, pageOf]
  refine ⟨?_, ?_, ?_, fun r e es he t ht => marshal_result_errors r e es he t ht⟩
  · cases hv : pkg.MarshalIndent params.VariableValues "" "  " with
    | error e =>
      rw [key, hv]
      exact ⟨fun _ => Or.inl ⟨e, rfl⟩, fun _ => ⟨_, rfl⟩⟩
    | ok vars =>
      cases hr : pkg.MarshalIndent (pkg.Do params) "" "  " with
      | error e =>
        rw [key, hv, hr]
        exact ⟨fun _ => Or.inr (Or.inl ⟨e, rfl⟩), fun _ => ⟨_, rfl⟩⟩
      | ok res =>
        cases hw : w.writeError (ExecuteTemplate
            (pageOf params handler (if vars = "null" then "" else vars) res)) with
        | some err =>
          rw [key, hv, hr]
          simp only []
          rw [hw]
          exact ⟨fun _ => Or.inr (Or.inr ⟨vars, res, err, rfl, rfl, hw⟩), fun _ => ⟨_, rfl⟩⟩
        | none =>
          rw [key, hv, hr]
          simp only []
          rw [hw]
          constructor
          · rintro ⟨msg, hm⟩
            cases hm
          · rintro (⟨e, he⟩ | ⟨e, he⟩ | ⟨vars1, res1, err, h1, h2, h3⟩)
            · cases he
            · cases he
            · injection h1 with h1
              injection h2 with h2
              subst h1 h2
              rw [hw] at h3
              cases h3
  · cases hv : pkg.MarshalIndent params.VariableValues "" "  " with
    | error e =>
      rw [key, hv]
      exact ⟨fun ⟨_, _, hp⟩ => (by cases hp), fun hn => absurd ⟨_, _, rfl⟩ hn⟩
    | ok vars =>
      cases hr : pkg.MarshalIndent (pkg.Do params) "" "  " with
      | error e =>
        rw [key, hv, hr]
        exact ⟨fun ⟨_, _, hp⟩ => (by cases hp), fun hn => absurd ⟨_, _, rfl⟩ hn⟩
      | ok res =>
        cases hw : w.writeError (ExecuteTemplate
            (pageOf params handler (if vars = "null" then "" else vars) res)) with
        | some err =>
          rw [key, hv, hr]
          simp only []
          rw [hw]
          exact ⟨fun ⟨_, _, hp⟩ => (by cases hp), fun hn => absurd ⟨_, _, rfl⟩ hn⟩
        | none =>
          rw [key, hv, hr]
          simp only []
          rw [hw]
          exact ⟨fun _ ⟨_, _, hm⟩ => (by cases hm), fun _ => ⟨_, _, rfl⟩⟩
  · intro vars res hv hr hw
    rw [key, hv, hr]
    simp only []
    rw [hw]
    exact ⟨_, _, rfl, rfl, rfl⟩

/-- Witness of C6 at the query `{ oops }` and the executor that reports a
failure: with a writer that takes every write there is no error response, and
with a writer on which the writes fail the response is the error. -/
theorem C6_witness :
    oopsParams.RequestString ≠ "" ∧
    (¬ ∃ msg, (renderGraphiQLTo bufferWriter (graphqlPackages fun _ => failedResult) oopsParams
        plainHandler).response = .error msg StatusInternalServerError) ∧
    (renderGraphiQLTo brokenWriter (graphqlPackages fun _ => failedResult) oopsParams
        plainHandler).response = .error "write: broken pipe" StatusInternalServerError :=
  ⟨by decide,
    fun hm =>
      ((C6_error_responses bufferWriter (graphqlPackages fun _ => failedResult)
        oopsParams plainHandler (by decide)).1.mp hm).elim
        (fun ⟨_, he⟩ => (by
          have h0 : (graphqlPackages fun _ => failedResult).MarshalIndent
              oopsParams.VariableValues "" "  " = .ok "null" := by decide!
          rw [h0] at he
          cases he))
        (fun h3 => h3.elim (fun ⟨_, he⟩ => (by
          have h0 : (match (graphqlPackages fun _ => failedResult).MarshalIndent
              ((graphqlPackages fun _ => failedResult).Do oopsParams) "" "  " with
              | .ok _ => true
              | .error _ => false) = true := by decide!
          rw [he] at h0
          cases h0))
          (fun ⟨_, _, _, _, _, hw⟩ => absurd hw (by simp [bufferWriter]))),
    by decide!⟩

theorem readEscapes_char (c : Char) (rest : JSString) (hc : c ≠ '%') :
    readEscapes (c :: rest) = (readEscapes rest).map (fun us => URIUnit.char c :: us) := by
  rw [readEscapes.eq_def]
  split
  · rename_i h; cases h
  · rename_i h
    injection h with h1 h2
    exact absurd h1 hc
  · rename_i c0 rest0 _ h
    injection h with h1 h2
    subst h1 h2
    rw [if_neg hc]
    cases readEscapes rest <;> rfl

theorem readEscapes_percent (a b : Char) (rest : JSString) (x y : Nat)
    (ha : hexVal a = some x) (hb : hexVal b = some y) :
    readEscapes ('%' :: a :: b :: rest) =
      (readEscapes rest).map (fun us => URIUnit.byte (16 * x + y) :: us) := by
  rw [readEscapes.eq_def]
  simp only [ha, hb]
  cases readEscapes rest <;> rfl

theorem hexVal_upperHex (k : Nat) (h : k < 16) : hexVal (upperHex.getD k '0') = some k := by
  revert k; decide

theorem readEscapes_percentUpper (b : Nat) (rest : JSString) (hb : b < 256) :
    readEscapes (percentUpper b ++ rest) =
      (readEscapes rest).map (fun us => URIUnit.byte b :: us) := by
  have h1 := hexVal_upperHex (b / 16) (by omega)
  have h2 := hexVal_upperHex (b % 16) (by omega)
  have := readEscapes_percent _ _ rest _ _ h1 h2
  have e : 16 * (b / 16) + b % 16 = b := by omega
  rw [e] at this
  exact this

theorem utf8Encode_lt (n : Nat) (hn : n < 0x110000) : ∀ b ∈ utf8Encode n, b < 256 := by
  intro b hb
  unfold utf8Encode at hb
  split_ifs at hb <;> simp only [List.mem_cons, List.mem_singleton, List.not_mem_nil, or_false] at hb
  · omega
  · rcases hb with h | h <;> omega
  · rcases hb with h | h | h <;> omega
  · rcases hb with h | h | h | h <;> omega

theorem readEscapes_bytes (bs : List Nat) (rest : JSString) (hb : ∀ b ∈ bs, b < 256) :
    readEscapes (bs.flatMap percentUpper ++ rest) =
      (readEscapes rest).map (fun us => bs.map URIUnit.byte ++ us) := by
  induction bs with
  | nil => simp
  | cons b bs ih =>
    simp only [List.flatMap_cons, List.append_assoc, List.map_cons, List.cons_append]
    rw [readEscapes_percentUpper b _ (hb b (by simp)), ih (fun x hx => hb x (by simp [hx]))]
    cases readEscapes rest <;> rfl

theorem char_toNat_lt (c : Char) : c.toNat < 0x110000 := by
  have := c.valid
  rcases this with h | h
  · have : c.toNat < 0xd800 := h
    omega
  · exact h.2

theorem readEscapes_encode (s : JSString) :
    readEscapes (encodeURIComponent s) = some (s.flatMap unitsOf) := by
  induction s with
  | nil => rfl
  | cons c s ih =>
    have e : encodeURIComponent (c :: s) =
        (if uriUnescaped c then [c] else (utf8Encode c.toNat).flatMap percentUpper) ++
          encodeURIComponent s := by
      simp [encodeURIComponent]
    rw [e]
    by_cases hu : uriUnescaped c = true
    · have hc : c ≠ '%' := by rintro rfl; revert hu; decide
      rw [if_pos hu]
      simp only [List.singleton_append]
      rw [readEscapes_char c _ hc, ih]
      simp [unitsOf, hu]
    · rw [if_neg hu, readEscapes_bytes _ _ (utf8Encode_lt _ (char_toNat_lt c)), ih]
      simp [unitsOf, hu]

theorem decodeOne_char (c : Char) (rest : List URIUnit) :
    decodeOne (.char c :: rest) = some (c, rest) := rfl

theorem decodeOne_byte1 (b0 : Nat) (rest : List URIUnit) (h : b0 < 0x80) :
    decodeOne (.byte b0 :: rest) = some (Char.ofNat b0, rest) := by
  simp only [decodeOne, h, if_true]

theorem decodeOne_byte2 (b0 b1 : Nat) (rest : List URIUnit)
    (h0 : 0xC0 ≤ b0) (h1 : b0 < 0xE0) (c1 : 0x80 ≤ b1) (c2 : b1 < 0xC0)
    (hv : 0x80 ≤ (b0 - 0xC0) * 64 + (b1 - 0x80)) :
    decodeOne (.byte b0 :: .byte b1 :: rest) =
      some (Char.ofNat ((b0 - 0xC0) * 64 + (b1 - 0x80)), rest) := by
  have n1 : ¬ b0 < 0x80 := by omega
  have n2 : ¬ b0 < 0xC0 := by omega
  simp only [decodeOne, n1, n2, h1, if_true, if_false, isContinuation, c1, c2, hv, decide_True,
    Bool.and_self]

theorem decodeOne_byte3 (b0 b1 b2 : Nat) (rest : List URIUnit)
    (h0 : 0xE0 ≤ b0) (h1 : b0 < 0xF0) (c1 : 0x80 ≤ b1) (c2 : b1 < 0xC0)
    (d1 : 0x80 ≤ b2) (d2 : b2 < 0xC0)
    (hv : 0x800 ≤ (b0 - 0xE0) * 4096 + (b1 - 0x80) * 64 + (b2 - 0x80))
    (hs : ¬ (0xD800 ≤ (b0 - 0xE0) * 4096 + (b1 - 0x80) * 64 + (b2 - 0x80) ∧
      (b0 - 0xE0) * 4096 + (b1 - 0x80) * 64 + (b2 - 0x80) ≤ 0xDFFF)) :
    decodeOne (.byte b0 :: .byte b1 :: .byte b2 :: rest) =
      some (Char.ofNat ((b0 - 0xE0) * 4096 + (b1 - 0x80) * 64 + (b2 - 0x80)), rest) := by
  have n1 : ¬ b0 < 0x80 := by omega
  have n2 : ¬ b0 < 0xC0 := by omega
  have n3 : ¬ b0 < 0xE0 := by omega
  have hs' : (decide (0xD800 ≤ (b0 - 0xE0) * 4096 + (b1 - 0x80) * 64 + (b2 - 0x80)) &&
      decide ((b0 - 0xE0) * 4096 + (b1 - 0x80) * 64 + (b2 - 0x80) ≤ 0xDFFF)) = false := by
    simpa using hs
  simp only [decodeOne, n1, n2, n3, h1, if_true, if_false, isContinuation, c1, c2, d1, d2, hv,
    hs', decide_True, Bool.and_self, Bool.not_false]

theorem decodeOne_byte4 (b0 b1 b2 b3 : Nat) (rest : List URIUnit)
    (h0 : 0xF0 ≤ b0) (h1 : b0 < 0xF8) (c1 : 0x80 ≤ b1) (c2 : b1 < 0xC0)
    (d1 : 0x80 ≤ b2) (d2 : b2 < 0xC0) (e1 : 0x80 ≤ b3) (e2 : b3 < 0xC0)
    (hv : 0x10000 ≤ (b0 - 0xF0) * 262144 + (b1 - 0x80) * 4096 + (b2 - 0x80) * 64 + (b3 - 0x80))
    (hm : (b0 - 0xF0) * 262144 + (b1 - 0x80) * 4096 + (b2 - 0x80) * 64 + (b3 - 0x80)
      ≤ 0x10FFFF) :
    decodeOne (.byte b0 :: .byte b1 :: .byte b2 :: .byte b3 :: rest) =
      some (Char.ofNat
        ((b0 - 0xF0) * 262144 + (b1 - 0x80) * 4096 + (b2 - 0x80) * 64 + (b3 - 0x80)), rest) := by
  have n1 : ¬ b0 < 0x80 := by omega
  have n2 : ¬ b0 < 0xC0 := by omega
  have n3 : ¬ b0 < 0xE0 := by omega
  have n4 : ¬ b0 < 0xF0 := by omega
  simp only [decodeOne, n1, n2, n3, n4, h1, if_true, if_false, isContinuation, c1, c2, d1, d2,
    e1, e2, hv, hm, decide_True, Bool.and_self]

theorem char_not_surrogate (c : Char) : ¬ (0xD800 ≤ c.toNat ∧ c.toNat ≤ 0xDFFF) := by
  have := c.valid
  rcases this with h | h
  · have : c.toNat < 0xd800 := h
    omega
  · have : 0xdfff < c.toNat := h.1
    omega

theorem decodeOne_unitsOf (c : Char) (rest : List URIUnit) :
    decodeOne (unitsOf c ++ rest) = some (c, rest) := by
  unfold unitsOf
  split_ifs with hu
  · exact decodeOne_char c rest
  · have hlt := char_toNat_lt c
    have hns := char_not_surrogate c
    have hc : Char.ofNat c.toNat = c := Char.ofNat_toNat c
    unfold utf8Encode
    split_ifs with h1 h2 h3
    · have := decodeOne_byte1 c.toNat rest h1
      rw [hc] at this
      exact this
    · have := decodeOne_byte2 (0xC0 + c.toNat / 64) (0x80 + c.toNat % 64) rest
        (by omega) (by omega) (by omega) (by omega) (by omega)
      have e : (0xC0 + c.toNat / 64 - 0xC0) * 64 + (0x80 + c.toNat % 64 - 0x80) = c.toNat := by
        omega
      rw [e, hc] at this
      exact this
    · have := decodeOne_byte3 (0xE0 + c.toNat / 4096) (0x80 + c.toNat / 64 % 64)
        (0x80 + c.toNat % 64) rest
        (by omega) (by omega) (by omega) (by omega) (by omega) (by omega)
      have e : (0xE0 + c.toNat / 4096 - 0xE0) * 4096 + (0x80 + c.toNat / 64 % 64 - 0x80) * 64 +
          (0x80 + c.toNat % 64 - 0x80) = c.toNat := by omega
      rw [e, hc] at this
      exact this (by omega) hns
    · have := decodeOne_byte4 (0xF0 + c.toNat / 262144) (0x80 + c.toNat / 4096 % 64)
        (0x80 + c.toNat / 64 % 64) (0x80 + c.toNat % 64) rest
        (by omega) (by omega) (by omega) (by omega) (by omega) (by omega) (by omega) (by omega)
      have e : (0xF0 + c.toNat / 262144 - 0xF0) * 262144 +
          (0x80 + c.toNat / 4096 % 64 - 0x80) * 4096 +
          (0x80 + c.toNat / 64 % 64 - 0x80) * 64 + (0x80 + c.toNat % 64 - 0x80) = c.toNat := by
        omega
      rw [e, hc] at this
      exact this (by omega) (by omega)

theorem unitsOf_ne_nil (c : Char) : unitsOf c ≠ [] := by
  unfold unitsOf utf8Encode
  split_ifs <;> simp

theorem decodeLoop_flatMap (s : JSString) (fuel : Nat)
    (hf : (s.flatMap unitsOf).length ≤ fuel) :
    decodeLoop fuel (s.flatMap unitsOf) = some s := by
  induction s generalizing fuel with
  | nil => cases fuel <;> rfl
  | cons c s ih =>
    rw [List.flatMap_cons] at hf ⊢
    have hne := unitsOf_ne_nil c
    have hlen : 0 < (unitsOf c).length := List.length_pos.mpr hne
    rw [List.length_append] at hf
    cases fuel with
    | zero => omega
    | succ fuel =>
      have hstep : decodeLoop (fuel + 1) (unitsOf c ++ s.flatMap unitsOf) =
          match decodeOne (unitsOf c ++ s.flatMap unitsOf) with
          | some (c, rest) =>
            match decodeLoop fuel rest with
            | some s => some (c :: s)
            | none => none
          | none => none := by
        cases hu : unitsOf c with
        | nil => exact absurd hu hne
        | cons u us => rfl
      rw [hstep, decodeOne_unitsOf]
      simp only []
      rw [ih fuel (by omega)]

theorem decodeUnits_flatMap (s : JSString) : decodeUnits (s.flatMap unitsOf) = some s :=
  decodeLoop_flatMap s _ (le_refl _)

/-- What `encodeURIComponent` writes, `decodeURIComponent` reads back. -/
theorem decode_encode (s : JSString) :
    decodeURIComponent (encodeURIComponent s) = some s := by
  unfold decodeURIComponent
  rw [readEscapes_encode]
  exact decodeUnits_flatMap s

/-- The characters `encodeURIComponent` writes: the unescaped ones, `%` and
the digits of `upperHex`. -/
theorem encodeURIComponent_chars (s : JSString) (x : Char) (hx : x ∈ encodeURIComponent s) :
    uriUnescaped x = true ∨ x = '%' ∨ x ∈ upperHex := by
  unfold encodeURIComponent at hx
  rw [List.mem_flatMap] at hx
  obtain ⟨c, _, hc⟩ := hx
  split_ifs at hc with hu
  · rw [List.mem_singleton] at hc
    exact Or.inl (hc ▸ hu)
  · rw [List.mem_flatMap] at hc
    obtain ⟨b, _, hb⟩ := hc
    unfold percentUpper at hb
    simp only [List.mem_cons, List.mem_singleton, List.not_mem_nil, or_false] at hb
    have hm : ∀ k, upperHex.getD k '0' ∈ upperHex := by
      intro k
      by_cases h : k < upperHex.length
      · rw [List.getD_eq_getElem _ _ h]; exact List.getElem_mem _
      · rw [List.getD_eq_default _ _ (by omega)]; decide
    rcases hb with h | h | h
    · exact Or.inr (Or.inl h)
    · exact Or.inr (Or.inr (h ▸ hm _))
    · exact Or.inr (Or.inr (h ▸ hm _))

theorem encodeURIComponent_no_amp (s : JSString) : '&' ∉ encodeURIComponent s := by
  intro h
  rcases encodeURIComponent_chars s _ h with h | h | h
  · exact absurd h (by decide)
  · exact absurd h (by decide)
  · exact absurd h (by decide)

theorem encodeURIComponent_no_eq (s : JSString) : '=' ∉ encodeURIComponent s := by
  intro h
  rcases encodeURIComponent_chars s _ h with h | h | h
  · exact absurd h (by decide)
  · exact absurd h (by decide)
  · exact absurd h (by decide)

theorem split_no_sep (sep : Char) (a : JSString) (h : sep ∉ a) : split sep a = [a] := by
  induction a with
  | nil => rfl
  | cons c a ih =>
    have hc : c ≠ sep := fun e => h (by simp [e])
    have ha : sep ∉ a := fun e => h (by simp [e])
    rw [split, if_neg hc, ih ha]

theorem split_append (sep : Char) (a b : JSString) (h : sep ∉ a) :
    split sep (a ++ sep :: b) = a :: split sep b := by
  induction a with
  | nil => simp [split]
  | cons c a ih =>
    have hc : c ≠ sep := fun e => h (by simp [e])
    have ha : sep ∉ a := fun e => h (by simp [e])
    rw [List.cons_append, split, if_neg hc, ih ha]

theorem split_intercalate (sep : Char) (a : JSString) (segs : List JSString)
    (h : ∀ x ∈ a :: segs, sep ∉ x) :
    split sep (List.intercalate [sep] (a :: segs)) = a :: segs := by
  induction segs generalizing a with
  | nil =>
    have e : List.intercalate [sep] [a] = a := by simp [List.intercalate]
    rw [e]
    exact split_no_sep sep a (h a (by simp))
  | cons b segs ih =>
    have e : List.intercalate [sep] (a :: b :: segs) =
        a ++ sep :: List.intercalate [sep] (b :: segs) := by
      simp [List.intercalate, List.intersperse]
    rw [e, split_append sep a _ (h a (by simp)), ih b (fun x hx => h x (by simp [hx]))]

theorem indexOf_append (c : Char) (a b : JSString) (h : c ∉ a) :
    indexOf c (a ++ c :: b) = some a.length := by
  induction a with
  | nil => simp [indexOf]
  | cons d a ih =>
    have hd : d ≠ c := fun e => h (by simp [e])
    have ha : c ∉ a := fun e => h (by simp [e])
    rw [List.cons_append, indexOf, if_neg hd, ih ha]
    rfl

/-- The callback of lines 131 to 137 reads back an entry `locationQuery`
wrote. -/
theorem collectEntry_encoded (parameters : JSObject) (k v : JSString) :
    collectEntry parameters (encodeURIComponent k ++ '=' :: encodeURIComponent v) =
      some (assign parameters k v) := by
  unfold collectEntry
  rw [indexOf_append _ _ _ (encodeURIComponent_no_eq k)]
  have e1 : List.take (encodeURIComponent k).length
      (encodeURIComponent k ++ '=' :: encodeURIComponent v) = encodeURIComponent k :=
    List.take_left _ _
  have e2 : List.drop ((encodeURIComponent k).length + 1)
      (encodeURIComponent k ++ '=' :: encodeURIComponent v) = encodeURIComponent v := by
    rw [List.drop_append]
    rfl
  simp only [e1, e2, decode_encode]

/-- Every step of the decoding loop takes at least one unit. -/
theorem decodeOne_length (us rest : List URIUnit) (c : Char)
    (h : decodeOne us = some (c, rest)) : rest.length < us.length := by
  unfold decodeOne at h
  split at h
  · cases h
  · injection h with h
    injection h with h1 h2
    subst h2
    simp
  · split_ifs at h
    · injection h with h
      injection h with h1 h2
      subst h2
      simp
    · split at h
      · simp only at h
        split_ifs at h
        injection h with h
        injection h with h1 h2
        subst h2
        simp only [List.length_cons]
        omega
      · cases h
    · split at h
      · simp only at h
        split_ifs at h
        injection h with h
        injection h with h1 h2
        subst h2
        simp only [List.length_cons]
        omega
      · cases h
    · split at h
      · simp only at h
        split_ifs at h
        injection h with h
        injection h with h1 h2
        subst h2
        simp only [List.length_cons]
        omega
      · cases h

/-- The decoding loop does not depend on its fuel, once the fuel is at least
the number of units: it never stops for lack of fuel. -/
theorem decodeLoop_fuel (m n : Nat) (us : List URIUnit) (hm : us.length ≤ m)
    (hn : us.length ≤ n) : decodeLoop m us = decodeLoop n us := by
  induction m generalizing n us with
  | zero =>
    have : us = [] := List.length_eq_zero.mp (by omega)
    subst this
    cases n <;> rfl
  | succ m ih =>
    cases us with
    | nil => cases n <;> rfl
    | cons u us =>
      cases n with
      | zero => simp at hn
      | succ n =>
        simp only [decodeLoop]
        cases hd : decodeOne (u :: us) with
        | none => rfl
        | some cr =>
          obtain ⟨c, rest⟩ := cr
          have hl := decodeOne_length _ _ _ hd
          simp only [List.length_cons] at hl hm hn
          simp only
          rw [ih n rest (by omega) (by omega)]

theorem hasOwnProperty_false (o : JSObject) (k : JSString) :
    hasOwnProperty o k = false ↔ k ∉ keys o := by
  unfold hasOwnProperty keys
  induction o with
  | nil => simp
  | cons kv o ih =>
    simp only [List.any_cons, Bool.or_eq_false_iff, decide_eq_false_iff_not, List.map_cons,
      List.mem_cons, not_or, ih]
    constructor
    · rintro ⟨h1, h2⟩
      exact ⟨fun e => h1 e.symm, h2⟩
    · rintro ⟨h1, h2⟩
      exact ⟨fun e => h1 e.symm, h2⟩

theorem insertProperty_append (k v : JSString) (o : JSObject)
    (h : ∀ a ∈ keys o, listedBefore k a = false) :
    insertProperty k v o = o ++ [(k, v)] := by
  induction o with
  | nil => rfl
  | cons kv o ih =>
    obtain ⟨k0, v0⟩ := kv
    have h0 : listedBefore k k0 = false := h k0 (by simp [keys])
    rw [insertProperty, h0]
    simp only [Bool.false_eq_true, if_false, List.cons_append, List.cons.injEq, true_and]
    exact ih (fun a ha => h a (by simp only [keys, List.map_cons, List.mem_cons]; exact Or.inr ha))

theorem keys_append (a b : JSObject) : keys (a ++ b) = keys a ++ keys b := by
  simp [keys]

theorem Listed_nil : Listed [] := by
  refine ⟨?_, ?_, ?_⟩ <;> simp [keys]

/-- Assigning the properties of a listed object in turn builds the object. -/
theorem foldl_assign_listed (rest acc : JSObject) (h : Listed (acc ++ rest)) :
    rest.foldl (fun o kv => assign o kv.1 kv.2) acc = acc ++ rest := by
  induction rest generalizing acc with
  | nil => simp
  | cons kv rest ih =>
    obtain ⟨k, v⟩ := kv
    obtain ⟨hnd, hproto, hpw⟩ := h
    rw [keys_append] at hnd hproto hpw
    simp only [keys, List.map_cons] at hnd hproto hpw
    have hk : k ∉ keys acc := by
      intro hmem
      have := (List.nodup_append.mp hnd).2.2
      exact this hmem (by simp)
    have hp : k ≠ "__proto__".data := by
      intro e
      exact hproto (by simp [e])
    have hord : ∀ a ∈ keys acc, listedBefore k a = false := by
      intro a ha
      exact (List.pairwise_append.mp hpw).2.2 a ha k (by simp)
    have hstep : assign acc k v = acc ++ [(k, v)] := by
      unfold assign
      rw [if_neg hp, (hasOwnProperty_false acc k).mpr hk]
      simp only [Bool.false_eq_true, if_false]
      exact insertProperty_append k v acc hord
    rw [List.foldl_cons]
    simp only [hstep]
    have hl : Listed ((acc ++ [(k, v)]) ++ rest) := by
      have e : (acc ++ [(k, v)]) ++ rest = acc ++ (k, v) :: rest := by simp
      rw [e]
      refine ⟨?_, ?_, ?_⟩ <;> rw [keys_append] <;> simp only [keys, List.map_cons]
      · exact hnd
      · exact hproto
      · exact hpw
    rw [ih _ hl]
    simp

/-- The entries `locationQuery` writes are read back by assignments. -/
theorem foldlM_collectEntry_encoded (P acc : JSObject) :
    (P.map fun kv => encodeURIComponent kv.1 ++ '=' :: encodeURIComponent kv.2).foldlM
        collectEntry acc =
      some (P.foldl (fun o kv => assign o kv.1 kv.2) acc) := by
  induction P generalizing acc with
  | nil => rfl
  | cons kv P ih =>
    simp only [List.map_cons, List.foldlM_cons, List.foldl_cons, collectEntry_encoded]
    exact ih _

/-- The query string `locationQuery` writes for a listed object is parsed
back to that object. -/
theorem collect_locationQuery (P : JSObject) (h : Listed P) :
    collectParameters (locationQuery P none) = some P := by
  unfold collectParameters locationQuery
  simp only [List.nil_append, List.drop_succ_cons, List.drop_zero]
  cases P with
  | nil => rfl
  | cons kv P =>
    rw [List.map_cons, split_intercalate]
    · have e := foldlM_collectEntry_encoded (kv :: P) []
      rw [List.map_cons] at e
      rw [e, foldl_assign_listed _ [] (by simpa using h)]
      rfl
    · intro x hx
      have hx0 : x ∈ (kv :: P).map
          fun kv => encodeURIComponent kv.1 ++ '=' :: encodeURIComponent kv.2 := by
        rw [List.map_cons]
        exact hx
      rw [List.mem_map] at hx0
      obtain ⟨kv0, _, rfl⟩ := hx0
      intro hmem
      rcases List.mem_append.mp hmem with h1 | h1
      · exact encodeURIComponent_no_amp _ h1
      · rcases List.mem_cons.mp h1 with h2 | h2
        · exact absurd h2 (by decide)
        · exact encodeURIComponent_no_amp _ h2

theorem keys_updateProperty (k v : JSString) (o : JSObject) :
    keys (updateProperty k v o) = keys o := by
  induction o with
  | nil => rfl
  | cons kv o ih =>
    obtain ⟨k0, v0⟩ := kv
    rw [updateProperty]
    split_ifs with h
    · rfl
    · simp only [keys, List.map_cons] at ih ⊢
      rw [ih]

theorem mem_keys_insertProperty (k v b : JSString) (o : JSObject) :
    b ∈ keys (insertProperty k v o) ↔ b = k ∨ b ∈ keys o := by
  induction o with
  | nil => simp [insertProperty, keys]
  | cons kv o ih =>
    obtain ⟨k0, v0⟩ := kv
    rw [insertProperty]
    split_ifs with h
    · simp [keys]
    · simp only [keys, List.map_cons, List.mem_cons] at ih ⊢
      rw [ih]
      tauto

theorem listedBefore_asymm (k k0 : JSString) (h : listedBefore k k0 = true) :
    listedBefore k0 k = false := by
  unfold listedBefore at h ⊢
  cases h1 : arrayIndex k <;> cases h2 : arrayIndex k0 <;> simp_all
  omega

theorem listedBefore_trans (k k0 b : JSString) (h : listedBefore k k0 = true)
    (hb : listedBefore b k0 = false) : listedBefore b k = false := by
  unfold listedBefore at h hb ⊢
  cases h1 : arrayIndex k <;> cases h2 : arrayIndex k0 <;> cases h3 : arrayIndex b <;> simp_all
  omega

theorem Listed_insertProperty (k v : JSString) (o : JSObject) (h : Listed o)
    (hk : k ∉ keys o) (hp : k ≠ "__proto__".data) : Listed (insertProperty k v o) := by
  induction o with
  | nil =>
    refine ⟨?_, ?_, ?_⟩ <;> simp [insertProperty, keys]
    exact fun e => hp e.symm
  | cons kv o ih =>
    obtain ⟨k0, v0⟩ := kv
    obtain ⟨hnd, hproto, hpw⟩ := h
    simp only [keys, List.map_cons, List.nodup_cons, List.mem_cons, not_or,
      List.pairwise_cons] at hnd hproto hpw hk
    have ho : Listed o := ⟨hnd.2, hproto.2, hpw.2⟩
    rw [insertProperty]
    split_ifs with hb
    · refine ⟨?_, ?_, ?_⟩
      · simp only [keys, List.map_cons, List.nodup_cons, List.mem_cons, not_or]
        exact ⟨⟨hk.1, hk.2⟩, hnd.1, hnd.2⟩
      · simp only [keys, List.map_cons, List.mem_cons, not_or]
        exact ⟨fun e => hp e.symm, hproto.1, hproto.2⟩
      · simp only [keys, List.map_cons, List.pairwise_cons, List.mem_cons]
        refine ⟨?_, hpw.1, hpw.2⟩
        rintro b (rfl | hb0)
        · exact listedBefore_asymm _ _ hb
        · exact listedBefore_trans _ _ _ hb (hpw.1 b hb0)
    · have hl := ih ho hk.2
      obtain ⟨i1, i2, i3⟩ := hl
      have hb' : listedBefore k k0 = false := by simpa using hb
      refine ⟨?_, ?_, ?_⟩
      · simp only [keys, List.map_cons, List.nodup_cons]
        refine ⟨?_, i1⟩
        intro hmem
        rcases (mem_keys_insertProperty k v k0 o).mp hmem with e | e
        · exact hk.1 e.symm
        · exact hnd.1 e
      · simp only [keys, List.map_cons, List.mem_cons, not_or]
        exact ⟨hproto.1, i2⟩
      · simp only [keys, List.map_cons, List.pairwise_cons]
        refine ⟨?_, i3⟩
        intro b hmem
        rcases (mem_keys_insertProperty k v b o).mp hmem with e | e
        · rw [e]; exact hb'
        · exact hpw.1 b e

theorem Listed_assign (o : JSObject) (k v : JSString) (h : Listed o) :
    Listed (assign o k v) := by
  unfold assign
  split_ifs with hp ho
  · exact h
  · unfold Listed
    rw [keys_updateProperty]
    exact h
  · have hk : k ∉ keys o := (hasOwnProperty_false o k).mp (by simpa using ho)
    exact Listed_insertProperty k v o h hk hp

theorem Listed_collectEntry (o o1 : JSObject) (entry : JSString) (h : Listed o)
    (he : collectEntry o entry = some o1) : Listed o1 := by
  unfold collectEntry at he
  split at he
  · split at he
    · injection he with he
      rw [← he]
      exact Listed_assign _ _ _ h
    · cases he
  · injection he with he
    rw [← he]
    exact h

theorem Listed_foldlM (entries : List JSString) (o o1 : JSObject) (h : Listed o)
    (he : entries.foldlM collectEntry o = some o1) : Listed o1 := by
  induction entries generalizing o with
  | nil =>
    simp only [List.foldlM_nil] at he
    injection he with he
    rw [← he]
    exact h
  | cons e entries ih =>
    rw [List.foldlM_cons] at he
    cases hc : collectEntry o e with
    | none => rw [hc] at he; cases he
    | some o2 =>
      rw [hc] at he
      exact ih o2 (Listed_collectEntry o o2 e h hc) he

/-- The object `parameters` is listed like every object built by assignments. -/
theorem Listed_collectParameters (search : JSString) (parameters : JSObject)
    (h : collectParameters search = some parameters) : Listed parameters :=
  Listed_foldlM _ [] parameters Listed_nil h

theorem Listed_filter (o : JSObject) (f : JSString × JSString → Bool) (h : Listed o) :
    Listed (o.filter f) := by
  obtain ⟨h1, h2, h3⟩ := h
  have hs : (keys (o.filter f)).Sublist (keys o) :=
    List.Sublist.map _ (List.filter_sublist o)
  exact ⟨h1.sublist hs, fun hm => h2 (hs.subset hm), h3.sublist hs⟩

theorem getOwn_of_mem (o : JSObject) (k v : JSString) (hnd : (keys o).Nodup)
    (hm : (k, v) ∈ o) : getOwn o k = some v := by
  induction o with
  | nil => cases hm
  | cons kv o ih =>
    obtain ⟨k0, v0⟩ := kv
    simp only [keys, List.map_cons, List.nodup_cons] at hnd
    unfold getOwn
    rw [List.find?_cons]
    rcases List.mem_cons.mp hm with e | e
    · injection e with e1 e2
      subst e1 e2
      simp
    · have hne : k0 ≠ k := by
        intro e0
        subst e0
        exact hnd.1 (List.mem_map_of_mem Prod.fst e)
      simp only [hne, decide_False]
      exact ih hnd.2 e

theorem getOwn_filter (o : JSObject) (k : JSString) :
    getOwn (o.filter fun kv => !graphqlParamNames kv.1) k =
      if graphqlParamNames k then none else getOwn o k := by
  induction o with
  | nil => simp [getOwn]
  | cons kv o ih =>
    obtain ⟨k0, v0⟩ := kv
    unfold getOwn at ih ⊢
    rw [List.filter_cons]
    by_cases hg : graphqlParamNames k0 = true
    · simp only [hg, Bool.not_true, Bool.false_eq_true, if_false]
      rw [ih, List.find?_cons]
      by_cases hk : k0 = k
      · subst hk
        simp [hg]
      · simp [hk]
    · have hg0 : graphqlParamNames k0 = false := by simpa using hg
      simp only [hg0, Bool.not_false, if_true]
      rw [List.find?_cons, List.find?_cons]
      by_cases hk : k0 = k
      · subst hk
        simp [hg0]
      · simp only [hk, decide_False]
        exact ih

/-- The loop of lines 155 to 159 assigns the properties that are not GraphQL
parameters, in turn. -/
theorem foldlM_otherParamsStep (parameters l acc : JSObject)
    (hown : hasOwnProperty parameters "hasOwnProperty".data = false)
    (hl : ∀ kv ∈ l, getOwn parameters kv.1 = some kv.2) :
    (keys l).foldlM (otherParamsStep parameters) acc =
      some ((l.filter fun kv => !graphqlParamNames kv.1).foldl
        (fun o kv => assign o kv.1 kv.2) acc) := by
  induction l generalizing acc with
  | nil => rfl
  | cons kv l ih =>
    obtain ⟨k, v⟩ := kv
    have hkv := hl (k, v) (by simp)
    have hl0 : ∀ kv ∈ l, getOwn parameters kv.1 = some kv.2 :=
      fun kv hm => hl kv (by simp [hm])
    have hstep : otherParamsStep parameters acc k =
        some (if graphqlParamNames k = true then acc else assign acc k v) := by
      unfold otherParamsStep
      simp only at hkv
      simp only [hown, Bool.false_eq_true, if_false, hkv]
      by_cases hg : graphqlParamNames k = true
      · simp [hg]
      · simp [hg]
    simp only [keys, List.map_cons, List.foldlM_cons] at ih ⊢
    rw [hstep, List.filter_cons]
    by_cases hg : graphqlParamNames k = true
    · simp only [hg, Bool.not_true, Bool.false_eq_true, if_false, if_true]
      exact ih acc hl0
    · have hg0 : graphqlParamNames k = false := by simpa using hg
      simp only [hg0, Bool.not_false, if_true, Bool.false_eq_true, if_false, List.foldl_cons]
      exact ih _ hl0

/-- The object `otherParams`: the properties of `parameters` that are not
GraphQL parameters, in their order. -/
theorem deriveOtherParams_eq (parameters : JSObject) (h : Listed parameters)
    (hown : hasOwnProperty parameters "hasOwnProperty".data = false) :
    deriveOtherParams parameters =
      some (parameters.filter fun kv => !graphqlParamNames kv.1) := by
  unfold deriveOtherParams
  rw [foldlM_otherParamsStep parameters parameters [] hown
    (fun kv hm => getOwn_of_mem parameters kv.1 kv.2 h.1 hm)]
  rw [foldl_assign_listed _ [] (by simpa using Listed_filter parameters _ h)]
  rfl

theorem encodeURIComponent_no_hash (s : JSString) : '#' ∉ encodeURIComponent s := by
  intro h
  rcases encodeURIComponent_chars s _ h with h | h | h
  · exact absurd h (by decide)
  · exact absurd h (by decide)
  · exact absurd h (by decide)

/-- The query string `locationQuery` writes holds no `#`. -/
theorem locationQuery_no_hash (P : JSObject) : '#' ∉ locationQuery P none := by
  unfold locationQuery
  intro h
  simp only [List.nil_append, List.mem_cons] at h
  rcases h with h | h
  · exact absurd h (by decide)
  · induction P with
    | nil => exact absurd h (by decide)
    | cons kv P ih =>
      cases P with
      | nil =>
        simp only [List.map_cons, List.map_nil, List.intercalate, List.intersperse,
          List.flatten_cons, List.flatten_nil, List.append_nil, List.mem_append,
          List.mem_cons] at h
        rcases h with h | h | h
        · exact encodeURIComponent_no_hash _ h
        · exact absurd h (by decide)
        · exact encodeURIComponent_no_hash _ h
      | cons kv1 P =>
        simp only [List.map_cons, List.intercalate, List.intersperse,
          List.flatten_cons, List.mem_append, List.mem_cons, List.mem_singleton,
          List.not_mem_nil, or_false] at h ih
        rcases h with (h | h | h) | h | h
        · exact encodeURIComponent_no_hash _ h
        · exact absurd h (by decide)
        · exact encodeURIComponent_no_hash _ h
        · exact absurd h (by decide)
        · exact ih h

theorem dropWhile_append_stop (p : Char → Bool) (e r : List Char) (x : Char)
    (he : ∀ c ∈ e, p c = true) (hx : p x = false) :
    (e ++ x :: r).dropWhile p = x :: r := by
  induction e with
  | nil => simp [List.dropWhile, hx]
  | cons c e ih =>
    simp only [List.cons_append, List.dropWhile_cons, he c (by simp), if_true]
    exact ih fun c hc => he c (by simp [hc])

/-- The query string of `fetchURL`, when the endpoint has no query and no
fragment: the query string of `otherParams`, empty when there are none. -/
theorem urlSearch_fetchURL (endpoint : String) (P : JSObject)
    (hq : '?' ∉ endpoint.data) (hf : '#' ∉ endpoint.data) :
    urlSearch (fetchURL endpoint P) = if P = [] then [] else locationQuery P none := by
  have hfetch : fetchURL endpoint P = endpoint.data ++ locationQuery P none := by
    unfold fetchURL
    split_ifs with h
    · rfl
    · have : endpoint = "" := by simpa using h
      subst this
      rfl
  have hnh := locationQuery_no_hash P
  have htake : (fetchURL endpoint P).takeWhile (fun c => c != '#') = fetchURL endpoint P := by
    rw [List.takeWhile_eq_self_iff]
    intro c hc
    rw [hfetch] at hc
    rcases List.mem_append.mp hc with h | h
    · simp only [bne_iff_ne, ne_eq]
      rintro rfl
      exact hf h
    · simp only [bne_iff_ne, ne_eq]
      rintro rfl
      exact hnh h
  have hlq : locationQuery P none = '?' :: List.intercalate ['&']
      (P.map fun kv => encodeURIComponent kv.1 ++ '=' :: encodeURIComponent kv.2) := rfl
  have hdrop : ((fetchURL endpoint P).takeWhile (fun c => c != '#')).dropWhile
      (fun c => c != '?') = locationQuery P none := by
    rw [htake, hfetch, hlq]
    apply dropWhile_append_stop
    · intro c hc
      simp only [bne_iff_ne, ne_eq]
      rintro rfl
      exact hq hc
    · simp
  unfold urlSearch
  simp only [hdrop]
  cases P with
  | nil => rfl
  | cons kv P =>
    have hne : locationQuery (kv :: P) none ≠ ['?'] := by
      rw [hlq]
      intro h
      have h1 : List.intercalate ['&'] ((kv :: P).map fun kv =>
          encodeURIComponent kv.1 ++ '=' :: encodeURIComponent kv.2) = [] := by
        simpa using h
      have h2 : '=' ∈ List.intercalate ['&'] ((kv :: P).map fun kv =>
          encodeURIComponent kv.1 ++ '=' :: encodeURIComponent kv.2) := by
        cases P with
        | nil => simp [List.intercalate, List.intersperse]
        | cons kv1 P => simp [List.intercalate, List.intersperse]
      rw [h1] at h2
      simp at h2
    simp [hne]

/-- When `parameters` has an own property named `hasOwnProperty`, the loop of
lines 155 to 159 throws. -/
theorem deriveOtherParams_none (parameters : JSObject)
    (h : hasOwnProperty parameters "hasOwnProperty".data = true) :
    deriveOtherParams parameters = none := by
  unfold deriveOtherParams
  cases parameters with
  | nil => simp [hasOwnProperty] at h
  | cons kv rest =>
    have hstep : otherParamsStep (kv :: rest) [] kv.1 = none := by
      unfold otherParamsStep
      rw [if_pos h]
    simp only [keys, List.map_cons, List.foldlM_cons, hstep]
    rfl

/-- Every object built by assignments is listed. -/
theorem Listed_foldl_assign (entries : List (JSString × JSString)) (o : JSObject)
    (h : Listed o) : Listed (entries.foldl (fun o kv => assign o kv.1 kv.2) o) := by
  induction entries generalizing o with
  | nil => exact h
  | cons kv entries ih => exact ih _ (Listed_assign o kv.1 kv.2 h)

theorem Listed_objectOf (entries : List (JSString × JSString)) : Listed (objectOf entries) :=
  Listed_foldl_assign entries [] Listed_nil

/-- With an endpoint that has a query of its own, `fetchURL` has two `?`: the
query string of `/api?v=2?trace=1` is `?v=2?trace=1`, which does not parse to
`otherParams`. -/
theorem fetchURL_endpoint_with_query :
    (bootstrap "/api?v=2" "?query=q&trace=1".data).map ScriptState.otherParams =
      some [("trace".data, "1".data)] ∧
    (bootstrap "/api?v=2" "?query=q&trace=1".data).map ScriptState.fetchURL =
      some "/api?v=2?trace=1".data ∧
    urlSearch "/api?v=2?trace=1".data = "?v=2?trace=1".data ∧
    collectParameters (urlSearch "/api?v=2?trace=1".data) =
      some [("v".data, "2?trace=1".data)] := by
  decide!

/-- C9, counterexample: at the query string `?trace=1&a=%` the call of
`decodeURIComponent` throws, the script stops before line 154, and there is
no `otherParams` and no `fetchURL`. -/
theorem C9_counterexample :
    collectParameters "?trace=1&a=%".data = none ∧
    bootstrap "/graphql" "?trace=1&a=%".data = none := by
  decide!

/-- C9, amended: the script runs to line 172 without an exception exactly
when every `name=value` entry of the address-bar query string percent-decodes
(so that `parameters` is collected) and no parameter is named
`hasOwnProperty`. Whenever it does, `otherParams` holds exactly the properties
of `parameters` whose name is not `query`, `variables` or `operationName`,
each with its value, in their order, so no name in it is one of the three;
`fetchURL` is `locationQuery(otherParams, Endpoint)` when the page has an
endpoint and `locationQuery(otherParams)` otherwise, which is the endpoint
text followed by the query string of `otherParams`; that query string parses
back to `otherParams`; and when the endpoint holds no `?` and no `#`, as when
there is none, the query string of `fetchURL` parses to `otherParams`. -/
theorem C9_other_params (endpoint : String) (search : JSString) :
    ((∃ st, bootstrap endpoint search = some st) ↔
      ∃ parameters, collectParameters search = some parameters ∧
        hasOwnProperty parameters "hasOwnProperty".data = false) ∧
    ∀ st, bootstrap endpoint search = some st →
      collectParameters search = some st.parameters ∧
      st.otherParams = (st.parameters.filter fun kv => !graphqlParamNames kv.1) ∧
      (∀ k, getOwn st.otherParams k =
        if graphqlParamNames k then none else getOwn st.parameters k) ∧
      st.fetchURL =
        (if endpoint ≠ "" then locationQuery st.otherParams (some endpoint.data)
          else locationQuery st.otherParams none) ∧
      st.fetchURL =
        (if endpoint ≠ "" then endpoint.data else []) ++ locationQuery st.otherParams none ∧
      (∀ k ∈ keys st.otherParams, graphqlParamNames k = false) ∧
      collectParameters (locationQuery st.otherParams none) = some st.otherParams ∧
      ('?' ∉ endpoint.data → '#' ∉ endpoint.data →
        collectParameters (urlSearch st.fetchURL) = some st.otherParams) := by
  have hsome : ∀ parameters, collectParameters search = some parameters →
      hasOwnProperty parameters "hasOwnProperty".data = false →
      bootstrap endpoint search = some ⟨parameters,
        parameters.filter fun kv => !graphqlParamNames kv.1,
        fetchURL endpoint (parameters.filter fun kv => !graphqlParamNames kv.1)⟩ := by
    intro parameters hparse hown
    have hd := deriveOtherParams_eq parameters
      (Listed_collectParameters search parameters hparse) hown
    unfold bootstrap
    rw [hparse]
    simp only [hd]
  have hconv : ∀ st, bootstrap endpoint search = some st →
      collectParameters search = some st.parameters ∧
        hasOwnProperty st.parameters "hasOwnProperty".data = false := by
    intro st hst
    unfold bootstrap at hst
    cases hparse : collectParameters search with
    | none => rw [hparse] at hst; cases hst
    | some parameters =>
      rw [hparse] at hst
      simp only [] at hst
      cases hown : hasOwnProperty parameters "hasOwnProperty".data with
      | true =>
        rw [deriveOtherParams_none parameters hown] at hst
        cases hst
      | false =>
        cases hd : deriveOtherParams parameters with
        | none => rw [hd] at hst; cases hst
        | some o =>
          rw [hd] at hst
          injection hst with hst
          rw [← hst]
          exact ⟨rfl, hown⟩
  refine ⟨⟨fun ⟨st, hst⟩ => ⟨st.parameters, hconv st hst⟩,
    fun ⟨parameters, hparse, hown⟩ => ⟨_, hsome parameters hparse hown⟩⟩, ?_⟩
  intro st hst
  obtain ⟨hparse, hown⟩ := hconv st hst
  have hst2 := hsome st.parameters hparse hown
  rw [hst] at hst2
  injection hst2 with hst2
  have hl := Listed_collectParameters search st.parameters hparse
  have hlf := Listed_filter st.parameters (fun kv => !graphqlParamNames kv.1) hl
  have ho : st.otherParams = st.parameters.filter fun kv => !graphqlParamNames kv.1 := by
    rw [hst2]
  have hfu : st.fetchURL = fetchURL endpoint st.otherParams := by
    rw [ho, hst2]
  refine ⟨hparse, ho, ?_, ?_, ?_, ?_, ?_, ?_⟩
  · rw [ho]
    exact fun k => getOwn_filter st.parameters k
  · rw [hfu]
    rfl
  · rw [hfu]
    unfold fetchURL
    split_ifs
    · rfl
    · rfl
  · intro k hk
    rw [ho] at hk
    unfold keys at hk
    rw [List.mem_map] at hk
    obtain ⟨kv, hkv, rfl⟩ := hk
    have := (List.mem_filter.mp hkv).2
    simpa using this
  · rw [ho]
    exact collect_locationQuery _ hlf
  · intro hq hf
    rw [hfu, urlSearch_fetchURL endpoint _ hq hf]
    split_ifs with he
    · rw [he]
      rfl
    · rw [ho]
      exact collect_locationQuery _ hlf

/-- Witness of C9 at `sampleSearch`, in a page with the endpoint
`/graphql`. -/
theorem C9_witness :
    bootstrap "/graphql" sampleSearch = some sampleState ∧
    collectParameters (urlSearch sampleState.fetchURL) = some sampleState.otherParams :=
  ⟨by decide!,
    ((C9_other_params "/graphql" sampleSearch).2 sampleState (by decide!)).2.2.2.2.2.2.2
      (by decide) (by decide)⟩

/-- C10: for every parameter set `P` the script can hold, that is, every
object built from the empty object by assignments `P[k] = v`, parsing the
query string `locationQuery(P)` as lines 131 to 137 do gives `P`, and so
`locationQuery` of the parsed set, with or without a location, is the string
it is for `P`. These are the objects with distinct names, none of them
`__proto__`, in the order of `Object.keys`; every object the script parses
from an address bar is one of them, and so is every edit of one. -/
theorem C10_round_trip (entries : List (JSString × JSString)) :
    collectParameters (locationQuery (objectOf entries) none) = some (objectOf entries) ∧
    (∀ parsed, collectParameters (locationQuery (objectOf entries) none) = some parsed →
      ∀ location, locationQuery parsed location = locationQuery (objectOf entries) location) ∧
    (∀ P : JSObject, Listed P ↔ ∃ es, P = objectOf es) ∧
    (∀ search parameters, collectParameters search = some parameters →
      ∃ es, parameters = objectOf es) ∧
    (∀ k v, assign (objectOf entries) k v = objectOf (entries ++ [(k, v)])) := by
  have key := collect_locationQuery (objectOf entries) (Listed_objectOf entries)
  have hiff : ∀ P : JSObject, Listed P ↔ ∃ es, P = objectOf es := by
    intro P
    constructor
    · intro h
      exact ⟨P, (foldl_assign_listed P [] (by simpa using h)).symm⟩
    · rintro ⟨es, rfl⟩
      exact Listed_objectOf es
  refine ⟨key, ?_, hiff, ?_, ?_⟩
  · intro parsed hp location
    rw [key] at hp
    injection hp with hp
    rw [hp]
  · intro search parameters hp
    exact (hiff parameters).mp (Listed_collectParameters search parameters hp)
  · intro k v
    simp [objectOf, List.foldl_append]

/-- Witness of C10 at the assignments the script makes for `sampleSearch`;
an assignment to the name `__proto__` creates no property. -/
theorem C10_witness :
    objectOf sampleEntries = sampleParameters ∧
    locationQuery sampleParameters none =
      "?2=b&query=%7Bhello%7D&trace=1&variables=&x=%E2%82%AC&operationName=Q".data ∧
    collectParameters (locationQuery (objectOf sampleEntries) none) =
      some (objectOf sampleEntries) ∧
    objectOf [("__proto__".data, "x".data), ("a".data, "1".data)] = [("a".data, "1".data)] :=
  ⟨by decide!, by decide!, (C10_round_trip sampleEntries).1, by decide!⟩

end GraphiQL
